import Mathlib

/-!
SeekGzip: index lookup, extraction, index building, index codec

A shallow embedding of `seekgzip.c` and of the range reader of `main.c`.

* C integers are `Int`/`Nat`; conversions that can change a value are explicit
  (`to_int`, `to_unsigned`, `to_uint32`, `to_off_t`).
* The zlib decoder is an external library: it is a parameter `z : Zlib σ` of every
  function that inflates, `σ` being the type of its internal state.
* Loops that run as long as the decoder asks them to take a `fuel` argument and
  return `none` when it runs out.
-/

namespace Seekgzip

/-! ## Machine integers and zlib constants -/

/-- Bytes of files and buffers (`unsigned char`). -/
abbrev Byte := Nat

/-- Conversion to C `int` (32-bit two's complement). -/
def to_int (x : Int) : Int := (x + 2147483648) % 4294967296 - 2147483648

/-- Conversion to C `unsigned` (32 bits). -/
def to_unsigned (x : Int) : Nat := (x % 4294967296).toNat

def SPAN : Int := 1048576

def WINSIZE : Nat := 32768

def CHUNK : Nat := 16384

def Z_OK : Int := 0

def Z_STREAM_END : Int := 1

def Z_NEED_DICT : Int := 2

def Z_ERRNO : Int := -1

def Z_STREAM_ERROR : Int := -2

def Z_DATA_ERROR : Int := -3

def Z_MEM_ERROR : Int := -4

def Z_BUF_ERROR : Int := -5

def Z_NO_FLUSH : Int := 0

def Z_BLOCK : Int := 5

/-! ## Access points and the index -/

/-- Access point entry (`struct point`); the field `in` of the source is `in_`. -/
structure point where
  out : Int
  in_ : Int
  bits : Int
  window : List Byte
deriving DecidableEq

/-- Access point list (`struct access`): `list` holds the `nelements` filled entries. -/
structure access where
  allocated : Nat
  list : List point
deriving DecidableEq

def access.nelements (index : access) : Nat := index.list.length

/-- The `while (0 < len)` loop of `findpoint`; `first` counts entries from `&index->list[0]`.
Every round at least halves `len`, so `fuel = len` rounds are enough. -/
def findpoint_loop (list : List point) (offset : Int) : Nat → Nat → Nat → Nat
  | 0, first, _ => first
  | fuel + 1, first, len =>
    if 0 < len then
      let half := len >>> 1
      let middle := first + half
      match list[middle]? with
      | none => first
      | some m =>
        if offset < m.out then findpoint_loop list offset fuel first half
        else findpoint_loop list offset fuel (middle + 1) (len - half - 1)
    else first

/-- The value of `first` when the loop of `findpoint` ends. `int len = index->nelements`
converts the element count to `int`; a non-positive `len` skips the loop. -/
def findpoint_first (index : access) (offset : Int) : Nat :=
  let len : Int := to_int index.nelements
  findpoint_loop index.list offset len.toNat 0 len.toNat

/-- `findpoint`: `NULL` is `none`, otherwise the entry at `first - 1`. -/
def findpoint (index : access) (offset : Int) : Option point :=
  let first := findpoint_first index offset
  if first = 0 then none else index.list[first - 1]?

/-! ## The compressed file (`FILE *`) -/

/-- A stdio stream opened for reading: content, position, error indicator, and whether
the device fails on reads. -/
structure FILE where
  data : List Byte
  pos : Nat
  err : Bool
  faulty : Bool
deriving DecidableEq

/-- `fread(input, 1, n, in)`: the bytes read and the stream afterwards. -/
def fread (f : FILE) (n : Nat) : List Byte × FILE :=
  if f.faulty then ([], { f with err := true })
  else ((f.data.drop f.pos).take n, { f with pos := f.pos + ((f.data.drop f.pos).take n).length })

def ferror (f : FILE) : Bool := f.err

/-- `fseeko(in, off, SEEK_SET)`: fails with -1 on a negative offset. -/
def fseeko (f : FILE) (off : Int) : Int × FILE :=
  if off < 0 then (-1, f) else (0, { f with pos := off.toNat })

/-- `getc(in)`: the byte read, or -1 at end of file or on a read error. -/
def getc (f : FILE) : Int × FILE :=
  if f.faulty then (-1, { f with err := true })
  else
    match f.data[f.pos]? with
    | none => (-1, f)
    | some b => ((b : Int), { f with pos := f.pos + 1 })

/-! ## The zlib decoder -/

/-- What one call of zlib's `inflate` did: its return code, how many of the offered input
bytes it consumed, the bytes it stored at `next_out`, `data_type`, and its new state. -/
structure inflate_result (σ : Type) where
  ret : Int
  consumed : Nat
  output : List Byte
  data_type : Nat
  state : σ

/-- The decoder library. `inflate s input avail_out flush` is given the `avail_in` bytes at
`next_in` and the room at `next_out`. -/
structure Zlib (σ : Type) where
  inflateInit2 : Int → Int × σ
  inflatePrime : σ → Int → Int → σ
  inflateSetDictionary : σ → List Byte → σ
  inflate : σ → List Byte → Nat → Int → inflate_result σ

/-- The fields of `z_stream` the program uses; `avail_in` is the length of `next_in`.
`total_in` and `total_out` are zlib's own running counts. -/
structure z_stream (σ : Type) where
  next_in : List Byte
  avail_out : Nat
  total_in : Nat
  total_out : Nat
  data_type : Nat
  state : σ

def z_stream.avail_in {σ : Type} (strm : z_stream σ) : Nat := strm.next_in.length

/-- One call `inflate(&strm, flush)`: return code, bytes stored at `next_out`, stream after. -/
def inflate {σ : Type} (z : Zlib σ) (strm : z_stream σ) (flush : Int) :
    Int × List Byte × z_stream σ :=
  let r := z.inflate strm.state strm.next_in strm.avail_out flush
  (r.ret, r.output,
    { next_in := strm.next_in.drop r.consumed
      avail_out := strm.avail_out - r.output.length
      total_in := strm.total_in + r.consumed
      total_out := strm.total_out + r.output.length
      data_type := r.data_type
      state := r.state })

/-- Storing `src` into the buffer `dst` from position `pos` on. -/
def memcpy (dst : List Byte) (pos : Nat) (src : List Byte) : List Byte :=
  dst.take pos ++ src ++ dst.drop (pos + src.length)

/-! ## extract -/

/-- State at the exit of a loop of `extract`; `jump` tells that it was left by
`goto extract_ret`. -/
structure extract_state (σ : Type) where
  ret : Int
  jump : Bool
  file : FILE
  strm : z_stream σ
  buf : List Byte

/-- The block `if (strm.avail_in == 0) { … }` of the inner loop of `extract`: the code with
which it jumps to `extract_ret`, if it does, and the file and the stream after it. -/
def extract_refill {σ : Type} (file : FILE) (strm : z_stream σ) :
    Option Int × FILE × z_stream σ :=
  if strm.avail_in = 0 then
    let rd := fread file CHUNK
    let strm1 := { strm with next_in := rd.1 }
    if ferror rd.2 then (some Z_ERRNO, rd.2, strm1)
    else if strm1.avail_in = 0 then (some Z_DATA_ERROR, rd.2, strm1)
    else (none, rd.2, strm1)
  else (none, file, strm)

/-- The inner `do … while (strm.avail_out != 0)` loop of `extract`. While `skip` is set
`next_out` points into the local `discard`, afterwards into `buf` at `len - avail_out`. -/
def extract_inner {σ : Type} (z : Zlib σ) (len : Int) (skip : Bool) :
    Nat → FILE → z_stream σ → List Byte → Option (extract_state σ)
  | 0, _, _, _ => none
  | fuel + 1, file, strm, buf =>
    let rf := extract_refill file strm
    match rf.1 with
    | some e => some ⟨e, true, rf.2.1, rf.2.2, buf⟩
    | none =>
      let r := inflate z rf.2.2 Z_NO_FLUSH
      let buf2 := if skip then buf else memcpy buf (to_unsigned len - rf.2.2.avail_out) r.2.1
      let ret := if r.1 = Z_NEED_DICT then Z_DATA_ERROR else r.1
      if ret = Z_MEM_ERROR ∨ ret = Z_DATA_ERROR then some ⟨ret, true, rf.2.1, r.2.2, buf2⟩
      else if ret = Z_STREAM_END then some ⟨ret, false, rf.2.1, r.2.2, buf2⟩
      else if r.2.2.avail_out ≠ 0 then extract_inner z len skip fuel rf.2.1 r.2.2 buf2
      else some ⟨ret, false, rf.2.1, r.2.2, buf2⟩

/-- The outer `do … while (skip)` loop of `extract`, up to the computation of the number
of bytes read. -/
def extract_outer {σ : Type} (z : Zlib σ) (len : Int) :
    Nat → FILE → z_stream σ → List Byte → Int → Bool → Option (extract_state σ)
  | 0, _, _, _, _, _ => none
  | fuel + 1, file, strm, buf, offset, skip =>
    let deliver : Bool := decide (offset = 0) && skip
    let strm1 := if deliver then { strm with avail_out := to_unsigned len } else strm
    let skip1 := if deliver then false else skip
    let strm2 :=
      if offset > WINSIZE then { strm1 with avail_out := WINSIZE }
      else if offset ≠ 0 then { strm1 with avail_out := to_unsigned offset }
      else strm1
    let offset2 := if offset > WINSIZE then offset - WINSIZE else if offset ≠ 0 then 0 else offset
    match extract_inner z len skip1 fuel file strm2 buf with
    | none => none
    | some r =>
      if r.jump then some r
      else if r.ret = Z_STREAM_END ∨ skip1 = false then
        some { r with ret := if skip1 then 0 else to_int (len - r.strm.avail_out) }
      else extract_outer z len fuel r.file r.strm r.buf offset2 skip1

/-- Result of `extract`: the value returned, the file and the caller's buffer afterwards,
and the decoder stream as it was just before `inflateEnd` (when one was set up). -/
structure extract_result (σ : Type) where
  ret : Int
  file : FILE
  buf : List Byte
  strm : Option (z_stream σ)

/-- The part of `extract` headed "initialize file and inflate state to start there". Either
`extract` returns from it (`error`: the value returned, the file, the stream if one was set
up), or the file is positioned and the stream is set up (`ok`): raw inflate, primed with
the bits of the byte before `here->in`, with the window installed as dictionary. -/
def extract_init {σ : Type} (z : Zlib σ) (file : FILE) (here : point) :
    Except (Int × FILE × Option (z_stream σ)) (FILE × z_stream σ) :=
  let i := z.inflateInit2 (-15)
  if i.1 ≠ Z_OK then .error (i.1, file, none)
  else
    let sk := fseeko file (here.in_ - (if here.bits ≠ 0 then 1 else 0))
    if sk.1 = -1 then .error (sk.1, sk.2, some ⟨[], 0, 0, 0, 0, i.2⟩)
    else if here.bits ≠ 0 then
      let c := getc sk.2
      if c.1 = -1 then
        .error (if ferror c.2 then Z_ERRNO else Z_DATA_ERROR, c.2, some ⟨[], 0, 0, 0, 0, i.2⟩)
      else
        let s1 := z.inflatePrime i.2 here.bits (c.1 >>> (8 - here.bits).toNat)
        .ok (c.2, ⟨[], 0, 0, 0, 0, z.inflateSetDictionary s1 here.window⟩)
    else .ok (sk.2, ⟨[], 0, 0, 0, 0, z.inflateSetDictionary i.2 here.window⟩)

/-- `extract(in, index, offset, buf, len)`. -/
def extract {σ : Type} (z : Zlib σ) (fuel : Nat) (file : FILE) (index : access)
    (offset : Int) (buf : List Byte) (len : Int) : Option (extract_result σ) :=
  if len < 0 then some ⟨0, file, buf, none⟩
  else
    match findpoint index offset with
    | none => some ⟨0, file, buf, none⟩
    | some here =>
      match extract_init z file here with
      | .error e => some ⟨e.1, e.2.1, buf, e.2.2⟩
      | .ok s =>
        match extract_outer z len fuel s.1 { s.2 with next_in := [] } buf
            (offset - here.out) true with
        | none => none
        | some r => some ⟨r.ret, r.file, r.buf, some r.strm⟩

/-- Contract of the decoder for a resumed raw-deflate stream. `Inv s rest D` reads: in state
`s`, with the compressed bytes `rest` still ahead in the file, the decoder has exactly the
bytes `D` left to produce before it reports the end of the stream. A call of `inflate` that
is offered a non-empty part `inp` of `rest` consumes no more than it is offered, stores no
more than there is room for, stores the next bytes of `D`, and either reports the end having
produced all of `D`, or returns `Z_OK` or `Z_BUF_ERROR` in a state for which the same holds
for what is left, having made progress if there was room. As long as the end has not been
reported, compressed bytes remain. -/
structure Decodes {σ : Type} (z : Zlib σ) (Inv : σ → List Byte → List Byte → Prop) : Prop where
  input_left : ∀ s rest D, Inv s rest D → rest ≠ []
  step : ∀ s inp more D ao, Inv s (inp ++ more) D → inp ≠ [] →
    (z.inflate s inp ao Z_NO_FLUSH).consumed ≤ inp.length ∧
    (z.inflate s inp ao Z_NO_FLUSH).output.length ≤ ao ∧
    (z.inflate s inp ao Z_NO_FLUSH).output =
      D.take (z.inflate s inp ao Z_NO_FLUSH).output.length ∧
    (((z.inflate s inp ao Z_NO_FLUSH).ret = Z_STREAM_END ∧
        (z.inflate s inp ao Z_NO_FLUSH).output = D) ∨
      (((z.inflate s inp ao Z_NO_FLUSH).ret = Z_OK ∨
          (z.inflate s inp ao Z_NO_FLUSH).ret = Z_BUF_ERROR) ∧
        Inv (z.inflate s inp ao Z_NO_FLUSH).state
          ((inp ++ more).drop (z.inflate s inp ao Z_NO_FLUSH).consumed)
          (D.drop (z.inflate s inp ao Z_NO_FLUSH).output.length) ∧
        (0 < ao → 0 < (z.inflate s inp ao Z_NO_FLUSH).consumed +
          (z.inflate s inp ao Z_NO_FLUSH).output.length)))

/-! ## The session -/

/-- Modelled from the spec: the header `seekgzip.h`, which gives the `SEEKGZIP_*` codes
their values, is not among the sources; the codes are the distinct kinds of section 7. -/
inductive seekgzip_code where
  | SEEKGZIP_SUCCESS
  | SEEKGZIP_ERROR
  | SEEKGZIP_OPENERROR
  | SEEKGZIP_READERROR
  | SEEKGZIP_WRITEERROR
  | SEEKGZIP_DATAERROR
  | SEEKGZIP_OUTOFMEMORY
  | SEEKGZIP_IMCOMPATIBLE
  | SEEKGZIP_ZLIBERROR
  | SEEKGZIP_EXPIREDINDEX
deriving DecidableEq

export seekgzip_code (SEEKGZIP_SUCCESS SEEKGZIP_ERROR SEEKGZIP_OPENERROR SEEKGZIP_READERROR
  SEEKGZIP_WRITEERROR SEEKGZIP_DATAERROR SEEKGZIP_OUTOFMEMORY SEEKGZIP_IMCOMPATIBLE
  SEEKGZIP_ZLIBERROR SEEKGZIP_EXPIREDINDEX)

/-- The handle `struct tag_seekgzip`; the two paths live in the file system model `Env`.
`index = none` is the `NULL` pointer. -/
structure seekgzip_t where
  fp : FILE
  index : Option access
  offset : Int
  totin : Int
  totout : Int
  errorcode : seekgzip_code
deriving DecidableEq

def seekgzip_seek (sz : seekgzip_t) (offset : Int) : seekgzip_t :=
  { sz with offset := offset }

def seekgzip_tell (sz : seekgzip_t) : Int := sz.offset

def seekgzip_unpacked_length (sz : seekgzip_t) : Int := sz.totout

def seekgzip_packed_length (sz : seekgzip_t) : Int := sz.totin

/-- `seekgzip_read(sz, buffer, size)`: the value returned, the buffer and the handle
afterwards. A handle without index (`NULL`) cannot be read. -/
def seekgzip_read {σ : Type} (z : Zlib σ) (fuel : Nat) (sz : seekgzip_t) (buffer : List Byte)
    (size : Int) : Option (Int × List Byte × seekgzip_t) :=
  match sz.index with
  | none => none
  | some index =>
    match extract z fuel sz.fp index sz.offset buffer size with
    | none => none
    | some r =>
      let len := r.ret
      let sz1 := { sz with fp := r.file }
      if 0 < len then some (len, r.buf, { sz1 with offset := sz1.offset + len })
      else some (len, r.buf, sz1)

/-! ## Building the index -/

/-- `addpoint`: `none` is the `NULL` returned when `realloc` fails; `alloc n` tells whether
the list can be (re)allocated with room for `n` entries. The window of the new entry is
filled by the two `memcpy` calls. -/
def addpoint (alloc : Nat → Bool) (index : access) (bits : Int) (in_ : Int) (out : Int)
    (left : Nat) (window : List Byte) : Option access :=
  let grown : Option access :=
    if index.nelements = index.allocated then
      let allocated := (if index.allocated ≠ 0 then index.allocated else 1) <<< 1
      if alloc allocated then some { index with allocated := allocated } else none
    else some index
  match grown with
  | none => none
  | some index1 =>
    let w0 : List Byte := List.replicate WINSIZE 0
    let w1 := if left ≠ 0 then memcpy w0 0 ((window.drop (WINSIZE - left)).take left) else w0
    let w2 := if left < WINSIZE then memcpy w1 left (window.take (WINSIZE - left)) else w1
    some { index1 with list := index1.list ++ [⟨out, in_, bits, w2⟩] }

/-- State of the loops of `build_index`; `jump` tells that the loop was left by
`goto build_index_error`. -/
structure build_state (σ : Type) where
  ret : Int
  jump : Bool
  file : FILE
  strm : z_stream σ
  window : List Byte
  index : access
  totin : Int
  totout : Int
  last : Int

/-- One round of the inner loop of `build_index`: the state after the round, and whether
another round follows (no `goto`, no `break`, and `strm.avail_in != 0`). The decoder stores
its output in `window` at `WINSIZE - avail_out`. -/
def build_index_body {σ : Type} (z : Zlib σ) (alloc : Nat → Bool) (span : Int)
    (st : build_state σ) : build_state σ × Bool :=
  let strm1 := if st.strm.avail_out = 0 then { st.strm with avail_out := WINSIZE } else st.strm
  let totin1 := st.totin + strm1.avail_in
  let totout1 := st.totout + strm1.avail_out
  let r := inflate z strm1 Z_BLOCK
  let window2 := memcpy st.window (WINSIZE - strm1.avail_out) r.2.1
  let totin2 := totin1 - r.2.2.avail_in
  let totout2 := totout1 - r.2.2.avail_out
  let ret := if r.1 = Z_NEED_DICT then Z_DATA_ERROR else r.1
  let st2 : build_state σ :=
    { st with ret := ret, strm := r.2.2, window := window2, totin := totin2, totout := totout2 }
  if ret = Z_MEM_ERROR ∨ ret = Z_DATA_ERROR then ({ st2 with jump := true }, false)
  else if ret = Z_STREAM_END then (st2, false)
  else if (r.2.2.data_type &&& 128 ≠ 0) ∧ ¬ (r.2.2.data_type &&& 64 ≠ 0) ∧
      (totout2 = 0 ∨ totout2 - st.last > span) then
    match addpoint alloc st.index ((r.2.2.data_type &&& 7 : Nat) : Int) totin2 totout2
        r.2.2.avail_out window2 with
    | none => ({ st2 with ret := Z_MEM_ERROR, jump := true }, false)
    | some index2 => ({ st2 with index := index2, last := totout2 }, decide (r.2.2.avail_in ≠ 0))
  else (st2, decide (r.2.2.avail_in ≠ 0))

/-- The inner `do … while (strm.avail_in != 0)` loop of `build_index`. -/
def build_index_inner {σ : Type} (z : Zlib σ) (alloc : Nat → Bool) (span : Int) :
    Nat → build_state σ → Option (build_state σ)
  | 0, _ => none
  | fuel + 1, st =>
    if (build_index_body z alloc span st).2 then
      build_index_inner z alloc span fuel (build_index_body z alloc span st).1
    else some (build_index_body z alloc span st).1

/-- The outer `do … while (ret != Z_STREAM_END)` loop of `build_index`. -/
def build_index_outer {σ : Type} (z : Zlib σ) (alloc : Nat → Bool) (span : Int) :
    Nat → build_state σ → Option (build_state σ)
  | 0, _ => none
  | fuel + 1, st =>
    let rd := fread st.file CHUNK
    let st1 : build_state σ := { st with file := rd.2, strm := { st.strm with next_in := rd.1 } }
    if ferror rd.2 then some { st1 with ret := Z_ERRNO, jump := true }
    else if st1.strm.avail_in = 0 then some { st1 with ret := Z_DATA_ERROR, jump := true }
    else
      match build_index_inner z alloc span fuel st1 with
      | none => none
      | some st2 =>
        if st2.jump then some st2
        else if st2.ret ≠ Z_STREAM_END then build_index_outer z alloc span fuel st2
        else some st2

/-- Result of `build_index`: the value returned, the list `*built` points to, the totals
stored in the handle (unchanged on error), the file, and the decoder stream as it was just
before `inflateEnd` (when one was set up). -/
structure build_result (σ : Type) where
  ret : Int
  built : access
  totin : Int
  totout : Int
  file : FILE
  strm : Option (z_stream σ)

/-- `build_index(in, span, built, sz)`. -/
def build_index {σ : Type} (z : Zlib σ) (alloc : Nat → Bool) (fuel : Nat) (in_ : FILE)
    (span : Int) (built : access) (sz : seekgzip_t) : Option (build_result σ) :=
  let i := z.inflateInit2 47
  if i.1 ≠ Z_OK then some ⟨i.1, built, sz.totin, sz.totout, in_, none⟩
  else
    let sk := fseeko in_ 0
    let strm0 : z_stream σ := ⟨[], 0, 0, 0, 0, i.2⟩
    if sk.1 = -1 then some ⟨sk.1, built, sz.totin, sz.totout, sk.2, some strm0⟩
    else
      let st0 : build_state σ :=
        ⟨sk.1, false, sk.2, strm0, List.replicate WINSIZE 0, built, 0, 0, 0⟩
      match build_index_outer z alloc span fuel st0 with
      | none => none
      | some st =>
        if st.jump then some ⟨st.ret, st.index, sz.totin, sz.totout, st.file, some st.strm⟩
        else
          let index := { st.index with allocated := st.index.nelements }
          some ⟨to_int index.allocated, index, st.totin, st.totout, st.file, some st.strm⟩

/-- The decoder neither consumes more than it is offered nor stores more than there is room
for. -/
def within_bounds {σ : Type} (z : Zlib σ) : Prop :=
  ∀ s inp ao flush, (z.inflate s inp ao flush).consumed ≤ inp.length ∧
    (z.inflate s inp ao flush).output.length ≤ ao

/-- The bookkeeping of the totals: `totin` and `totout` agree with what the decoder has
consumed and produced, and a `goto` carries a negative code. -/
@[reducible] def totals_ok {σ : Type} (st : build_state σ) : Prop :=
  (st.jump = true → st.ret < 0) ∧ st.totin = st.strm.total_in ∧ st.totout = st.strm.total_out

/-- How two successive access points lie: both at 0, or more than `span` apart. -/
@[reducible] def spaced (span : Int) (a b : point) : Prop :=
  (a.out = 0 ∧ b.out = 0) ∨ a.out + span < b.out

/-- What holds of the points while the index is built: successive points are `spaced`, the
first lies at 0 or beyond `span`, `bits` is in 0..7, and `last` is the `out` of the last
point (0 when there is none), between 0 and `totout`. -/
@[reducible] def points_ok {σ : Type} (span : Int) (st : build_state σ) : Prop :=
  st.index.list.Chain' (spaced span) ∧
  (∀ p, st.index.list.head? = some p → p.out = 0 ∨ span < p.out) ∧
  (∀ p ∈ st.index.list, 0 ≤ p.bits ∧ p.bits ≤ 7) ∧
  0 ≤ st.last ∧ st.last ≤ st.totout ∧
  (∀ q, st.index.list.getLast? = some q → q.out = st.last) ∧
  (st.index.list = [] → st.last = 0)

def seekgzip_index_free (sz : seekgzip_t) : seekgzip_t := { sz with index := none }

/-- `seekgzip_index_alloc`; `malloc_ok` tells whether the `malloc` of the list header
succeeds. -/
def seekgzip_index_alloc (malloc_ok : Bool) (sz : seekgzip_t) : seekgzip_code × seekgzip_t :=
  let sz1 := if sz.index ≠ none then seekgzip_index_free sz else sz
  if malloc_ok then (SEEKGZIP_SUCCESS, { sz1 with index := some ⟨0, []⟩ })
  else (SEEKGZIP_OUTOFMEMORY, { sz1 with index := none })

/-- The `switch (len)` of `seekgzip_index_build`. It has no `break`: control enters at the
label that matches `len` and runs through every assignment below it, down to `default`. -/
def seekgzip_index_build_switch (len : Int) : seekgzip_code :=
  let ret := SEEKGZIP_SUCCESS
  let ret := if len = Z_MEM_ERROR then SEEKGZIP_OUTOFMEMORY else ret
  let ret := if len = Z_MEM_ERROR ∨ len = Z_DATA_ERROR then SEEKGZIP_DATAERROR else ret
  let ret :=
    if len = Z_MEM_ERROR ∨ len = Z_DATA_ERROR ∨ len = Z_ERRNO then SEEKGZIP_READERROR else ret
  let ret := if True then SEEKGZIP_ERROR else ret
  ret

/-- `seekgzip_index_build`. A handle without index (`NULL`) cannot be built into. -/
def seekgzip_index_build {σ : Type} (z : Zlib σ) (alloc : Nat → Bool) (fuel : Nat)
    (sz : seekgzip_t) : Option (seekgzip_code × seekgzip_t) :=
  match sz.index with
  | none => none
  | some index =>
    match build_index z alloc fuel sz.fp SPAN index sz with
    | none => none
    | some (r : build_result σ) =>
      let len := r.ret
      let sz1 : seekgzip_t :=
        { sz with fp := r.file, index := some r.built, totin := r.totin, totout := r.totout }
      if len < 0 then some (seekgzip_index_build_switch len, seekgzip_index_free sz1)
      else some (SEEKGZIP_SUCCESS, sz1)

/-! ## The index file -/

/-- The files as `stat`, `utime` and `gzopen` see them, and the allocator. `data_mtime` and
`index_mtime` are `st_mtime` of the two paths (`none`: `stat` fails); `index_file` is the
uncompressed content of the index file (`none`: it cannot be opened for reading); `now` is
the modification time a file written now gets; `junk` fills memory a short read leaves
unset; `opened` counts the times the index file was opened for reading. -/
structure Env where
  data_mtime : Option Int
  index_mtime : Option Int
  index_file : Option (List Byte)
  index_writable : Bool
  utime_ok : Bool
  now : Int
  malloc_access : Bool
  malloc_points : Nat → Bool
  gzclose_ret : Int
  junk : Nat → Byte
  opened : Nat

/-- `seekgzip_index_checkutime`: `stat` returns -1 when it fails. -/
def seekgzip_index_checkutime (env : Env) : Int :=
  match env.data_mtime with
  | none => -1
  | some stats_data =>
    match env.index_mtime with
    | none => -1
    | some stats_index => if stats_data = stats_index then 0 else 1

/-- `seekgzip_index_setutime`: the value returned and the files afterwards. -/
def seekgzip_index_setutime (env : Env) : Int × Env :=
  match env.data_mtime with
  | none => (-1, env)
  | some stats =>
    if env.utime_ok then (0, { env with index_mtime := some stats }) else (-1, env)

/-- The `w` bytes of the object representation of `v` (least significant byte first). -/
def le_bytes : Nat → Nat → List Byte
  | 0, _ => []
  | w + 1, v => v % 256 :: le_bytes w (v / 256)

/-- The value whose object representation is `bs`. -/
def le_value : List Byte → Nat
  | [] => 0
  | b :: bs => b % 256 + 256 * le_value bs

/-- Conversion to `uint32_t`. -/
def to_uint32 (x : Int) : Nat := (x % 4294967296).toNat

/-- Conversion to an `off_t` of `w` bytes (two's complement). -/
def to_off_t (w : Nat) (x : Int) : Int :=
  (x + 2 ^ (8 * w - 1)) % 2 ^ (8 * w) - 2 ^ (8 * w - 1)

/-- Bytes `gzwrite(gz, &v, sizeof(off_t))` writes for an `off_t` of `w` bytes. -/
def off_t_bytes (w : Nat) (v : Int) : List Byte := le_bytes w (v % 2 ^ (8 * w)).toNat

def write_uint32 (v : Nat) : List Byte := le_bytes 4 (v % 4294967296)

/-- Bytes written for one entry: `out`, `in`, `bits`, `window`. -/
def point_bytes (w : Nat) (p : point) : List Byte :=
  off_t_bytes w p.out ++ off_t_bytes w p.in_ ++ le_bytes 4 (to_uint32 p.bits) ++ p.window

/-- Everything `seekgzip_index_save` hands to `gzwrite`, in order. -/
def index_bytes (w : Nat) (index : access) (totin totout : Int) : List Byte :=
  [90, 83, 69, 50] ++ write_uint32 w ++ write_uint32 (to_uint32 index.nelements) ++
    off_t_bytes w totin ++ off_t_bytes w totout ++ (index.list.map (point_bytes w)).flatten

/-- The values of an entry fit their C types: `off_t` of `w` bytes, `int`, and a window of
`WINSIZE` bytes. -/
def point_fits (w : Nat) (p : point) : Prop :=
  -(2 ^ (8 * w - 1) : Int) ≤ p.out ∧ p.out < 2 ^ (8 * w - 1) ∧
  -(2 ^ (8 * w - 1) : Int) ≤ p.in_ ∧ p.in_ < 2 ^ (8 * w - 1) ∧
  -2147483648 ≤ p.bits ∧ p.bits < 2147483648 ∧ p.window.length = WINSIZE

/-- `seekgzip_index_save` for an `off_t` of `w` bytes: the index file is written, then its
times are set from the data file (the result of that is ignored). -/
def seekgzip_index_save (w : Nat) (env : Env) (sz : seekgzip_t) :
    Option (seekgzip_code × Env) :=
  if env.index_writable = false then some (SEEKGZIP_OPENERROR, env)
  else
    match sz.index with
    | none => none
    | some index =>
      let env1 : Env :=
        { env with index_file := some (index_bytes w index sz.totin sz.totout),
                   index_mtime := some env.now }
      some (SEEKGZIP_SUCCESS, (seekgzip_index_setutime env1).2)

/-- `gzgetc`: the next byte or -1, and the rest of the stream. -/
def gzgetc (gz : List Byte) : Int × List Byte :=
  match gz with
  | [] => (-1, [])
  | b :: rest => ((b : Int), rest)

/-- `gzread(gz, dst, n)` into memory that held `junk`: the `n` bytes of `dst` afterwards and
the rest of the stream. -/
def gzread (junk : Nat → Byte) (gz : List Byte) (n : Nat) : List Byte × List Byte :=
  (gz.take n ++ (List.range (n - (gz.take n).length)).map (fun i => junk ((gz.take n).length + i)),
    gz.drop n)

def read_uint32 (junk : Nat → Byte) (gz : List Byte) : Nat × List Byte :=
  (le_value (gzread junk gz 4).1 % 4294967296, (gzread junk gz 4).2)

/-- Reading an `off_t` of `w` bytes. -/
def read_off_t (junk : Nat → Byte) (w : Nat) (gz : List Byte) : Int × List Byte :=
  (to_off_t w (le_value (gzread junk gz w).1), (gzread junk gz w).2)

/-- The loop of `seekgzip_index_load` that reads `n` entries. -/
def read_points (junk : Nat → Byte) (w : Nat) : Nat → List Byte → List point × List Byte
  | 0, gz => ([], gz)
  | n + 1, gz =>
    let o := read_off_t junk w gz
    let i := read_off_t junk w o.2
    let b := gzread junk i.2 4
    let win := gzread junk b.2 WINSIZE
    let rest := read_points junk w n win.2
    (⟨o.1, i.1, to_int (le_value b.1), win.1⟩ :: rest.1, rest.2)

/-- `sizeof(struct point)` for an `off_t` of `w` bytes (two `off_t`, an `int`, the window,
padded to the alignment of `off_t`). -/
def sizeof_point (w : Nat) : Nat := (2 * w + 4 + WINSIZE + w - 1) / w * w

/-- The part of `seekgzip_index_load` from the magic string to `error_exit`, reading the
stream `gz`. -/
def seekgzip_index_load_body (w : Nat) (env : Env) (sz : seekgzip_t) (gz : List Byte) :
    seekgzip_code × seekgzip_t :=
  let c1 := gzgetc gz
  let c2 := gzgetc c1.2
  let c3 := gzgetc c2.2
  let c4 := gzgetc c3.2
  if c1.1 ≠ 90 ∨ c2.1 ≠ 83 ∨ c3.1 ≠ 69 ∨ c4.1 ≠ 50 then (SEEKGZIP_IMCOMPATIBLE, sz)
  else
    let sizeof_off := read_uint32 env.junk c4.2
    if sizeof_off.1 ≠ w then (SEEKGZIP_IMCOMPATIBLE, sz)
    else
      let n := read_uint32 env.junk sizeof_off.2
      if (2 ^ 64 - 1) / sizeof_point w ≤ n.1 then
        (SEEKGZIP_IMCOMPATIBLE, { sz with index := some ⟨n.1, []⟩ })
      else if env.malloc_points n.1 = false then
        (SEEKGZIP_OUTOFMEMORY, { sz with index := some ⟨n.1, []⟩ })
      else
        let totin := read_off_t env.junk w n.2
        let totout := read_off_t env.junk w totin.2
        let pts := read_points env.junk w n.1 totout.2
        (SEEKGZIP_SUCCESS,
          { sz with index := some ⟨n.1, pts.1⟩, totin := totin.1, totout := totout.1 })

/-- `seekgzip_index_load` for an `off_t` of `w` bytes. `none`: the function does not return
(when `gzclose` fails, `error_exit` jumps to itself). -/
def seekgzip_index_load (w : Nat) (env : Env) (sz : seekgzip_t) :
    Option (seekgzip_code × seekgzip_t × Env) :=
  let a := seekgzip_index_alloc env.malloc_access sz
  if a.1 ≠ SEEKGZIP_SUCCESS then some (a.1, a.2, env)
  else
    let ret := seekgzip_index_checkutime env
    if ret = 0 then
      let env1 := { env with opened := env.opened + 1 }
      match env.index_file with
      | none => some (SEEKGZIP_OPENERROR, a.2, env1)
      | some gz =>
        let r := seekgzip_index_load_body w env a.2 gz
        if env.gzclose_ret ≠ 0 then none else some (r.1, r.2, env1)
    else if ret = 1 then some (SEEKGZIP_EXPIREDINDEX, a.2, env)
    else some (SEEKGZIP_OPENERROR, a.2, env)

/-! ## The range reader of `main` -/

def isspace (c : Char) : Bool := c.toNat = 32 || (9 ≤ c.toNat && c.toNat ≤ 13)

/-- Value of the leading decimal digits of `s`, continuing from `acc`. -/
def strtoull_digits : List Char → Nat → Nat
  | [], acc => acc
  | c :: cs, acc =>
    if 48 ≤ c.toNat ∧ c.toNat ≤ 57 then strtoull_digits cs (acc * 10 + (c.toNat - 48)) else acc

/-- `strtoull(s, NULL, 10)` of the C library: white space, an optional sign, decimal digits;
the value saturates at `ULLONG_MAX` and a minus sign negates it modulo 2^64. -/
def strtoull (s : List Char) : Nat :=
  let s1 := s.dropWhile isspace
  let neg : Bool := s1.head? = some (Char.ofNat 45)
  let s2 := if s1.head? = some (Char.ofNat 45) ∨ s1.head? = some (Char.ofNat 43) then s1.drop 1 else s1
  let v := strtoull_digits s2 0
  if 18446744073709551615 < v then 18446744073709551615
  else if neg then (18446744073709551616 - v) % 18446744073709551616 else v

/-- The `while (begin < end)` loop of `main`: the bytes written to standard output, the exit
status and the handle. The local `buffer` starts as `CHUNK` unset bytes. -/
def main_loop {σ : Type} (z : Zlib σ) :
    Nat → seekgzip_t → Int → Int → List Byte → Option (List Byte × Int × seekgzip_t)
  | fuel, zs, begin_, end_, out =>
    if begin_ < end_ then
      match fuel with
      | 0 => none
      | fuel + 1 =>
        let size : Int := if (CHUNK : Int) < end_ - begin_ then (CHUNK : Int) else end_ - begin_
        match seekgzip_read z fuel zs (List.replicate CHUNK 0) (to_int size) with
        | none => none
        | some r =>
          if 0 < r.1 then
            main_loop z fuel r.2.2 (begin_ + r.1) end_ (out ++ r.2.1.take r.1.toNat)
          else if r.1 = 0 then some (out, 0, r.2.2)
          else some (out, 1, r.2.2)
    else some (out, 0, zs)

/-- The pair `(begin, end)` that `main` computes from its range argument; `off_t` has 8
bytes. -/
def main_parse (arg : List Char) : Int × Int :=
  let p := arg.indexOf (Char.ofNat 45)
  if p = arg.length then
    (to_off_t 8 (strtoull arg), to_off_t 8 (strtoull arg) + 1)
  else if p = 0 then (0, to_off_t 8 (strtoull (arg.drop 1)))
  else if p = arg.length - 1 then (to_off_t 8 (strtoull (arg.take p)), to_off_t 8 (-1))
  else (to_off_t 8 (strtoull (arg.take p)), to_off_t 8 (strtoull (arg.drop (p + 1))))

/-- The last branch of `main`, from the parsing of the range argument on, for a handle `zs`
that `seekgzip_open` returned: the bytes written to standard output and the exit status. -/
def main_range {σ : Type} (z : Zlib σ) (fuel : Nat) (zs : seekgzip_t) (arg : List Char) :
    Option (List Byte × Int) :=
  let be := main_parse arg
  match main_loop z fuel (seekgzip_seek zs be.1) be.1 be.2 [] with
  | none => none
  | some r => some (r.1, r.2.1)

/-! ## A small decoder, to run the code on concrete files

In its format a byte 0 ends the stream, a byte 1 ends a block that is not the last one, and
any other byte stands for itself. -/

/-- Scan of the input: bytes consumed, bytes produced, and why the scan stopped
(0: input or room ran out, 1: end of stream, 2: end of a block in block-stepping mode). -/
def stored_scan (flush : Int) : List Byte → Nat → Nat × List Byte × Nat
  | [], _ => (0, [], 0)
  | 0 :: _, _ => (1, [], 1)
  | 1 :: t, ao =>
    if flush = Z_BLOCK then (1, [], 2)
    else ((stored_scan flush t ao).1 + 1, (stored_scan flush t ao).2.1, (stored_scan flush t ao).2.2)
  | (_ + 2) :: _, 0 => (0, [], 0)
  | (b + 2) :: t, ao + 1 =>
    ((stored_scan flush t ao).1 + 1, (b + 2) :: (stored_scan flush t ao).2.1,
      (stored_scan flush t ao).2.2)

def stored_inflate (_s : Unit) (inp : List Byte) (ao : Nat) (flush : Int) : inflate_result Unit :=
  let r := stored_scan flush inp ao
  { ret := if r.2.2 = 1 then Z_STREAM_END
           else if r.1 = 0 ∧ r.2.1.length = 0 then Z_BUF_ERROR else Z_OK
    consumed := r.1
    output := r.2.1
    data_type := if r.2.2 = 2 then 128 else 0
    state := () }

def stored : Zlib Unit :=
  { inflateInit2 := fun _ => (Z_OK, ())
    inflatePrime := fun s _ _ => s
    inflateSetDictionary := fun s _ => s
    inflate := stored_inflate }

/-- What the small decoder has ahead of it when `D` is left to produce: the bytes of `D`,
none of them 0 or 1, then the byte 0. -/
def stored_ahead (_s : Unit) (rest D : List Byte) : Prop :=
  (∀ b ∈ D, 2 ≤ b) ∧ ∃ tail, rest = D ++ 0 :: tail

/-- A decoder that reports its first block boundary late: its first 33 calls each fill the
room they are given and consume nothing, the next call consumes one byte and reports the
end of a block that is not the last, and the call after that reports the end of the
stream. The state counts the calls. -/
def burst : Zlib Nat :=
  { inflateInit2 := fun _ => (Z_OK, 0)
    inflatePrime := fun s _ _ => s
    inflateSetDictionary := fun s _ => s
    inflate := fun s inp ao _ =>
      if s < 33 then ⟨Z_OK, 0, List.replicate ao 65, 0, s + 1⟩
      else if s = 33 then ⟨Z_OK, 1, [], 128, 34⟩
      else ⟨Z_STREAM_END, inp.length, [], 0, s⟩ }

/-- A file opened for reading on a sound device. -/
def open_file (data : List Byte) : FILE := ⟨data, 0, false, false⟩

/-! ## A small file -/

/-- The ten bytes `abcdefghij`. -/
def sample_full : List Byte := [97, 98, 99, 100, 101, 102, 103, 104, 105, 106]

/-- A compressed file for `stored`: the end of a first, empty block, the ten bytes, the end
of the stream, and two bytes after it. -/
def sample_data : List Byte := [1, 97, 98, 99, 100, 101, 102, 103, 104, 105, 106, 0, 9, 9]

/-- An access point at the start of the stream, after the first byte of the file, three bits
of which belong to it. -/
def sample_point : point := ⟨0, 1, 3, List.replicate WINSIZE 0⟩

def sample_index : access := ⟨1, [sample_point]⟩

def sample_handle : seekgzip_t :=
  ⟨open_file sample_data, some sample_index, 0, 12, 10, SEEKGZIP_SUCCESS⟩

/-- A handle as `seekgzip_index_load` leaves it before a build: an empty index. -/
def fresh_handle (data : List Byte) : seekgzip_t :=
  ⟨open_file data, some ⟨0, []⟩, 0, 0, 0, SEEKGZIP_SUCCESS⟩

/-- Files with equal modification times, an index file that can be written, and an
allocator that never fails. -/
def sample_env : Env :=
  ⟨some 100, some 100, none, true, true, 200, true, fun _ => true, 0, fun _ => 0, 0⟩

/-! ## Opening a session -/

/-- The calls `seekgzip_open` makes to the index functions. -/
inductive index_call where
  | load
  | build
  | save
deriving DecidableEq

/-- The pointer `seekgzip_open` returns: `NULL`, a handle whose data file could not be opened
(`fp` is `NULL`, the index is `NULL`, and the error code is set), or a handle with its data
file open. -/
inductive open_handle where
  | null
  | closed (errorcode : seekgzip_code)
  | opened (sz : seekgzip_t)
deriving DecidableEq

/-- What a call of `seekgzip_open` leaves: the pointer it returns, the files, and the calls
to `seekgzip_index_load`, `seekgzip_index_build` and `seekgzip_index_save` it made, in
order. -/
structure open_result where
  handle : open_handle
  env : Env
  calls : List index_call

/-- `seekgzip_open(target, flags)` for an `off_t` of `w` bytes; `flags` is not used. `malloc`
is the block the allocator returns for the handle (`none`: `NULL`), holding whatever that
memory held; `fopen` is the stream opened on `target` (`none`: `NULL`); `strdup_ok` and
`path_index_ok` tell whether the two path strings can be allocated. The assignment
`sz->errorcode = 0` is overwritten on every path before the handle is returned. `none`: the
function does not return. -/
def seekgzip_open {σ : Type} (z : Zlib σ) (alloc : Nat → Bool) (fuel : Nat) (w : Nat)
    (env : Env) (malloc : Option seekgzip_t) (fopen : Option FILE)
    (strdup_ok path_index_ok : Bool) : Option open_result :=
  match malloc with
  | none => some ⟨.null, env, []⟩
  | some mem =>
    match fopen with
    | none => some ⟨.closed SEEKGZIP_OPENERROR, env, []⟩
    | some fp =>
      let sz0 : seekgzip_t := { mem with offset := 0, index := none, fp := fp }
      if strdup_ok = false then
        some ⟨.opened { sz0 with errorcode := SEEKGZIP_OUTOFMEMORY }, env, []⟩
      else if path_index_ok = false then
        some ⟨.opened { sz0 with errorcode := SEEKGZIP_OUTOFMEMORY }, env, []⟩
      else
        match seekgzip_index_load w env sz0 with
        | none => none
        | some l =>
          let sz1 : seekgzip_t := { l.2.1 with errorcode := l.1 }
          if l.1 = SEEKGZIP_SUCCESS then some ⟨.opened sz1, l.2.2, [.load]⟩
          else if l.1 = SEEKGZIP_OPENERROR ∨ l.1 = SEEKGZIP_IMCOMPATIBLE ∨
              l.1 = SEEKGZIP_EXPIREDINDEX then
            match seekgzip_index_build z alloc fuel sz1 with
            | none => none
            | some b =>
              let sz2 : seekgzip_t := { b.2 with errorcode := b.1 }
              if b.1 = SEEKGZIP_SUCCESS then
                match seekgzip_index_save w l.2.2 sz2 with
                | none => none
                | some s => some ⟨.opened sz2, s.2, [.load, .build, .save]⟩
              else some ⟨.opened sz2, l.2.2, [.load, .build]⟩
          else some ⟨.opened sz1, l.2.2, [.load]⟩

/-! ## The window of an access point -/

/-- What holds of the sliding window while the index is built, for a decoder whose state
keeps in `hist` the bytes it has produced so far. With `avail_out` bytes of room left the
cursor is at `WINSIZE - avail_out`; before it lie the newest bytes of the initial window
followed by the stream, from it on the bytes before those; `totout` counts the stream; and
every access point holds the last `WINSIZE` bytes of the initial window followed by the
stream up to the point. -/
@[reducible] def window_ok {σ : Type} (hist : σ → List Byte) (st : build_state σ) : Prop :=
  st.window.length = WINSIZE ∧ st.strm.avail_out ≤ WINSIZE ∧
  st.totout = ((hist st.strm.state).length : Int) ∧
  st.window.take (WINSIZE - st.strm.avail_out)
    = (List.replicate WINSIZE 0 ++ hist st.strm.state).drop
        ((hist st.strm.state).length + st.strm.avail_out) ∧
  st.window.drop (WINSIZE - st.strm.avail_out)
    = ((List.replicate WINSIZE 0 ++ hist st.strm.state).drop
        (hist st.strm.state).length).take st.strm.avail_out ∧
  ∀ p ∈ st.index.list, 0 ≤ p.out ∧ p.out ≤ ((hist st.strm.state).length : Int) ∧
    p.window = (List.replicate WINSIZE 0 ++ (hist st.strm.state).take p.out.toNat).drop
      p.out.toNat

/-- The decoder `z` with a state that also keeps all the bytes produced so far. -/
def recording {σ : Type} (z : Zlib σ) : Zlib (σ × List Byte) :=
  { inflateInit2 := fun w => ((z.inflateInit2 w).1, ((z.inflateInit2 w).2, []))
    inflatePrime := fun s bits value => (z.inflatePrime s.1 bits value, s.2)
    inflateSetDictionary := fun s dict => (z.inflateSetDictionary s.1 dict, s.2)
    inflate := fun s inp ao flush =>
      { ret := (z.inflate s.1 inp ao flush).ret
        consumed := (z.inflate s.1 inp ao flush).consumed
        output := (z.inflate s.1 inp ao flush).output
        data_type := (z.inflate s.1 inp ao flush).data_type
        state := ((z.inflate s.1 inp ao flush).state, s.2 ++ (z.inflate s.1 inp ao flush).output) } }

/-- The stream of `recording z` without the record: the stream of `z`. -/
def forget_stream {σ : Type} (strm : z_stream (σ × List Byte)) : z_stream σ :=
  ⟨strm.next_in, strm.avail_out, strm.total_in, strm.total_out, strm.data_type, strm.state.1⟩

/-- The state of the loops of `build_index` without the record. -/
def forget_state {σ : Type} (st : build_state (σ × List Byte)) : build_state σ :=
  ⟨st.ret, st.jump, st.file, forget_stream st.strm, st.window, st.index, st.totin, st.totout,
    st.last⟩

/-- The result of `build_index` without the record. -/
def forget_result {σ : Type} (r : build_result (σ × List Byte)) : build_result σ :=
  ⟨r.ret, r.built, r.totin, r.totout, r.file, r.strm.map forget_stream⟩

/-! ## The first point of the index -/

/-- What zlib does, in block-stepping mode, before it has reported its first block boundary,
the one that follows the header of the stream; `Fresh s` tells that the decoder in state `s`
is still before that boundary. `inflateInit2` returns `Z_OK` or an error and leaves a fresh
state. A call of `inflate` in a fresh state stores nothing and does not report the end of
the stream; it fails, or it reports the boundary of a block that is not the last one, or it
leaves a fresh state (when it needs more input). -/
structure header_first {σ : Type} (z : Zlib σ) (Fresh : σ → Prop) : Prop where
  init_code : (z.inflateInit2 47).1 ≤ 0
  init : Fresh (z.inflateInit2 47).2
  step : ∀ s inp ao, Fresh s →
    (z.inflate s inp ao Z_BLOCK).output = [] ∧
    (z.inflate s inp ao Z_BLOCK).ret ≠ Z_STREAM_END ∧
    ((z.inflate s inp ao Z_BLOCK).ret = Z_NEED_DICT ∨
      (z.inflate s inp ao Z_BLOCK).ret = Z_MEM_ERROR ∨
      (z.inflate s inp ao Z_BLOCK).ret = Z_DATA_ERROR ∨
      ((z.inflate s inp ao Z_BLOCK).data_type &&& 128 ≠ 0 ∧
        ¬ ((z.inflate s inp ao Z_BLOCK).data_type &&& 64 ≠ 0)) ∨
      Fresh (z.inflate s inp ao Z_BLOCK).state)

/-- What holds of the first point while the index is built with a decoder that is
`header_first`: a `goto` carries a negative code, the first point lies at 0, and as long as
there is no point the decoder is fresh, nothing has been produced and the end of the stream
has not been reported. -/
@[reducible] def first_ok {σ : Type} (Fresh : σ → Prop) (st : build_state σ) : Prop :=
  (st.jump = true → st.ret < 0) ∧
  (∀ p, st.index.list.head? = some p → p.out = 0) ∧
  (st.index.list = [] →
    st.jump = true ∨ (Fresh st.strm.state ∧ st.totout = 0 ∧ st.ret ≠ Z_STREAM_END))

/-- The small decoder behind a header of one byte: the first call that is offered input
consumes one byte and reports the boundary that follows the header; from then on the
decoder is `stored`. The state tells whether the header has been read. -/
def headed : Zlib Bool :=
  { inflateInit2 := fun _ => (Z_OK, false)
    inflatePrime := fun s _ _ => s
    inflateSetDictionary := fun s _ => s
    inflate := fun s inp ao flush =>
      if s = false then
        if inp.length = 0 then ⟨Z_BUF_ERROR, 0, [], 0, false⟩ else ⟨Z_OK, 1, [], 128, true⟩
      else
        { ret := (stored_inflate () inp ao flush).ret
          consumed := (stored_inflate () inp ao flush).consumed
          output := (stored_inflate () inp ao flush).output
          data_type := (stored_inflate () inp ao flush).data_type
          state := true } }

/-! # Theorems -/

/-! ### findpoint -/

theorem to_int_of_lt (n : Nat) (h : n < 2147483648) : to_int (n : Int) = (n : Int) := by
  unfold to_int
  omega

theorem findpoint_loop_spec (list : List point) (offset : Int)
    (hs : list.Pairwise (fun a b => a.out ≤ b.out)) :
    ∀ fuel first len, len ≤ fuel → first + len ≤ list.length →
      (∀ i p, i < first → list[i]? = some p → p.out ≤ offset) →
      (∀ i p, first + len ≤ i → list[i]? = some p → offset < p.out) →
      first ≤ findpoint_loop list offset fuel first len ∧
      findpoint_loop list offset fuel first len ≤ first + len ∧
      (∀ i p, i < findpoint_loop list offset fuel first len → list[i]? = some p →
        p.out ≤ offset) ∧
      (∀ i p, findpoint_loop list offset fuel first len ≤ i → list[i]? = some p →
        offset < p.out) := by
  intro fuel
  induction fuel with
  | zero =>
    intro first len hl hb hlo hhi
    have : len = 0 := by omega
    subst this
    simp only [findpoint_loop]
    exact ⟨le_refl _, by omega, hlo, fun i p hi => hhi i p (by omega)⟩
  | succ fuel ih =>
    intro first len hl hb hlo hhi
    rw [findpoint_loop]
    by_cases hlen : 0 < len
    · simp only [hlen, if_true]
      have hhalf : len >>> 1 = len / 2 := by simp [Nat.shiftRight_eq_div_pow]
      rw [hhalf]
      have hmid : first + len / 2 < list.length := by omega
      have hget : list[first + len / 2]? = some (list[first + len / 2]) :=
        List.getElem?_eq_getElem hmid
      rw [hget]
      simp only
      by_cases hcmp : offset < (list[first + len / 2]).out
      · simp only [hcmp, if_true]
        have := ih first (len / 2) (by omega) (by omega) hlo (by
          intro i p hi hp
          by_cases hi2 : first + len ≤ i
          · exact hhi i p hi2 hp
          · have hil : i < list.length := by omega
            have hpi : p = list[i] := by
              rw [List.getElem?_eq_getElem hil] at hp; exact (Option.some.inj hp).symm
            rcases Nat.eq_or_lt_of_le hi with h | h
            · subst hpi; simp only [← h]; exact hcmp
            · have := List.pairwise_iff_getElem.mp hs (first + len / 2) i hmid hil h
              subst hpi; omega)
        obtain ⟨h1, h2, h3, h4⟩ := this
        exact ⟨h1, by omega, h3, h4⟩
      · simp only [hcmp, if_false]
        have := ih (first + len / 2 + 1) (len - len / 2 - 1) (by omega) (by omega) (by
          intro i p hi hp
          have hil : i < list.length := by omega
          have hpi : p = list[i] := by
            rw [List.getElem?_eq_getElem hil] at hp; exact (Option.some.inj hp).symm
          rcases Nat.eq_or_lt_of_le (Nat.le_of_lt_succ hi) with h | h
          · subst hpi; simp only [h]; omega
          · have := List.pairwise_iff_getElem.mp hs i (first + len / 2) hil hmid h
            subst hpi; omega) (by
          intro i p hi hp
          exact hhi i p (by omega) hp)
        obtain ⟨h1, h2, h3, h4⟩ := this
        exact ⟨by omega, by omega, h3, h4⟩
    · simp only [hlen, if_false]
      have : len = 0 := by omega
      subst this
      exact ⟨le_refl _, by omega, hlo, fun i p hi => hhi i p (by omega)⟩

/-- Whatever the list, the entry before the final `first` was compared with `offset` and
found not to lie after it. -/
theorem findpoint_loop_le (list : List point) (offset : Int) :
    ∀ fuel first len,
      (first = 0 ∨ ∃ p, list[first - 1]? = some p ∧ p.out ≤ offset) →
      (findpoint_loop list offset fuel first len = 0 ∨
        ∃ p, list[findpoint_loop list offset fuel first len - 1]? = some p ∧ p.out ≤ offset) := by
  intro fuel
  induction fuel with
  | zero => intro first len h; simpa only [findpoint_loop] using h
  | succ fuel ih =>
    intro first len h
    rw [findpoint_loop]
    by_cases hlen : 0 < len
    · simp only [hlen, if_true]
      cases hget : list[first + len >>> 1]? with
      | none => simpa using h
      | some m =>
        simp only
        by_cases hcmp : offset < m.out
        · simp only [hcmp, if_true]; exact ih _ _ h
        · simp only [hcmp, if_false]
          apply ih
          right
          exact ⟨m, by simpa using hget, by omega⟩
    · simp only [hlen, if_false]; exact h

theorem findpoint_some_le (index : access) (offset : Int) (p : point)
    (h : findpoint index offset = some p) : p.out ≤ offset := by
  unfold findpoint at h
  simp only at h
  by_cases h0 : findpoint_first index offset = 0
  · simp [h0] at h
  · simp only [h0, if_false] at h
    have := findpoint_loop_le index.list offset (to_int index.nelements).toNat 0
      (to_int index.nelements).toNat (Or.inl rfl)
    rcases this with h1 | ⟨q, hq, hle⟩
    · exact absurd h1 h0
    · unfold findpoint_first at h
      simp only at h
      rw [hq] at h
      cases h
      exact hle

/-- C2. For an index sorted by `out` whose element count fits the `int` that `findpoint`
keeps it in, `findpoint` returns `NULL` exactly when no point has `out ≤ offset`, that is
when the list is empty or `offset` lies before the first point; otherwise it returns the
last point with `out ≤ offset`: every later entry lies after `offset`. -/
theorem findpoint_spec (index : access) (offset : Int)
    (hs : index.list.Pairwise (fun a b => a.out ≤ b.out))
    (hn : index.nelements < 2147483648) :
    (findpoint index offset = none ↔ ∀ p ∈ index.list, offset < p.out) ∧
    (findpoint index offset = none ↔
      index.list = [] ∨ ∃ p0, index.list[0]? = some p0 ∧ offset < p0.out) ∧
    (∀ p, findpoint index offset = some p →
      ∃ i, index.list[i]? = some p ∧ p.out ≤ offset ∧
        ∀ (j : Nat) (q : point), i < j → index.list[j]? = some q → offset < q.out) := by
  have hlen : (to_int index.nelements).toNat = index.list.length := by
    rw [to_int_of_lt _ hn]; simp [access.nelements]
  obtain ⟨-, hle, hlo, hhi⟩ := findpoint_loop_spec index.list offset hs index.list.length 0
    index.list.length (le_refl _) (by omega) (fun i p hi => absurd hi (Nat.not_lt_zero _))
    (fun i p hi hp => by
      have := List.getElem?_eq_some.mp hp
      obtain ⟨h1, -⟩ := this
      omega)
  have hfirst : findpoint_first index offset
      = findpoint_loop index.list offset index.list.length 0 index.list.length := by
    unfold findpoint_first; simp only [hlen]
  have hnone : findpoint index offset = none ↔ ∀ p ∈ index.list, offset < p.out := by
    unfold findpoint
    simp only [hfirst]
    constructor
    · intro h p hp
      by_cases h0 : findpoint_loop index.list offset index.list.length 0 index.list.length = 0
      · obtain ⟨i, hi, rfl⟩ := List.getElem_of_mem hp
        exact hhi i _ (by omega) (List.getElem?_eq_getElem hi)
      · simp only [h0, if_false] at h
        rw [List.getElem?_eq_none_iff] at h
        omega
    · intro h
      by_cases h0 : findpoint_loop index.list offset index.list.length 0 index.list.length = 0
      · simp [h0]
      · exfalso
        have hlt : findpoint_loop index.list offset index.list.length 0 index.list.length - 1
            < index.list.length := by omega
        have h1 := hlo _ _ (by omega) (List.getElem?_eq_getElem hlt)
        have h2 := h _ (List.getElem_mem hlt)
        omega
  refine ⟨hnone, ?_, ?_⟩
  · rw [hnone]
    constructor
    · intro h
      cases hl : index.list with
      | nil => exact Or.inl rfl
      | cons a t =>
        right
        exact ⟨a, by simp, h a (by simp [hl])⟩
    · rintro (h | ⟨p0, hp0, hlt⟩) p hp
      · simp [h] at hp
      · obtain ⟨i, hi, rfl⟩ := List.getElem_of_mem hp
        have h0 : 0 < index.list.length := by omega
        have e0 : p0 = index.list[0] := by
          rw [List.getElem?_eq_getElem h0] at hp0; exact (Option.some.inj hp0).symm
        rcases Nat.eq_zero_or_pos i with hi0 | hi0
        · subst hi0; rw [← e0]; exact hlt
        · have := List.pairwise_iff_getElem.mp hs 0 i h0 hi hi0
          rw [← e0] at this
          omega
  · intro p hp
    unfold findpoint at hp
    simp only [hfirst] at hp
    by_cases h0 : findpoint_loop index.list offset index.list.length 0 index.list.length = 0
    · simp [h0] at hp
    · simp only [h0, if_false] at hp
      refine ⟨_, hp, hlo _ _ (by omega) hp, ?_⟩
      intro j q hj hq
      exact hhi j q (by omega) hq

theorem findpoint_spec_witness :
    (findpoint ⟨4, [⟨0, 10, 0, []⟩, ⟨5, 20, 3, []⟩, ⟨9, 30, 0, []⟩]⟩ 7 = none ↔
      ∀ p ∈ [(⟨0, 10, 0, []⟩ : point), ⟨5, 20, 3, []⟩, ⟨9, 30, 0, []⟩], (7 : Int) < p.out) ∧
    findpoint ⟨4, [⟨0, 10, 0, []⟩, ⟨5, 20, 3, []⟩, ⟨9, 30, 0, []⟩]⟩ 7 = some ⟨5, 20, 3, []⟩ :=
  ⟨(findpoint_spec ⟨4, [⟨0, 10, 0, []⟩, ⟨5, 20, 3, []⟩, ⟨9, 30, 0, []⟩]⟩ 7
      (by decide) (by decide)).1, by decide⟩

/-! ### extract -/

theorem memcpy_length (b : List Byte) (p : Nat) (s : List Byte) (h : p + s.length ≤ b.length) :
    (memcpy b p s).length = b.length := by
  unfold memcpy
  simp only [List.length_append, List.length_take, List.length_drop]
  omega

theorem memcpy_memcpy (b : List Byte) (p : Nat) (o1 o2 : List Byte)
    (h : p + o1.length ≤ b.length) :
    memcpy (memcpy b p o1) (p + o1.length) o2 = memcpy b p (o1 ++ o2) := by
  unfold memcpy
  have hl : (List.take p b ++ o1).length = p + o1.length := by
    simp only [List.length_append, List.length_take]; omega
  rw [List.take_left' hl]
  have hd : List.drop (p + o1.length + o2.length) (List.take p b ++ o1 ++ List.drop (p + o1.length) b)
      = List.drop (p + (o1 ++ o2).length) b := by
    rw [show p + o1.length + o2.length = (List.take p b ++ o1).length + o2.length by rw [hl]]
    rw [List.drop_append]
    rw [List.drop_drop]
    congr 1
    simp only [List.length_append]
    omega
  rw [hd]
  simp only [List.append_assoc]

theorem take_append_drop_length (n : Nat) (l : List Byte) :
    l.take n ++ l.drop (l.take n).length = l := by
  rw [List.length_take]
  by_cases h : n ≤ l.length
  · rw [Nat.min_eq_left h]; exact List.take_append_drop n l
  · have h2 : l.length ≤ n := by omega
    rw [Nat.min_eq_right h2, List.take_of_length_le h2, List.drop_length]
    simp

theorem extract_refill_ok {σ : Type} (file : FILE) (strm : z_stream σ)
    (hf : file.faulty = false) (he : file.err = false)
    (hne : strm.next_in ++ file.data.drop file.pos ≠ []) :
    (extract_refill file strm).1 = none ∧
    (extract_refill file strm).2.2.next_in ≠ [] ∧
    (extract_refill file strm).2.2.next_in ++
        (extract_refill file strm).2.1.data.drop (extract_refill file strm).2.1.pos
      = strm.next_in ++ file.data.drop file.pos ∧
    (extract_refill file strm).2.1.faulty = false ∧
    (extract_refill file strm).2.1.err = false ∧
    (extract_refill file strm).2.1.data = file.data ∧
    (extract_refill file strm).2.2.avail_out = strm.avail_out ∧
    (extract_refill file strm).2.2.total_out = strm.total_out ∧
    (extract_refill file strm).2.2.state = strm.state := by
  unfold extract_refill
  by_cases h0 : strm.avail_in = 0
  · have hnil : strm.next_in = [] := List.length_eq_zero.mp h0
    rw [hnil, List.nil_append] at hne
    have hpos : 0 < (file.data.drop file.pos).length := List.length_pos.mpr hne
    have hfr : fread file CHUNK = ((file.data.drop file.pos).take CHUNK,
        { file with pos := file.pos + ((file.data.drop file.pos).take CHUNK).length }) := by
      unfold fread; simp [hf]
    simp only [h0, if_true, hfr, ferror, he]
    have hlen : ((file.data.drop file.pos).take CHUNK).length ≠ 0 := by
      rw [List.length_take]; unfold CHUNK; omega
    simp only [z_stream.avail_in, hlen, if_false, Bool.false_eq_true]
    refine ⟨trivial, ?_, ?_, hf, trivial, trivial, trivial, trivial, trivial⟩
    · intro h; rw [h] at hlen; exact hlen rfl
    · rw [hnil, List.nil_append, ← List.drop_drop]
      exact take_append_drop_length CHUNK _
  · simp only [h0, if_false]
    refine ⟨trivial, ?_, trivial, hf, he, trivial, trivial, trivial, trivial⟩
    intro h; rw [z_stream.avail_in, h] at h0; exact h0 rfl

theorem take_add_drop (l : List Byte) (m n : Nat) :
    l.take m ++ (l.drop m).take n = l.take (m + n) := by
  rw [List.take_add]

theorem extract_inner_end {σ : Type} (z : Zlib σ) (len : Int) (skip : Bool) (f : Nat)
    (file : FILE) (strm : z_stream σ) (buf : List Byte)
    (h1 : (extract_refill file strm).1 = none)
    (h2 : (inflate z (extract_refill file strm).2.2 Z_NO_FLUSH).1 = Z_STREAM_END) :
    extract_inner z len skip (f + 1) file strm buf =
      some ⟨Z_STREAM_END, false, (extract_refill file strm).2.1,
        (inflate z (extract_refill file strm).2.2 Z_NO_FLUSH).2.2,
        if skip then buf
        else memcpy buf (to_unsigned len - (extract_refill file strm).2.2.avail_out)
          (inflate z (extract_refill file strm).2.2 Z_NO_FLUSH).2.1⟩ := by
  rw [extract_inner]
  simp only [h1, h2]
  simp [Z_STREAM_END, Z_NEED_DICT, Z_MEM_ERROR, Z_DATA_ERROR]

theorem extract_inner_more {σ : Type} (z : Zlib σ) (len : Int) (skip : Bool) (f : Nat)
    (file : FILE) (strm : z_stream σ) (buf : List Byte)
    (h1 : (extract_refill file strm).1 = none)
    (h2 : (inflate z (extract_refill file strm).2.2 Z_NO_FLUSH).1 = Z_OK ∨
      (inflate z (extract_refill file strm).2.2 Z_NO_FLUSH).1 = Z_BUF_ERROR)
    (h3 : (inflate z (extract_refill file strm).2.2 Z_NO_FLUSH).2.2.avail_out ≠ 0) :
    extract_inner z len skip (f + 1) file strm buf =
      extract_inner z len skip f (extract_refill file strm).2.1
        (inflate z (extract_refill file strm).2.2 Z_NO_FLUSH).2.2
        (if skip then buf
        else memcpy buf (to_unsigned len - (extract_refill file strm).2.2.avail_out)
          (inflate z (extract_refill file strm).2.2 Z_NO_FLUSH).2.1) := by
  rw [extract_inner]
  simp only [h1]
  rcases h2 with h2 | h2 <;>
    simp [h2, h3, Z_OK, Z_BUF_ERROR, Z_STREAM_END, Z_NEED_DICT, Z_MEM_ERROR, Z_DATA_ERROR]

theorem extract_inner_full {σ : Type} (z : Zlib σ) (len : Int) (skip : Bool) (f : Nat)
    (file : FILE) (strm : z_stream σ) (buf : List Byte)
    (h1 : (extract_refill file strm).1 = none)
    (h2 : (inflate z (extract_refill file strm).2.2 Z_NO_FLUSH).1 = Z_OK ∨
      (inflate z (extract_refill file strm).2.2 Z_NO_FLUSH).1 = Z_BUF_ERROR)
    (h3 : (inflate z (extract_refill file strm).2.2 Z_NO_FLUSH).2.2.avail_out = 0) :
    extract_inner z len skip (f + 1) file strm buf =
      some ⟨(inflate z (extract_refill file strm).2.2 Z_NO_FLUSH).1, false,
        (extract_refill file strm).2.1,
        (inflate z (extract_refill file strm).2.2 Z_NO_FLUSH).2.2,
        if skip then buf
        else memcpy buf (to_unsigned len - (extract_refill file strm).2.2.avail_out)
          (inflate z (extract_refill file strm).2.2 Z_NO_FLUSH).2.1⟩ := by
  rw [extract_inner]
  simp only [h1]
  rcases h2 with h2 | h2 <;>
    simp [h2, h3, Z_OK, Z_BUF_ERROR, Z_STREAM_END, Z_NEED_DICT, Z_MEM_ERROR, Z_DATA_ERROR]

/-- The inner loop of `extract` under the decoder contract: with enough fuel it leaves
normally, having stored the next `min avail_out |D|` bytes of `D`. -/
theorem extract_inner_spec {σ : Type} (z : Zlib σ) (Inv : σ → List Byte → List Byte → Prop)
    (hz : Decodes z Inv) (len : Int) (skip : Bool) :
    ∀ (fuel : Nat) (file : FILE) (strm : z_stream σ) (buf D : List Byte),
      strm.next_in.length + (file.data.drop file.pos).length + D.length < fuel →
      file.faulty = false → file.err = false →
      Inv strm.state (strm.next_in ++ file.data.drop file.pos) D →
      (skip = false → strm.avail_out ≤ to_unsigned len ∧ to_unsigned len ≤ buf.length) →
      ∃ r, extract_inner z len skip fuel file strm buf = some r ∧ r.jump = false ∧
        r.file.faulty = false ∧ r.file.err = false ∧ r.file.data = file.data ∧
        r.strm.avail_out = strm.avail_out - min strm.avail_out D.length ∧
        r.strm.total_out = strm.total_out + min strm.avail_out D.length ∧
        r.buf = (if skip then buf
          else memcpy buf (to_unsigned len - strm.avail_out) (D.take strm.avail_out)) ∧
        r.strm.next_in.length + (r.file.data.drop r.file.pos).length
          + (D.length - strm.avail_out)
          ≤ strm.next_in.length + (file.data.drop file.pos).length + D.length ∧
        ((r.ret = Z_STREAM_END ∧ D.length ≤ strm.avail_out) ∨
          (r.ret ≠ Z_STREAM_END ∧ strm.avail_out ≤ D.length ∧
            Inv r.strm.state (r.strm.next_in ++ r.file.data.drop r.file.pos)
              (D.drop strm.avail_out))) := by
  intro fuel
  induction fuel with
  | zero => intro file strm buf D hM; omega
  | succ f ih =>
    intro file strm buf D hM hf he hinv hbuf
    have hne := hz.input_left _ _ _ hinv
    obtain ⟨hr1, hr2, hr3, hr4, hr5, hr6, hr7, hr8, hr9⟩ := extract_refill_ok file strm hf he hne
    have hlen3 : (extract_refill file strm).2.2.next_in.length +
        ((extract_refill file strm).2.1.data.drop (extract_refill file strm).2.1.pos).length
        = strm.next_in.length + (file.data.drop file.pos).length := by
      have := congrArg List.length hr3
      simpa only [List.length_append] using this
    have hinv1 : Inv (extract_refill file strm).2.2.state
        ((extract_refill file strm).2.2.next_in ++
          (extract_refill file strm).2.1.data.drop (extract_refill file strm).2.1.pos) D := by
      rw [hr9, hr3]; exact hinv
    obtain ⟨hs1, hs2, hs3, hs4⟩ := hz.step _ _ _ D (extract_refill file strm).2.2.avail_out
      hinv1 hr2
    have hI1 : (inflate z (extract_refill file strm).2.2 Z_NO_FLUSH).1 =
      (z.inflate (extract_refill file strm).2.2.state (extract_refill file strm).2.2.next_in
        (extract_refill file strm).2.2.avail_out Z_NO_FLUSH).ret := rfl
    have hI2 : (inflate z (extract_refill file strm).2.2 Z_NO_FLUSH).2.1 =
      (z.inflate (extract_refill file strm).2.2.state (extract_refill file strm).2.2.next_in
        (extract_refill file strm).2.2.avail_out Z_NO_FLUSH).output := rfl
    have hI3 : (inflate z (extract_refill file strm).2.2 Z_NO_FLUSH).2.2.next_in =
      (extract_refill file strm).2.2.next_in.drop
      (z.inflate (extract_refill file strm).2.2.state (extract_refill file strm).2.2.next_in
        (extract_refill file strm).2.2.avail_out Z_NO_FLUSH).consumed := rfl
    have hI4 : (inflate z (extract_refill file strm).2.2 Z_NO_FLUSH).2.2.avail_out =
      (extract_refill file strm).2.2.avail_out -
      (z.inflate (extract_refill file strm).2.2.state (extract_refill file strm).2.2.next_in
        (extract_refill file strm).2.2.avail_out Z_NO_FLUSH).output.length := rfl
    have hI5 : (inflate z (extract_refill file strm).2.2 Z_NO_FLUSH).2.2.total_out =
      (extract_refill file strm).2.2.total_out +
      (z.inflate (extract_refill file strm).2.2.state (extract_refill file strm).2.2.next_in
        (extract_refill file strm).2.2.avail_out Z_NO_FLUSH).output.length := rfl
    have hI6 : (inflate z (extract_refill file strm).2.2 Z_NO_FLUSH).2.2.state =
      (z.inflate (extract_refill file strm).2.2.state (extract_refill file strm).2.2.next_in
        (extract_refill file strm).2.2.avail_out Z_NO_FLUSH).state := rfl
    have hE := extract_inner_end z len skip f file strm buf hr1
    have hMo := extract_inner_more z len skip f file strm buf hr1
    have hFu := extract_inner_full z len skip f file strm buf hr1
    generalize z.inflate (extract_refill file strm).2.2.state
      (extract_refill file strm).2.2.next_in
      (extract_refill file strm).2.2.avail_out Z_NO_FLUSH = res at hs1 hs2 hs3 hs4 hI1 hI2 hI3 hI4 hI5 hI6
    generalize inflate z (extract_refill file strm).2.2 Z_NO_FLUSH = I
      at hI1 hI2 hI3 hI4 hI5 hI6 hE hMo hFu
    generalize extract_refill file strm = rf
      at hr2 hr3 hr4 hr5 hr6 hr7 hr8 hr9 hlen3 hinv1 hs1 hs2 hs3 hs4 hI3 hI4 hI5 hE hMo hFu
    clear hr1 hinv1 hne
    rw [hr7] at hs2 hI4 hE hMo hFu
    rw [hr8] at hI5
    have hprog0 : (∀ x : Prop, (0 < rf.2.2.avail_out → x) → (0 < strm.avail_out → x)) := by
      intro x hx; rw [hr7] at hx; exact hx
    have hoD : res.output.length ≤ D.length := by
      have := congrArg List.length hs3
      rw [List.length_take] at this
      omega
    have hDd : ∀ k, (D.drop k).length = D.length - k := fun k => List.length_drop k D
    have hnd : (rf.2.2.next_in.drop res.consumed).length = rf.2.2.next_in.length - res.consumed :=
      List.length_drop _ _
    rcases hs4 with ⟨hret, hout⟩ | ⟨hret, hinv2, hprog⟩
    · -- end of stream
      have hDl : D.length ≤ strm.avail_out := by rw [← hout]; exact hs2
      rw [hE (hI1.trans hret)]
      refine ⟨_, rfl, rfl, hr4, hr5, hr6, ?_, ?_, ?_, ?_, Or.inl ⟨rfl, hDl⟩⟩
      · show I.2.2.avail_out = _
        rw [hI4, hout, Nat.min_eq_right hDl]
      · show I.2.2.total_out = _
        rw [hI5, hout, Nat.min_eq_right hDl]
      · show (if skip = true then buf else memcpy buf _ I.2.1) = _
        rw [hI2, hout, List.take_of_length_le hDl]
      · dsimp only
        rw [hI3, hnd]
        clear * - hlen3 hs1 hDl
        omega
    · have hret3 : I.1 ≠ Z_STREAM_END := by
        rw [hI1]
        rcases hret with h | h <;> simp [h, Z_OK, Z_BUF_ERROR, Z_STREAM_END]
      have hdrop : (rf.2.2.next_in ++ rf.2.1.data.drop rf.2.1.pos).drop res.consumed
          = rf.2.2.next_in.drop res.consumed ++ rf.2.1.data.drop rf.2.1.pos :=
        List.drop_append_of_le_length hs1
      rw [hdrop, ← hI3, ← hI6] at hinv2
      by_cases hao : I.2.2.avail_out = 0
      · -- the room is used up
        have hfull : res.output.length = strm.avail_out := by
          rw [hI4] at hao; clear * - hao hs2; omega
        rw [hFu (by rw [hI1]; exact hret) hao]
        refine ⟨_, rfl, rfl, hr4, hr5, hr6, ?_, ?_, ?_, ?_,
          Or.inr ⟨hret3, by clear * - hfull hoD; omega, ?_⟩⟩
        · show I.2.2.avail_out = _
          rw [hao]; clear * - hfull hoD; omega
        · show I.2.2.total_out = _
          rw [hI5]; clear * - hfull hoD; omega
        · show (if skip = true then buf else memcpy buf _ I.2.1) = _
          rw [hI2, ← hfull, ← hs3]
        · dsimp only
          rw [hI3, hnd]
          clear * - hlen3 hs1 hfull hoD
          omega
        · show Inv I.2.2.state (I.2.2.next_in ++ _) _
          rw [← hfull]; exact hinv2
      · -- another round
        have hao' : strm.avail_out - res.output.length ≠ 0 := by rw [← hI4]; exact hao
        have hprog' : 0 < res.consumed + res.output.length :=
          hprog0 _ hprog (by clear * - hao'; omega)
        rw [hMo (by rw [hI1]; exact hret) hao]
        have hb2 : skip = false →
            (to_unsigned len - strm.avail_out) + res.output.length ≤ buf.length := by
          intro hsk
          have := hbuf hsk
          clear * - this hs2
          omega
        obtain ⟨r, hrun, hj, hrf, hre, hrd, hrao, hrto, hrbuf, hrm, hrdis⟩ :=
          ih rf.2.1 I.2.2
            (if skip then buf else memcpy buf (to_unsigned len - strm.avail_out) I.2.1)
            (D.drop res.output.length)
            (by rw [hI3, hnd, hDd]; clear * - hM hlen3 hs1 hoD hprog'; omega) hr4 hr5 hinv2
            (by
              intro hsk
              have := hbuf hsk
              simp only [hsk, Bool.false_eq_true, if_false]
              rw [hI2, memcpy_length _ _ _ (hb2 hsk), hI4]
              clear * - this
              omega)
        rw [hDd, hI4] at hrao hrto hrm
        rw [hI5] at hrto
        rw [hI3, hnd] at hrm
        refine ⟨r, hrun, hj, hrf, hre, hrd.trans hr6, ?_, ?_, ?_, ?_, ?_⟩
        · rw [hrao]; clear * - hs2 hoD; omega
        · rw [hrto]; clear * - hs2 hoD; omega
        · rw [hrbuf]
          cases skip with
          | true => rfl
          | false =>
            simp only [Bool.false_eq_true, if_false]
            have h1 := hbuf rfl
            have h2 := hb2 rfl
            rw [hI4, hI2]
            rw [show to_unsigned len - (strm.avail_out - res.output.length)
                = (to_unsigned len - strm.avail_out) + res.output.length by
                  clear * - h1 hs2; omega]
            rw [memcpy_memcpy _ _ _ _ h2]
            have key := take_add_drop D res.output.length (strm.avail_out - res.output.length)
            rw [← hs3] at key
            rw [key]
            rw [show res.output.length + (strm.avail_out - res.output.length) = strm.avail_out
              by clear * - hs2; omega]
        · clear * - hrm hlen3 hs1 hs2 hoD
          omega
        · rw [hDd, hI4, List.drop_drop] at hrdis
          have e : res.output.length + (strm.avail_out - res.output.length) = strm.avail_out := by
            clear * - hs2; omega
          rcases hrdis with ⟨h1, h2⟩ | ⟨h1, h2, h3⟩
          · exact Or.inl ⟨h1, by clear * - h2 hs2 hoD; omega⟩
          · right
            refine ⟨h1, by clear * - h2 hs2 hoD; omega, ?_⟩
            rw [e] at h3
            exact h3

theorem extract_outer_deliver {σ : Type} (z : Zlib σ) (len : Int) (f : Nat)
    (file : FILE) (strm : z_stream σ) (buf : List Byte) :
    extract_outer z len (f + 1) file strm buf 0 true =
      match extract_inner z len false f file { strm with avail_out := to_unsigned len } buf with
      | none => none
      | some r =>
        if r.jump then some r
        else some { r with ret := to_int (len - r.strm.avail_out) } := by
  rw [extract_outer]
  have h1 : ¬ ((0 : Int) > (WINSIZE : Nat)) := by unfold WINSIZE; omega
  simp only [h1, decide_True, Bool.true_and, if_true, if_false, ne_eq, not_true_eq_false]
  cases extract_inner z len false f file { strm with avail_out := to_unsigned len } buf with
  | none => rfl
  | some r => simp

theorem extract_outer_skip_window {σ : Type} (z : Zlib σ) (len : Int) (f : Nat)
    (file : FILE) (strm : z_stream σ) (buf : List Byte) (o : Nat) (ho : WINSIZE < o) :
    extract_outer z len (f + 1) file strm buf (o : Int) true =
      match extract_inner z len true f file { strm with avail_out := WINSIZE } buf with
      | none => none
      | some r =>
        if r.jump then some r
        else if r.ret = Z_STREAM_END then some { r with ret := 0 }
        else extract_outer z len f r.file r.strm r.buf ((o - WINSIZE : Nat) : Int) true := by
  rw [extract_outer]
  have h0 : ¬ ((o : Int) = 0) := by unfold WINSIZE at ho; omega
  have h1 : (o : Int) > (WINSIZE : Nat) := by exact_mod_cast ho
  have h2 : (o : Int) - (WINSIZE : Nat) = ((o - WINSIZE : Nat) : Int) := by omega
  simp only [h0, h1, h2, decide_False, Bool.false_and, Bool.false_eq_true, if_false, if_true]
  cases extract_inner z len true f file { strm with avail_out := WINSIZE } buf with
  | none => rfl
  | some r => simp

theorem extract_outer_skip_last {σ : Type} (z : Zlib σ) (len : Int) (f : Nat)
    (file : FILE) (strm : z_stream σ) (buf : List Byte) (o : Nat) (ho : o ≤ WINSIZE)
    (ho0 : 0 < o) :
    extract_outer z len (f + 1) file strm buf (o : Int) true =
      match extract_inner z len true f file { strm with avail_out := o } buf with
      | none => none
      | some r =>
        if r.jump then some r
        else if r.ret = Z_STREAM_END then some { r with ret := 0 }
        else extract_outer z len f r.file r.strm r.buf 0 true := by
  rw [extract_outer]
  have h0 : ¬ ((o : Int) = 0) := by omega
  have h1 : ¬ ((o : Int) > (WINSIZE : Nat)) := by
    have : (o : Int) ≤ (WINSIZE : Nat) := by exact_mod_cast ho
    omega
  have h2 : to_unsigned (o : Int) = o := by
    unfold to_unsigned; unfold WINSIZE at ho; omega
  simp only [h0, h1, h2, decide_False, Bool.false_and, Bool.false_eq_true, if_false, ne_eq,
    not_false_eq_true, if_true]
  cases extract_inner z len true f file { strm with avail_out := o } buf with
  | none => rfl
  | some r => simp

/-- The outer loop of `extract` under the decoder contract, entered with `o` bytes to skip:
with enough fuel it returns the number of bytes of `D` from position `o` on that fit in
`len`, stored at the start of `buf`; the decoder has then produced `o` bytes more than it
delivered (or all of `D`, when the stream ends first). -/
theorem extract_outer_spec {σ : Type} (z : Zlib σ) (Inv : σ → List Byte → List Byte → Prop)
    (hz : Decodes z Inv) (len : Int) (hlen0 : 0 ≤ len) (hlen1 : len < 2147483648) :
    ∀ (fuel : Nat) (file : FILE) (strm : z_stream σ) (buf D : List Byte) (o : Nat),
      (o + 1) + (strm.next_in.length + (file.data.drop file.pos).length + D.length) < fuel →
      file.faulty = false → file.err = false →
      Inv strm.state (strm.next_in ++ file.data.drop file.pos) D →
      len.toNat ≤ buf.length →
      ∃ r, extract_outer z len fuel file strm buf (o : Int) true = some r ∧ r.jump = false ∧
        r.ret = ((min len.toNat (D.length - o) : Nat) : Int) ∧
        r.buf = (D.drop o).take len.toNat ++ buf.drop (min len.toNat (D.length - o)) ∧
        r.strm.total_out = strm.total_out + min D.length (o + len.toNat) ∧
        r.file.data = file.data := by
  have hL : to_unsigned len = len.toNat := by unfold to_unsigned; omega
  intro fuel
  induction fuel with
  | zero => intro file strm buf D o hM; omega
  | succ f ih =>
    intro file strm buf D o hM hf he hinv hbuf
    rcases Nat.eq_zero_or_pos o with ho0 | ho0
    · -- deliver
      subst ho0
      rw [Nat.cast_zero, extract_outer_deliver]
      obtain ⟨r, hrun, hj, -, -, hrd, hrao, hrto, hrbuf, -, -⟩ :=
        extract_inner_spec z Inv hz len false f file { strm with avail_out := to_unsigned len }
          buf D (by dsimp only; clear * - hM; omega) hf he hinv
          (by intro _; dsimp only; rw [hL]; exact ⟨le_refl _, hbuf⟩)
      dsimp only at hrao hrto hrbuf
      rw [hL] at hrao hrto hrbuf
      rw [hrun]
      simp only [hj, Bool.false_eq_true, if_false]
      refine ⟨_, rfl, rfl, ?_, ?_, ?_, hrd⟩
      · dsimp only
        rw [hrao]
        unfold to_int
        clear * - hlen0 hlen1
        omega
      · dsimp only
        rw [hrbuf]
        simp only [Bool.false_eq_true, if_false, Nat.sub_self, memcpy, List.take_zero,
          List.nil_append, Nat.zero_add, List.drop_zero, List.length_take, Nat.sub_zero]
      · dsimp only
        rw [hrto, Nat.zero_add, Nat.min_comm]
    · by_cases hw : WINSIZE < o
      · -- skip a window
        rw [extract_outer_skip_window z len f file strm buf o hw]
        obtain ⟨r, hrun, hj, hrf, hre, hrd, hrao, hrto, hrbuf, hrm, hrdis⟩ :=
          extract_inner_spec z Inv hz len true f file { strm with avail_out := WINSIZE }
            buf D (by dsimp only; clear * - hM; omega) hf he hinv (by intro h; cases h)
        dsimp only at hrao hrto hrbuf hrm hrdis
        rw [hrun]
        simp only [hj, Bool.false_eq_true, if_false]
        simp only [if_true] at hrbuf
        rcases hrdis with ⟨hend, hDl⟩ | ⟨hne, hDl, hinv2⟩
        · simp only [hend, if_true]
          refine ⟨_, rfl, rfl, ?_, ?_, ?_, hrd⟩
          · dsimp only
            clear * - hDl hw
            omega
          · dsimp only
            rw [hrbuf, List.drop_of_length_le (by clear * - hDl hw; omega)]
            have : min len.toNat (D.length - o) = 0 := by clear * - hDl hw; omega
            rw [this]
            simp
          · dsimp only
            rw [hrto]
            clear * - hDl hw
            omega
        · simp only [hne, if_false]
          obtain ⟨r2, hrun2, hj2, hret2, hbuf2, hto2, hd2⟩ :=
            ih r.file r.strm r.buf (D.drop WINSIZE) (o - WINSIZE)
              (by
                rw [List.length_drop WINSIZE D]
                unfold WINSIZE at hw hrm ⊢
                clear * - hM hrm hw
                omega) hrf hre hinv2 (by rw [hrbuf]; exact hbuf)
          rw [List.length_drop] at hret2 hbuf2 hto2
          rw [List.drop_drop] at hbuf2
          have e1 : WINSIZE + (o - WINSIZE) = o := by clear * - hw; omega
          have e2 : D.length - WINSIZE - (o - WINSIZE) = D.length - o := by clear * - hw; omega
          rw [e1, e2] at hbuf2
          rw [e2] at hret2
          refine ⟨r2, hrun2, hj2, hret2, ?_, ?_, hd2.trans hrd⟩
          · rw [hbuf2, hrbuf]
          · rw [hto2, hrto]
            clear * - hDl hw
            omega
      · -- the last skip
        have hw' : o ≤ WINSIZE := by clear * - hw; omega
        rw [extract_outer_skip_last z len f file strm buf o hw' ho0]
        obtain ⟨r, hrun, hj, hrf, hre, hrd, hrao, hrto, hrbuf, hrm, hrdis⟩ :=
          extract_inner_spec z Inv hz len true f file { strm with avail_out := o }
            buf D (by dsimp only; clear * - hM; omega) hf he hinv (by intro h; cases h)
        dsimp only at hrao hrto hrbuf hrm hrdis
        rw [hrun]
        simp only [hj, Bool.false_eq_true, if_false]
        simp only [if_true] at hrbuf
        rcases hrdis with ⟨hend, hDl⟩ | ⟨hne, hDl, hinv2⟩
        · simp only [hend, if_true]
          refine ⟨_, rfl, rfl, ?_, ?_, ?_, hrd⟩
          · dsimp only
            clear * - hDl
            omega
          · dsimp only
            rw [hrbuf, List.drop_of_length_le hDl]
            have : min len.toNat (D.length - o) = 0 := by clear * - hDl; omega
            rw [this]
            simp
          · dsimp only
            rw [hrto]
            clear * - hDl
            omega
        · simp only [hne, if_false]
          obtain ⟨r2, hrun2, hj2, hret2, hbuf2, hto2, hd2⟩ :=
            ih r.file r.strm r.buf (D.drop o) 0
              (by
                rw [List.length_drop o D]
                clear * - hM hrm ho0
                omega) hrf hre hinv2 (by rw [hrbuf]; exact hbuf)
          rw [List.length_drop] at hret2 hbuf2 hto2
          rw [List.drop_drop] at hbuf2
          rw [Nat.cast_zero] at hrun2
          simp only [Nat.add_zero, Nat.sub_zero, Nat.zero_add] at hbuf2 hret2 hto2
          refine ⟨r2, hrun2, hj2, hret2, ?_, ?_, hd2.trans hrd⟩
          · rw [hbuf2, hrbuf]
          · rw [hto2, hrto]
            clear * - hDl
            omega

theorem fseeko_fields (file : FILE) (off : Int) :
    (fseeko file off).2.data = file.data ∧ (fseeko file off).2.faulty = file.faulty ∧
      (fseeko file off).2.err = file.err := by
  unfold fseeko
  split <;> exact ⟨rfl, rfl, rfl⟩

theorem getc_fields (file : FILE) (h : (getc file).1 ≠ -1) :
    (getc file).2.data = file.data ∧ (getc file).2.faulty = file.faulty ∧
      (getc file).2.err = file.err := by
  unfold getc at h ⊢
  by_cases hfa : file.faulty = true
  · simp [hfa] at h
  · simp only [hfa, Bool.false_eq_true, if_false] at h ⊢
    cases hg : file.data[file.pos]? with
    | none => simp [hg] at h
    | some b => exact ⟨rfl, rfl, rfl⟩

theorem extract_init_ok {σ : Type} (z : Zlib σ) (file : FILE) (here : point) (file1 : FILE)
    (strm1 : z_stream σ) (h : extract_init z file here = .ok (file1, strm1)) :
    strm1.next_in = [] ∧ strm1.total_out = 0 ∧ file1.data = file.data ∧
      file1.faulty = file.faulty ∧ file1.err = file.err := by
  unfold extract_init at h
  simp only at h
  by_cases h1 : (z.inflateInit2 (-15)).1 ≠ Z_OK
  · rw [if_pos h1] at h; cases h
  · rw [if_neg h1] at h
    have hsk := fseeko_fields file (here.in_ - if here.bits ≠ 0 then 1 else 0)
    by_cases h2 : (fseeko file (here.in_ - if here.bits ≠ 0 then 1 else 0)).1 = -1
    · rw [if_pos h2] at h; cases h
    · rw [if_neg h2] at h
      by_cases h3 : here.bits ≠ 0
      · rw [if_pos h3] at h
        by_cases h4 : (getc (fseeko file (here.in_ - if here.bits ≠ 0 then 1 else 0)).2).1 = -1
        · rw [if_pos h4] at h; cases h
        · rw [if_neg h4] at h
          have hg := getc_fields _ h4
          simp only [Except.ok.injEq, Prod.mk.injEq] at h
          obtain ⟨e1, e2⟩ := h
          subst e1 e2
          exact ⟨rfl, rfl, hg.1.trans hsk.1, hg.2.1.trans hsk.2.1, hg.2.2.trans hsk.2.2⟩
      · rw [if_neg h3] at h
        simp only [Except.ok.injEq, Prod.mk.injEq] at h
        obtain ⟨e1, e2⟩ := h
        subst e1 e2
        exact ⟨rfl, rfl, hsk⟩

theorem extract_of_outer {σ : Type} (z : Zlib σ) (file : FILE) (index : access) (offset : Int)
    (buf : List Byte) (len : Int) (p : point) (file1 : FILE) (strm1 : z_stream σ) (fuel : Nat)
    (r : extract_state σ) (hp : findpoint index offset = some p) (hlen0 : 0 ≤ len)
    (hinit : extract_init z file p = .ok (file1, strm1))
    (hrun : extract_outer z len fuel file1 { strm1 with next_in := [] } buf (offset - p.out)
      true = some r) :
    extract z fuel file index offset buf len = some ⟨r.ret, r.file, r.buf, some r.strm⟩ := by
  unfold extract
  rw [if_neg (not_lt.mpr hlen0)]
  simp only [hp]
  rw [hinit]
  simp only
  rw [hrun]

/-- C8. `extract` returns 0 when `len < 0`, and when `findpoint` finds no access point at
or before `offset`. When it finds `p` and the decoder, set up at `p` on a file that can be
read, has exactly `D` left to produce with `p.out + |D| ≤ offset` (the offset is at or past
the end of the stream), `extract` returns 0 for every `int` `len`, given a buffer of at
least `len` bytes and enough fuel. -/
theorem extract_out_of_range {σ : Type} (z : Zlib σ) (Inv : σ → List Byte → List Byte → Prop)
    (hz : Decodes z Inv) (file : FILE) (index : access) (offset : Int) (buf : List Byte)
    (len : Int) :
    (len < 0 → ∀ fuel, extract z fuel file index offset buf len = some ⟨0, file, buf, none⟩) ∧
    (findpoint index offset = none →
      ∀ fuel, extract z fuel file index offset buf len = some ⟨0, file, buf, none⟩) ∧
    (∀ (p : point) (file1 : FILE) (strm1 : z_stream σ) (D : List Byte),
      findpoint index offset = some p → len < 2147483648 → len.toNat ≤ buf.length →
      file.faulty = false → file.err = false →
      extract_init z file p = .ok (file1, strm1) →
      Inv strm1.state (file1.data.drop file1.pos) D →
      p.out + D.length ≤ offset →
      ∃ N, ∀ fuel, N ≤ fuel →
        ∃ r, extract z fuel file index offset buf len = some r ∧ r.ret = 0) := by
  refine ⟨?_, ?_, ?_⟩
  · intro h fuel
    unfold extract
    rw [if_pos h]
  · intro h fuel
    unfold extract
    rw [h]
    split <;> rfl
  · intro p file1 strm1 D hp hlen1 hbuf hf he hinit hres hend
    by_cases hlen0 : 0 ≤ len
    · obtain ⟨hn1, ht1, hd1, hf1, he1⟩ := extract_init_ok z file p file1 strm1 hinit
      refine ⟨(offset - p.out).toNat + 1 + ((file1.data.drop file1.pos).length + D.length) + 1,
        ?_⟩
      intro fuel hfuel
      obtain ⟨r, hrun, -, hret, -, -, -⟩ :=
        extract_outer_spec z Inv hz len hlen0 hlen1 fuel file1 { strm1 with next_in := [] } buf
          D (offset - p.out).toNat
          (by dsimp only; rw [List.length_nil]; clear * - hfuel; omega)
          (hf1.trans hf) (he1.trans he) (by dsimp only; rw [List.nil_append]; exact hres) hbuf
      rw [Int.toNat_of_nonneg (by clear * - hend; omega)] at hrun
      refine ⟨⟨r.ret, r.file, r.buf, some r.strm⟩,
        extract_of_outer z file index offset buf len p file1 strm1 fuel r hp hlen0 hinit hrun, ?_⟩
      · dsimp only
        rw [hret]
        clear * - hend; omega
    · refine ⟨0, fun fuel _ => ⟨⟨0, file, buf, none⟩, ?_, rfl⟩⟩
      unfold extract
      rw [if_pos (not_le.mp hlen0)]

theorem stored_scan_spec (tail : List Byte) :
    ∀ (inp more D : List Byte) (ao : Nat), (∀ b ∈ D, 2 ≤ b) → inp ++ more = D ++ 0 :: tail →
      (stored_scan Z_NO_FLUSH inp ao).1 ≤ inp.length ∧
      (stored_scan Z_NO_FLUSH inp ao).2.1.length ≤ ao ∧
      (stored_scan Z_NO_FLUSH inp ao).2.1 = D.take (stored_scan Z_NO_FLUSH inp ao).2.1.length ∧
      (((stored_scan Z_NO_FLUSH inp ao).2.2 = 1 ∧ (stored_scan Z_NO_FLUSH inp ao).2.1 = D) ∨
        ((stored_scan Z_NO_FLUSH inp ao).2.2 = 0 ∧
          (inp ++ more).drop (stored_scan Z_NO_FLUSH inp ao).1
            = D.drop (stored_scan Z_NO_FLUSH inp ao).2.1.length ++ 0 :: tail ∧
          (inp ≠ [] → 0 < ao → 0 < (stored_scan Z_NO_FLUSH inp ao).1 +
            (stored_scan Z_NO_FLUSH inp ao).2.1.length))) := by
  intro inp
  induction inp with
  | nil =>
    intro more D ao hD h
    simp only [stored_scan, List.length_nil, List.take_zero, List.drop_zero]
    exact ⟨le_refl _, Nat.zero_le _, trivial, Or.inr ⟨trivial, h, fun h => absurd rfl h⟩⟩
  | cons x t ih =>
    intro more D ao hD h
    cases D with
    | nil =>
      simp only [List.nil_append, List.cons_append, List.cons.injEq] at h
      obtain ⟨hx, -⟩ := h
      subst hx
      simp [stored_scan]
    | cons d D1 =>
      simp only [List.cons_append, List.cons.injEq] at h
      obtain ⟨hx, ht⟩ := h
      subst hx
      have hx2 : 2 ≤ x := hD x (by simp)
      obtain ⟨b, hb⟩ := Nat.exists_eq_add_of_le hx2
      rw [Nat.add_comm] at hb
      subst hb
      cases ao with
      | zero =>
        simp only [stored_scan, List.length_nil, List.take_zero, List.drop_zero]
        refine ⟨Nat.zero_le _, le_refl _, trivial, Or.inr ⟨trivial, ?_, fun _ h => absurd h (lt_irrefl _)⟩⟩
        simp [ht]
      | succ a =>
        obtain ⟨h1, h2, h3, h4⟩ := ih more D1 a (fun c hc => hD c (by simp [hc])) ht
        simp only [stored_scan, List.length_cons, List.take_succ_cons, List.cons.injEq, true_and,
          List.drop_succ_cons, List.cons_append]
        refine ⟨by omega, by omega, h3, ?_⟩
        rcases h4 with ⟨h5, h6⟩ | ⟨h5, h6, h7⟩
        · exact Or.inl ⟨h5, h6⟩
        · exact Or.inr ⟨h5, h6, fun _ _ => by omega⟩

theorem stored_decodes : Decodes stored stored_ahead := by
  constructor
  · rintro s rest D ⟨-, tail, rfl⟩
    simp
  · rintro s inp more D ao ⟨hD, tail, h⟩ hne
    obtain ⟨h1, h2, h3, h4⟩ := stored_scan_spec tail inp more D ao hD h
    have hinf : stored.inflate s inp ao Z_NO_FLUSH = stored_inflate s inp ao Z_NO_FLUSH := rfl
    rw [hinf]
    unfold stored_inflate
    simp only
    refine ⟨h1, h2, h3, ?_⟩
    rcases h4 with ⟨h5, h6⟩ | ⟨h5, h6, h7⟩
    · left
      simp only [h5, if_true]
      exact ⟨trivial, h6⟩
    · right
      simp only [h5]
      refine ⟨?_, ⟨?_, _, h6⟩, fun h => h7 hne h⟩
      · rw [if_neg (by decide)]
        split
        · exact Or.inr rfl
        · exact Or.inl rfl
      · intro b hb
        exact hD b (List.mem_of_mem_drop hb)

theorem extract_out_of_range_witness :
    ∃ N, ∀ fuel, N ≤ fuel →
      ∃ r, extract stored fuel (open_file sample_data) sample_index 10 [0, 0, 0, 0, 0] 5 = some r ∧
        r.ret = 0 :=
  (extract_out_of_range stored stored_ahead stored_decodes (open_file sample_data) sample_index
    10 [0, 0, 0, 0, 0] 5).2.2 sample_point ⟨sample_data, 1, false, false⟩ ⟨[], 0, 0, 0, 0, ()⟩
    sample_full (by rfl) (by decide) (by decide) rfl rfl (by rfl) ⟨by decide, [9, 9], rfl⟩
    (by decide)

/-! ### seekgzip_read, seekgzip_seek, seekgzip_tell -/

/-- C7. Whenever `seekgzip_read` returns, it returns what `extract` returned for the
handle's offset, and the offset has grown by exactly that amount if it is positive and is
unchanged otherwise; a read that follows `seekgzip_seek(o)` extracts at `o`, and
`seekgzip_tell` then gives `o`. -/
theorem seekgzip_read_offset {σ : Type} (z : Zlib σ) (fuel : Nat) (sz : seekgzip_t)
    (buffer : List Byte) (size : Int) (n : Int) (buf1 : List Byte) (sz1 : seekgzip_t)
    (h : seekgzip_read z fuel sz buffer size = some (n, buf1, sz1)) :
    (∃ index r, sz.index = some index ∧
      extract z fuel sz.fp index sz.offset buffer size = some r ∧ r.ret = n ∧ r.buf = buf1) ∧
    (0 < n → sz1.offset = sz.offset + n) ∧
    (n ≤ 0 → sz1.offset = sz.offset) ∧
    (∀ o : Int, seekgzip_tell (seekgzip_seek sz o) = o) ∧
    (∀ (o : Int) index, sz.index = some index →
      (seekgzip_read z fuel (seekgzip_seek sz o) buffer size).map (fun r => (r.1, r.2.1)) =
        (extract z fuel sz.fp index o buffer size).map (fun r => (r.ret, r.buf))) := by
  unfold seekgzip_read at h
  cases hi : sz.index with
  | none => simp [hi] at h
  | some index =>
    simp only [hi] at h
    cases he : extract z fuel sz.fp index sz.offset buffer size with
    | none => simp [he] at h
    | some r =>
      simp only [he] at h
      refine ⟨⟨index, r, rfl, he, ?_, ?_⟩, ?_, ?_, fun o => rfl, ?_⟩
      · by_cases hp : 0 < r.ret
        · simp only [hp, if_true, Option.some.injEq, Prod.mk.injEq] at h; exact h.1
        · simp only [hp, if_false, Option.some.injEq, Prod.mk.injEq] at h; exact h.1
      · by_cases hp : 0 < r.ret
        · simp only [hp, if_true, Option.some.injEq, Prod.mk.injEq] at h; exact h.2.1
        · simp only [hp, if_false, Option.some.injEq, Prod.mk.injEq] at h; exact h.2.1
      · intro hn
        by_cases hp : 0 < r.ret
        · simp only [hp, if_true, Option.some.injEq, Prod.mk.injEq] at h
          obtain ⟨h1, -, h3⟩ := h
          rw [← h3, ← h1]
        · simp only [hp, if_false, Option.some.injEq, Prod.mk.injEq] at h
          omega
      · intro hn
        by_cases hp : 0 < r.ret
        · simp only [hp, if_true, Option.some.injEq, Prod.mk.injEq] at h
          omega
        · simp only [hp, if_false, Option.some.injEq, Prod.mk.injEq] at h
          obtain ⟨-, -, h3⟩ := h
          rw [← h3]
      · intro o index1 hi1
        cases hi1
        unfold seekgzip_read seekgzip_seek
        simp only [hi]
        cases extract z fuel sz.fp index o buffer size with
        | none => rfl
        | some r2 =>
          by_cases hp : 0 < r2.ret <;> simp [hp]

theorem seekgzip_read_offset_witness :
    seekgzip_read stored 20
        ⟨open_file [1, 97, 98, 99, 100, 101, 0], some ⟨1, [⟨0, 1, 0, []⟩]⟩, 2, 7, 5,
          SEEKGZIP_SUCCESS⟩ [0, 0, 0, 0] 2
      = some (2, [99, 100, 0, 0],
          ⟨⟨[1, 97, 98, 99, 100, 101, 0], 7, false, false⟩, some ⟨1, [⟨0, 1, 0, []⟩]⟩, 4, 7, 5,
            SEEKGZIP_SUCCESS⟩) ∧
    ((0 : Int) < 2 → (4 : Int) = 2 + 2) :=
  ⟨by decide,
    (seekgzip_read_offset stored 20
      ⟨open_file [1, 97, 98, 99, 100, 101, 0], some ⟨1, [⟨0, 1, 0, []⟩]⟩, 2, 7, 5,
        SEEKGZIP_SUCCESS⟩ [0, 0, 0, 0] 2 2 [99, 100, 0, 0]
      ⟨⟨[1, 97, 98, 99, 100, 101, 0], 7, false, false⟩, some ⟨1, [⟨0, 1, 0, []⟩]⟩, 4, 7, 5,
        SEEKGZIP_SUCCESS⟩ (by decide)).2.1⟩

/-! ### build_index -/

theorem build_index_body_continue {σ : Type} (z : Zlib σ) (alloc : Nat → Bool) (span : Int)
    (st : build_state σ) (h : (build_index_body z alloc span st).2 = true) :
    (build_index_body z alloc span st).1.jump = st.jump := by
  unfold build_index_body at h ⊢
  simp only at h ⊢
  generalize (if st.strm.avail_out = 0 then { st.strm with avail_out := WINSIZE }
    else st.strm) = strm1 at h ⊢
  generalize inflate z strm1 Z_BLOCK = r at h ⊢
  generalize (if r.1 = Z_NEED_DICT then Z_DATA_ERROR else r.1) = ret at h ⊢
  split
  · rename_i h1; rw [if_pos h1] at h; cases h
  · rename_i h1
    rw [if_neg h1] at h
    split
    · rfl
    · rename_i h2
      rw [if_neg h2] at h
      split
      · rename_i h3
        rw [if_pos h3] at h
        split
        · rename_i h4; rw [h4] at h; cases h
        · rfl
      · rfl

/-- A property that a round of the inner loop preserves holds when the loop is left. -/
theorem build_index_inner_inv {σ : Type} (z : Zlib σ) (alloc : Nat → Bool) (span : Int)
    (P : build_state σ → Prop)
    (hP : ∀ st, st.jump = false → P st → P (build_index_body z alloc span st).1) :
    ∀ (fuel : Nat) (st st1 : build_state σ), st.jump = false →
      build_index_inner z alloc span fuel st = some st1 → P st → P st1 := by
  intro fuel
  induction fuel with
  | zero => intro st st1 _ h; simp [build_index_inner] at h
  | succ f ih =>
    intro st st1 hj h hp
    rw [build_index_inner] at h
    by_cases hc : (build_index_body z alloc span st).2 = true
    · rw [if_pos hc] at h
      exact ih _ _ ((build_index_body_continue z alloc span st hc).trans hj) h (hP st hj hp)
    · rw [if_neg hc] at h
      cases h
      exact hP st hj hp

/-- A property that a round of the inner loop preserves, and that does not depend on the
file, the input buffer, `ret` and `jump`, holds when the outer loop is left. -/
theorem build_index_outer_inv {σ : Type} (z : Zlib σ) (alloc : Nat → Bool) (span : Int)
    (P : build_state σ → Prop)
    (hP : ∀ st, st.jump = false → P st → P (build_index_body z alloc span st).1)
    (hrd : ∀ (st : build_state σ) (f : FILE) (inp : List Byte), P st →
      P { st with file := f, strm := { st.strm with next_in := inp } })
    (herr : ∀ (st : build_state σ) (e : Int), e < 0 → P st → P { st with ret := e, jump := true }) :
    ∀ (fuel : Nat) (st st1 : build_state σ), st.jump = false →
      build_index_outer z alloc span fuel st = some st1 → P st → P st1 := by
  intro fuel
  induction fuel with
  | zero => intro st st1 _ h; simp [build_index_outer] at h
  | succ f ih =>
    intro st st1 hj h hp
    rw [build_index_outer] at h
    simp only at h
    have hp1 := hrd st (fread st.file CHUNK).2 (fread st.file CHUNK).1 hp
    split at h
    · cases h
      exact herr _ Z_ERRNO (by decide) hp1
    · split at h
      · cases h
        exact herr _ Z_DATA_ERROR (by decide) hp1
      · split at h
        · cases h
        · rename_i st2 hin
          have hp2 := build_index_inner_inv z alloc span P hP f
            { st with file := (fread st.file CHUNK).2,
                      strm := { st.strm with next_in := (fread st.file CHUNK).1 } } st2 hj hin hp1
          split at h
          · cases h; exact hp2
          · rename_i hj2
            split at h
            · exact ih st2 st1 (by simpa using hj2) h hp2
            · cases h; exact hp2

theorem build_index_body_totals {σ : Type} (z : Zlib σ) (hz : within_bounds z)
    (alloc : Nat → Bool) (span : Int) (st : build_state σ) (hj : st.jump = false)
    (hp : totals_ok st) : totals_ok (build_index_body z alloc span st).1 := by
  obtain ⟨-, hin, hout⟩ := hp
  have hnj : st.jump = true → False := fun h => by rw [hj] at h; cases h
  have key : ∀ strm1 : z_stream σ, strm1.total_in = st.strm.total_in →
      strm1.total_out = st.strm.total_out →
      st.totin + (strm1.avail_in : Int) - ((inflate z strm1 Z_BLOCK).2.2.avail_in : Int)
        = ((inflate z strm1 Z_BLOCK).2.2.total_in : Int) ∧
      st.totout + (strm1.avail_out : Int) - ((inflate z strm1 Z_BLOCK).2.2.avail_out : Int)
        = ((inflate z strm1 Z_BLOCK).2.2.total_out : Int) := by
    intro strm1 h1 h2
    obtain ⟨hc, ho⟩ := hz strm1.state strm1.next_in strm1.avail_out Z_BLOCK
    unfold inflate z_stream.avail_in
    simp only [List.length_drop]
    rw [hin, hout, h1, h2]
    constructor <;> omega
  unfold build_index_body totals_ok
  simp only
  generalize hs : (if st.strm.avail_out = 0 then { st.strm with avail_out := WINSIZE }
    else st.strm) = strm1
  have h1 : strm1.total_in = st.strm.total_in := by rw [← hs]; split <;> rfl
  have h2 : strm1.total_out = st.strm.total_out := by rw [← hs]; split <;> rfl
  obtain ⟨k1, k2⟩ := key strm1 h1 h2
  generalize inflate z strm1 Z_BLOCK = r at k1 k2 ⊢
  generalize (if r.1 = Z_NEED_DICT then Z_DATA_ERROR else r.1) = ret
  split
  · rename_i hr
    refine ⟨fun _ => ?_, k1, k2⟩
    show ret < 0
    rcases hr with hr | hr <;> rw [hr] <;> decide
  · split
    · exact ⟨fun h => (hnj h).elim, k1, k2⟩
    · split
      · split
        · exact ⟨fun _ => (by decide : Z_MEM_ERROR < 0), k1, k2⟩
        · exact ⟨fun h => (hnj h).elim, k1, k2⟩
      · exact ⟨fun h => (hnj h).elim, k1, k2⟩

theorem fseeko_zero (f : FILE) : (fseeko f 0).1 = 0 := by
  unfold fseeko
  rw [if_neg (by decide)]

/-- C9. When the decoder keeps within the input it is offered and the room it is given,
and `inflateInit2` returns `Z_OK` or an error, a `build_index` that returns a count (not a
negative code) has stored totals equal to the decoder's own: `totout` is the number of
bytes the decoder produced and `totin` the number it consumed up to the end of the stream,
however the input was split into reads and however often the window was reset. -/
theorem build_index_totals {σ : Type} (z : Zlib σ) (hz : within_bounds z)
    (hinit : (z.inflateInit2 47).1 ≤ 0) (alloc : Nat → Bool) (fuel : Nat) (in_ : FILE)
    (span : Int) (built : access) (sz : seekgzip_t) (r : build_result σ)
    (h : build_index z alloc fuel in_ span built sz = some r) (hok : 0 ≤ r.ret) :
    ∃ strm, r.strm = some strm ∧ r.totin = strm.total_in ∧ r.totout = strm.total_out := by
  unfold build_index at h
  simp only at h
  by_cases h1 : (z.inflateInit2 47).1 ≠ Z_OK
  · rw [if_pos h1] at h
    obtain rfl := Option.some.inj h
    exfalso
    simp only [Z_OK] at h1
    simp only at hok
    omega
  · rw [if_neg h1, if_neg (by rw [fseeko_zero]; decide)] at h
    cases ho : build_index_outer z alloc span fuel
        ⟨(fseeko in_ 0).1, false, (fseeko in_ 0).2, ⟨[], 0, 0, 0, 0, (z.inflateInit2 47).2⟩,
          List.replicate WINSIZE 0, built, 0, 0, 0⟩ with
    | none => rw [ho] at h; cases h
    | some st =>
      rw [ho] at h
      simp only at h
      have hinv : totals_ok st :=
        build_index_outer_inv z alloc span totals_ok
          (fun st hj hp => build_index_body_totals z hz alloc span st hj hp)
          (fun st f inp hp => hp)
          (fun st e he hp => ⟨fun _ => he, hp.2⟩)
          fuel _ st rfl ho ⟨fun hj => Bool.noConfusion hj, rfl, rfl⟩
      by_cases hj : st.jump = true
      · rw [if_pos hj] at h
        obtain rfl := Option.some.inj h
        have := hinv.1 hj
        simp only at hok
        omega
      · rw [if_neg hj] at h
        obtain rfl := Option.some.inj h
        exact ⟨st.strm, rfl, hinv.2.1, hinv.2.2⟩

theorem addpoint_list (alloc : Nat → Bool) (index : access) (bits in_ out : Int) (left : Nat)
    (window : List Byte) (index2 : access)
    (h : addpoint alloc index bits in_ out left window = some index2) :
    ∃ w, index2.list = index.list ++ [⟨out, in_, bits, w⟩] := by
  unfold addpoint at h
  simp only at h
  by_cases c1 : index.nelements = index.allocated
  · rw [if_pos c1] at h
    by_cases c2 : alloc ((if index.allocated ≠ 0 then index.allocated else 1) <<< 1) = true
    · rw [if_pos c2] at h
      simp only at h
      rw [← Option.some.inj h]
      exact ⟨_, rfl⟩
    · rw [if_neg c2] at h
      simp at h
  · rw [if_neg c1] at h
    simp only at h
    rw [← Option.some.inj h]
    exact ⟨_, rfl⟩

theorem build_index_body_points {σ : Type} (z : Zlib σ) (alloc : Nat → Bool) (span : Int)
    (st : build_state σ) (hp : points_ok span st) :
    points_ok span (build_index_body z alloc span st).1 := by
  obtain ⟨hc, hh, hb, hl0, hl1, hlast, hnil⟩ := hp
  unfold build_index_body
  simp only
  generalize (if st.strm.avail_out = 0 then { st.strm with avail_out := WINSIZE }
    else st.strm) = strm1
  have hmono : st.totout ≤ st.totout + (strm1.avail_out : Int)
      - ((inflate z strm1 Z_BLOCK).2.2.avail_out : Int) := by
    have : (inflate z strm1 Z_BLOCK).2.2.avail_out ≤ strm1.avail_out := by
      unfold inflate; simp only; omega
    omega
  generalize inflate z strm1 Z_BLOCK = r at hmono ⊢
  generalize (if r.1 = Z_NEED_DICT then Z_DATA_ERROR else r.1) = ret
  have hkeep : ∀ (e : Int) (j : Bool) (f : FILE) (s : z_stream σ) (w : List Byte) (ti : Int),
      points_ok span (⟨e, j, f, s, w, st.index, ti,
        st.totout + (strm1.avail_out : Int) - (r.2.2.avail_out : Int), st.last⟩ : build_state σ) :=
    fun e j f s w ti => ⟨hc, hh, hb, hl0, le_trans hl1 hmono, hlast, hnil⟩
  split
  · exact hkeep _ _ _ _ _ _
  · split
    · exact hkeep _ _ _ _ _ _
    · split
      · rename_i hcond
        split
        · exact hkeep _ _ _ _ _ _
        · rename_i index2 hadd
          obtain ⟨w, hlist⟩ := addpoint_list _ _ _ _ _ _ _ _ hadd
          obtain ⟨-, -, hgap⟩ := hcond
          have htot0 : 0 ≤ st.totout + (strm1.avail_out : Int) - (r.2.2.avail_out : Int) := by
            omega
          unfold points_ok
          simp only
          rw [hlist]
          refine ⟨?_, ?_, ?_, htot0, le_refl _, ?_, ?_⟩
          · rw [List.chain'_append]
            refine ⟨hc, List.chain'_singleton _, ?_⟩
            intro x hx y hy
            simp only [List.head?_cons, Option.mem_def, Option.some.injEq] at hy
            subst hy
            have hxl := hlast x hx
            unfold spaced
            simp only
            rcases hgap with h0 | h1
            · left; exact ⟨by omega, h0⟩
            · right; omega
          · intro p hp
            cases hl : st.index.list with
            | nil =>
              rw [hl] at hp
              simp only [List.nil_append, List.head?_cons, Option.some.injEq] at hp
              subst hp
              simp only
              have := hnil hl
              rcases hgap with h0 | h1
              · exact Or.inl h0
              · right; omega
            | cons a t =>
              rw [hl] at hp
              simp only [List.cons_append, List.head?_cons, Option.some.injEq] at hp
              exact hh p (by rw [hl]; simp [hp])
          · intro p hp
            rw [List.mem_append] at hp
            rcases hp with hp | hp
            · exact hb p hp
            · simp only [List.mem_singleton] at hp
              subst hp
              simp only
              have : r.2.2.data_type &&& 7 ≤ 7 := Nat.and_le_right
              omega
          · intro q hq
            rw [List.getLast?_append_of_ne_nil _ (by simp), List.getLast?_singleton] at hq
            cases hq
            rfl
          · intro h
            simp at h
      · exact hkeep _ _ _ _ _ _

theorem spaced_le (a b : point) (h : spaced SPAN a b) : a.out ≤ b.out := by
  unfold spaced SPAN at h
  omega

theorem build_index_body_first {σ : Type} (z : Zlib σ) (Fresh : σ → Prop)
    (hz : header_first z Fresh) (alloc : Nat → Bool) (span : Int) (st : build_state σ)
    (hj : st.jump = false) (hp : first_ok Fresh st) :
    first_ok Fresh (build_index_body z alloc span st).1 := by
  obtain ⟨-, hhead, hnil⟩ := hp
  have hnj : st.jump = true → False := fun h => by rw [hj] at h; cases h
  generalize hs : (if st.strm.avail_out = 0 then { st.strm with avail_out := WINSIZE }
    else st.strm) = strm1
  have hst1 : strm1.state = st.strm.state := by rw [← hs]; split <;> rfl
  -- what a call in a fresh state gives
  have hfresh : st.index.list = [] →
      st.totout + (strm1.avail_out : Int) - ((inflate z strm1 Z_BLOCK).2.2.avail_out : Int) = 0 ∧
      (inflate z strm1 Z_BLOCK).1 ≠ Z_STREAM_END ∧
      ((inflate z strm1 Z_BLOCK).1 = Z_NEED_DICT ∨ (inflate z strm1 Z_BLOCK).1 = Z_MEM_ERROR ∨
        (inflate z strm1 Z_BLOCK).1 = Z_DATA_ERROR ∨
        ((inflate z strm1 Z_BLOCK).2.2.data_type &&& 128 ≠ 0 ∧
          ¬ ((inflate z strm1 Z_BLOCK).2.2.data_type &&& 64 ≠ 0)) ∨
        Fresh (inflate z strm1 Z_BLOCK).2.2.state) := by
    intro hl
    rcases hnil hl with h | ⟨hf, ht, -⟩
    · exact (hnj h).elim
    · rw [← hst1] at hf
      obtain ⟨ho, he, hd⟩ := hz.step strm1.state strm1.next_in strm1.avail_out hf
      refine ⟨?_, he, hd⟩
      have ha : (inflate z strm1 Z_BLOCK).2.2.avail_out = strm1.avail_out
          - (z.inflate strm1.state strm1.next_in strm1.avail_out Z_BLOCK).output.length := rfl
      rw [ha, ho, List.length_nil, Nat.sub_zero, ht]
      omega
  unfold build_index_body
  simp only
  rw [hs]
  generalize inflate z strm1 Z_BLOCK = r at hfresh ⊢
  generalize hret : (if r.1 = Z_NEED_DICT then Z_DATA_ERROR else r.1) = ret
  have hkeep : ∀ (j : Bool) (f : FILE) (s : z_stream σ) (w : List Byte) (ti tout l : Int),
      (j = true → ret < 0) → (st.index.list = [] → j = true ∨
        (Fresh s.state ∧ tout = 0 ∧ ret ≠ Z_STREAM_END)) →
      first_ok Fresh (⟨ret, j, f, s, w, st.index, ti, tout, l⟩ : build_state σ) :=
    fun j f s w ti tout l h1 h2 => ⟨h1, hhead, h2⟩
  split
  · rename_i hr
    refine hkeep _ _ _ _ _ _ _ (fun _ => ?_) (fun _ => Or.inl rfl)
    rcases hr with hr | hr <;> rw [hr] <;> decide
  · rename_i hr
    split
    · rename_i he
      refine hkeep _ _ _ _ _ _ _ (fun h => (hnj h).elim) (fun hl => ?_)
      exfalso
      obtain ⟨-, hne, -⟩ := hfresh hl
      by_cases hd : r.1 = Z_NEED_DICT
      · rw [if_pos hd] at hret
        rw [← hret] at he
        exact absurd he (by decide)
      · rw [if_neg hd] at hret
        rw [← hret] at he
        exact hne he
    · rename_i he
      have hno : st.index.list = [] → st.jump = true ∨
          (Fresh r.2.2.state ∧
            st.totout + (strm1.avail_out : Int) - (r.2.2.avail_out : Int) = 0 ∧
            ret ≠ Z_STREAM_END) ∨
          (r.2.2.data_type &&& 128 ≠ 0 ∧ ¬ (r.2.2.data_type &&& 64 ≠ 0) ∧
            st.totout + (strm1.avail_out : Int) - (r.2.2.avail_out : Int) = 0) := by
        intro hl
        obtain ⟨ht, -, hd⟩ := hfresh hl
        have hr1 : r.1 ≠ Z_NEED_DICT := by
          intro hd1
          rw [if_pos hd1] at hret
          exact hr (Or.inr hret.symm)
        rw [if_neg hr1] at hret
        rcases hd with hd | hd | hd | hd | hd
        · exact absurd hd hr1
        · exact absurd (Or.inl (hret ▸ hd)) hr
        · exact absurd (Or.inr (hret ▸ hd)) hr
        · exact Or.inr (Or.inr ⟨hd.1, hd.2, ht⟩)
        · exact Or.inr (Or.inl ⟨hd, ht, he⟩)
      split
      · rename_i hcond
        split
        · exact ⟨fun _ => (by decide : Z_MEM_ERROR < 0), hhead, fun _ => Or.inl rfl⟩
        · rename_i index2 hadd
          obtain ⟨w, hlist⟩ := addpoint_list _ _ _ _ _ _ _ _ hadd
          refine ⟨fun h => (hnj h).elim, ?_, ?_⟩
          · intro p hp
            simp only at hp
            rw [hlist] at hp
            cases hl : st.index.list with
            | nil =>
              rw [hl] at hp
              simp only [List.nil_append, List.head?_cons, Option.some.injEq] at hp
              subst hp
              rcases hno hl with h | ⟨-, ht, -⟩ | ⟨-, -, ht⟩
              · exact (hnj h).elim
              · exact ht
              · exact ht
            | cons a t =>
              rw [hl] at hp
              simp only [List.cons_append, List.head?_cons, Option.some.injEq] at hp
              exact hhead p (by rw [hl]; simp [hp])
          · intro hl
            simp only at hl
            rw [hlist] at hl
            simp at hl
      · rename_i hcond
        refine hkeep _ _ _ _ _ _ _ (fun h => (hnj h).elim) (fun hl => ?_)
        rcases hno hl with h | h | ⟨h1, h2, h3⟩
        · exact (hnj h).elim
        · exact Or.inr h
        · exact absurd ⟨h1, h2, Or.inl h3⟩ hcond

theorem build_index_outer_exit {σ : Type} (z : Zlib σ) (alloc : Nat → Bool) (span : Int) :
    ∀ (fuel : Nat) (st st1 : build_state σ),
      build_index_outer z alloc span fuel st = some st1 →
      st1.jump = true ∨ st1.ret = Z_STREAM_END := by
  intro fuel
  induction fuel with
  | zero => intro st st1 h; simp [build_index_outer] at h
  | succ f ih =>
    intro st st1 h
    rw [build_index_outer] at h
    simp only at h
    split at h
    · cases h; exact Or.inl rfl
    · split at h
      · cases h; exact Or.inl rfl
      · split at h
        · cases h
        · rename_i st2 hin
          split at h
          · rename_i hj2
            cases h; exact Or.inl hj2
          · split at h
            · exact ih _ _ h
            · rename_i hne
              cases h
              exact Or.inr (not_not.mp hne)

/-- C3 (amended). The points `build_index` leaves in an index that was empty, whatever the
decoder reports and whether or not the build succeeds, are non-decreasing in `out`; two
successive points either both lie at 0 or are more than `SPAN` apart (so the points are
strictly increasing from the first positive one on); and every point has `bits` in 0..7.
When the decoder is `header_first`, as zlib is, the first point lies at 0, and a build that
succeeds leaves at least one point. -/
theorem build_index_points {σ : Type} (z : Zlib σ) (Fresh : σ → Prop) (alloc : Nat → Bool)
    (fuel : Nat) (in_ : FILE) (built : access) (sz : seekgzip_t) (r : build_result σ)
    (hb : built.list = [])
    (h : build_index z alloc fuel in_ SPAN built sz = some r) :
    r.built.list.Pairwise (fun a b => a.out ≤ b.out) ∧
    r.built.list.Chain' (spaced SPAN) ∧
    (∀ p ∈ r.built.list, 0 ≤ p.bits ∧ p.bits ≤ 7) ∧
    (header_first z Fresh →
      (∀ p, r.built.list.head? = some p → p.out = 0) ∧
      (0 ≤ r.ret → ∃ p, r.built.list.head? = some p ∧ p.out = 0)) := by
  have hmain : r.built.list.Chain' (spaced SPAN) ∧
      (∀ p ∈ r.built.list, 0 ≤ p.bits ∧ p.bits ≤ 7) ∧
      (header_first z Fresh →
        (∀ p, r.built.list.head? = some p → p.out = 0) ∧
        (0 ≤ r.ret → r.built.list ≠ [])) := by
    unfold build_index at h
    simp only at h
    by_cases h1 : (z.inflateInit2 47).1 ≠ Z_OK
    · rw [if_pos h1] at h
      obtain rfl := Option.some.inj h
      simp only [hb]
      refine ⟨List.chain'_nil, fun p hp => absurd hp (List.not_mem_nil p), fun hz => ⟨?_, ?_⟩⟩
      · intro p hp
        cases hp
      · intro hret
        exfalso
        have := hz.init_code
        simp only [Z_OK] at h1
        omega
    · rw [if_neg h1, if_neg (by rw [fseeko_zero]; decide)] at h
      cases ho : build_index_outer z alloc SPAN fuel
          ⟨(fseeko in_ 0).1, false, (fseeko in_ 0).2, ⟨[], 0, 0, 0, 0, (z.inflateInit2 47).2⟩,
            List.replicate WINSIZE 0, built, 0, 0, 0⟩ with
      | none => rw [ho] at h; cases h
      | some st =>
        rw [ho] at h
        simp only at h
        have hinv : points_ok SPAN st :=
          build_index_outer_inv z alloc SPAN (points_ok SPAN)
            (fun st _ hp => build_index_body_points z alloc SPAN st hp)
            (fun st f inp hp => hp)
            (fun st e _ hp => hp)
            fuel _ st rfl ho
            (by
              unfold points_ok
              simp only [hb]
              simp)
        have hfirst : header_first z Fresh → first_ok Fresh st := fun hz =>
          build_index_outer_inv z alloc SPAN (first_ok Fresh)
            (fun st hj hp => build_index_body_first z Fresh hz alloc SPAN st hj hp)
            (fun st f inp hp => hp)
            (fun st e he hp => ⟨fun _ => he, hp.2.1, fun _ => Or.inl rfl⟩)
            fuel _ st rfl ho
            (by
              refine ⟨fun hj => Bool.noConfusion hj, ?_, fun _ => Or.inr ⟨hz.init, rfl, ?_⟩⟩
              · intro p hp
                simp only [hb] at hp
                cases hp
              · show (fseeko in_ 0).1 ≠ Z_STREAM_END
                rw [fseeko_zero]
                decide)
        have hexit := build_index_outer_exit z alloc SPAN fuel _ st ho
        by_cases hj : st.jump = true
        · rw [if_pos hj] at h
          obtain rfl := Option.some.inj h
          refine ⟨hinv.1, hinv.2.2.1, fun hz => ⟨(hfirst hz).2.1, fun hret => ?_⟩⟩
          exfalso
          have := (hfirst hz).1 hj
          simp only at hret
          omega
        · rw [if_neg hj] at h
          obtain rfl := Option.some.inj h
          refine ⟨hinv.1, hinv.2.2.1, fun hz => ⟨(hfirst hz).2.1, fun _ hl => ?_⟩⟩
          rcases (hfirst hz).2.2 hl with h2 | ⟨-, -, h2⟩
          · exact hj h2
          · rcases hexit with h3 | h3
            · exact hj h3
            · exact h2 h3
  refine ⟨?_, hmain.1, hmain.2.1, fun hz => ⟨(hmain.2.2 hz).1, fun hret => ?_⟩⟩
  · have hle : r.built.list.Chain' (fun a b => a.out ≤ b.out) :=
      List.Chain'.imp (fun a b hab => spaced_le a b hab) hmain.1
    haveI : IsTrans point (fun a b => a.out ≤ b.out) := ⟨fun a b c h1 h2 => le_trans h1 h2⟩
    exact List.chain'_iff_pairwise.mp hle
  · cases hl : r.built.list with
    | nil => exact absurd hl ((hmain.2.2 hz).2 hret)
    | cons a t =>
      refine ⟨a, rfl, (hmain.2.2 hz).1 a ?_⟩
      rw [hl]
      rfl

theorem stored_scan_bounds (flush : Int) :
    ∀ (inp : List Nat) (ao : Nat),
      (stored_scan flush inp ao).1 ≤ inp.length ∧ (stored_scan flush inp ao).2.1.length ≤ ao := by
  intro inp
  induction inp with
  | nil => intro ao; simp [stored_scan]
  | cons x t ih =>
    intro ao
    rcases Nat.lt_or_ge x 2 with hx | hx
    · rcases Nat.eq_zero_or_pos x with h0 | h0
      · subst h0; simp [stored_scan]
      · have h1 : x = 1 := by omega
        subst h1
        rw [stored_scan]
        split
        · simp
        · obtain ⟨a, b⟩ := ih ao
          simp only [List.length_cons]
          exact ⟨by omega, b⟩
    · obtain ⟨b, hb⟩ := Nat.exists_eq_add_of_le hx
      rw [Nat.add_comm] at hb
      subst hb
      cases ao with
      | zero => simp [stored_scan]
      | succ a =>
        obtain ⟨c, d⟩ := ih a
        simp only [stored_scan, List.length_cons]
        exact ⟨by omega, by omega⟩

theorem stored_within_bounds : within_bounds stored := by
  intro s inp ao flush
  exact stored_scan_bounds flush inp ao

theorem burst_round (alloc : Nat → Bool) (st : build_state Nat) (h1 : st.strm.state < 33)
    (h2 : st.strm.avail_out = 0) (h3 : st.strm.next_in ≠ []) :
    (build_index_body burst alloc SPAN st).2 = true ∧
    (build_index_body burst alloc SPAN st).1.strm.state = st.strm.state + 1 ∧
    (build_index_body burst alloc SPAN st).1.strm.avail_out = 0 ∧
    (build_index_body burst alloc SPAN st).1.strm.next_in = st.strm.next_in ∧
    (build_index_body burst alloc SPAN st).1.totout = st.totout + WINSIZE ∧
    (build_index_body burst alloc SPAN st).1.index = st.index ∧
    (build_index_body burst alloc SPAN st).1.last = st.last ∧
    (build_index_body burst alloc SPAN st).1.jump = st.jump := by
  have hlen : st.strm.next_in.length ≠ 0 := fun h => h3 (List.length_eq_zero.mp h)
  unfold build_index_body inflate burst
  simp only [h2, if_true, h1, List.length_replicate, Nat.sub_self, List.drop_zero,
    z_stream.avail_in]
  simp [Z_OK, Z_NEED_DICT, Z_MEM_ERROR, Z_DATA_ERROR, Z_STREAM_END, hlen]

theorem burst_rounds (alloc : Nat → Bool) (f : Nat) :
    ∀ (k : Nat) (st : build_state Nat), st.strm.state + k ≤ 33 → st.strm.avail_out = 0 →
      st.strm.next_in ≠ [] →
      ∃ st1, build_index_inner burst alloc SPAN (k + f) st
          = build_index_inner burst alloc SPAN f st1 ∧
        st1.strm.state = st.strm.state + k ∧ st1.strm.avail_out = 0 ∧
        st1.strm.next_in = st.strm.next_in ∧ st1.totout = st.totout + k * WINSIZE ∧
        st1.index = st.index ∧ st1.last = st.last ∧ st1.jump = st.jump := by
  intro k
  induction k with
  | zero =>
    intro st _ h2 _
    exact ⟨st, by rw [Nat.zero_add], rfl, h2, rfl, by simp, rfl, rfl, rfl⟩
  | succ k ih =>
    intro st h1 h2 h3
    obtain ⟨b1, b2, b3, b4, b5, b6, b7, b8⟩ := burst_round alloc st (by omega) h2 h3
    obtain ⟨st1, e, c2, c3, c4, c5, c6, c7, c8⟩ :=
      ih (build_index_body burst alloc SPAN st).1 (by rw [b2]; omega) b3 (by rw [b4]; exact h3)
    refine ⟨st1, ?_, ?_, c3, c4.trans b4, ?_, c6.trans b6, c7.trans b7, c8.trans b8⟩
    · rw [show k + 1 + f = (k + f) + 1 by omega, build_index_inner, if_pos b1]
      exact e
    · rw [c2, b2]; omega
    · rw [c5, b5]; push_cast; ring

theorem burst_boundary (st : build_state Nat) (h1 : st.strm.state = 33)
    (h2 : st.strm.avail_out = 0) (h3 : st.strm.next_in.length = 2)
    (h4 : st.index = ⟨0, []⟩) (h5 : st.last = 0) (h6 : st.totout = 1081344) :
    (build_index_body burst (fun _ => true) SPAN st).2 = true ∧
    (build_index_body burst (fun _ => true) SPAN st).1.strm.state = 34 ∧
    (build_index_body burst (fun _ => true) SPAN st).1.jump = st.jump ∧
    ∃ p, (build_index_body burst (fun _ => true) SPAN st).1.index.list = [p] ∧
      p.out = 1081344 := by
  have e1 : (128 : Nat) &&& 64 = 0 := by decide
  have e2 : (128 : Nat) &&& 128 = 128 := by decide
  unfold build_index_body inflate burst
  simp only [h1, h2, h4, h5, h6, if_true, z_stream.avail_in, List.length_drop, h3, addpoint,
    access.nelements]
  simp [Z_OK, Z_NEED_DICT, Z_MEM_ERROR, Z_DATA_ERROR, Z_STREAM_END, SPAN, e1, e2]

theorem burst_end (alloc : Nat → Bool) (st : build_state Nat) (h1 : st.strm.state = 34) :
    (build_index_body burst alloc SPAN st).2 = false ∧
    (build_index_body burst alloc SPAN st).1.ret = Z_STREAM_END ∧
    (build_index_body burst alloc SPAN st).1.jump = st.jump ∧
    (build_index_body burst alloc SPAN st).1.index = st.index := by
  unfold build_index_body inflate burst
  by_cases h2 : st.strm.avail_out = 0 <;>
    simp [h1, h2, Z_OK, Z_NEED_DICT, Z_MEM_ERROR, Z_DATA_ERROR, Z_STREAM_END]

theorem build_index_outer_once {σ : Type} (z : Zlib σ) (alloc : Nat → Bool) (span : Int)
    (f : Nat) (st st2 : build_state σ)
    (h1 : ferror (fread st.file CHUNK).2 = false)
    (h2 : (fread st.file CHUNK).1.length ≠ 0)
    (h3 : build_index_inner z alloc span f
      { st with file := (fread st.file CHUNK).2,
                strm := { st.strm with next_in := (fread st.file CHUNK).1 } } = some st2)
    (h4 : st2.jump = false) (h5 : st2.ret = Z_STREAM_END) :
    build_index_outer z alloc span (f + 1) st = some st2 := by
  rw [build_index_outer]
  simp only [h1, Bool.false_eq_true, if_false, z_stream.avail_in, h2, h3, h4, h5, ne_eq,
    not_true_eq_false]

theorem build_index_of_outer {σ : Type} (z : Zlib σ) (alloc : Nat → Bool) (fuel : Nat)
    (in_ : FILE) (span : Int) (built : access) (sz : seekgzip_t) (st : build_state σ)
    (hi : (z.inflateInit2 47).1 = Z_OK)
    (ho : build_index_outer z alloc span fuel
      ⟨(fseeko in_ 0).1, false, (fseeko in_ 0).2, ⟨[], 0, 0, 0, 0, (z.inflateInit2 47).2⟩,
        List.replicate WINSIZE 0, built, 0, 0, 0⟩ = some st)
    (hj : st.jump = false) :
    build_index z alloc fuel in_ span built sz =
      some ⟨to_int st.index.nelements, { st.index with allocated := st.index.nelements },
        st.totin, st.totout, st.file, some st.strm⟩ := by
  unfold build_index
  have hs : (fseeko in_ 0).1 = 0 := by unfold fseeko; rw [if_neg (by decide)]
  simp only [hi, ne_eq, not_true_eq_false, if_false, ho, hj, Bool.false_eq_true]
  rw [if_neg (by rw [hs]; decide)]

/-- With the decoder `burst`, whose first block boundary comes after 33 full windows, the
only point of the index lies at 33 * 32768 = 1081344. -/
theorem burst_build (sz : seekgzip_t) :
    ∃ r, build_index burst (fun _ => true) 40 (open_file [0, 0]) SPAN ⟨0, []⟩ sz = some r ∧
      r.ret = 1 ∧ ∃ p, r.built.list = [p] ∧ p.out = 1081344 := by
  obtain ⟨st1, e, c2, c3, c4, c5, c6, c7, c8⟩ := burst_rounds (fun _ => true) 6 33
    { (⟨(fseeko (open_file [0, 0]) 0).1, false, (fseeko (open_file [0, 0]) 0).2,
        ⟨[], 0, 0, 0, 0, (burst.inflateInit2 47).2⟩, List.replicate WINSIZE 0, ⟨0, []⟩, 0, 0, 0⟩ :
        build_state Nat) with
      file := (fread (fseeko (open_file [0, 0]) 0).2 CHUNK).2,
      strm := { (⟨[], 0, 0, 0, 0, (burst.inflateInit2 47).2⟩ : z_stream Nat) with
        next_in := (fread (fseeko (open_file [0, 0]) 0).2 CHUNK).1 } }
    (by decide) rfl (by decide)
  have c2' : st1.strm.state = 33 := by rw [c2]; decide
  have c4' : st1.strm.next_in.length = 2 := by rw [c4]; decide
  have c5' : st1.totout = 1081344 := by
    rw [c5]; unfold WINSIZE; norm_num
  obtain ⟨d1, d2, d3, p, d4, d5⟩ := burst_boundary st1 c2' c3 c4' c6 c7 c5'
  obtain ⟨g1, g2, g3, g4⟩ := burst_end (fun _ => true)
    (build_index_body burst (fun _ => true) SPAN st1).1 d2
  have hjump : (build_index_body burst (fun _ => true) SPAN
      (build_index_body burst (fun _ => true) SPAN st1).1).1.jump = false := by
    rw [g3, d3, c8]
  have e2 : build_index_inner burst (fun _ => true) SPAN 6 st1
      = some (build_index_body burst (fun _ => true) SPAN
          (build_index_body burst (fun _ => true) SPAN st1).1).1 := by
    rw [show (6 : Nat) = 4 + 1 + 1 by rfl, build_index_inner, if_pos d1, build_index_inner, g1,
      if_neg (by decide)]
  rw [e2] at e
  clear e2
  generalize (build_index_body burst (fun _ => true) SPAN
      (build_index_body burst (fun _ => true) SPAN st1).1).1 = fin at g2 g4 hjump e
  have hout := build_index_outer_once burst (fun _ => true) SPAN 39
    (⟨(fseeko (open_file [0, 0]) 0).1, false, (fseeko (open_file [0, 0]) 0).2,
        ⟨[], 0, 0, 0, 0, (burst.inflateInit2 47).2⟩, List.replicate WINSIZE 0, ⟨0, []⟩, 0, 0, 0⟩ :
        build_state Nat) fin (by decide) (by decide) e hjump g2
  have hb := build_index_of_outer burst (fun _ => true) 40 (open_file [0, 0]) SPAN ⟨0, []⟩ sz
    fin rfl hout hjump
  refine ⟨_, hb, ?_, p, ?_, d5⟩
  · show to_int fin.index.nelements = 1
    unfold access.nelements
    rw [g4, d4]
    simp only [List.length_singleton]
    unfold to_int
    omega
  · show fin.index.list = [p]
    rw [g4, d4]

theorem sample_build_some :
    (build_index stored (fun _ => true) 20 (open_file sample_data) SPAN ⟨0, []⟩
      (fresh_handle sample_data)).isSome = true := by decide

theorem build_index_totals_witness :
    ∃ r, build_index stored (fun _ => true) 20 (open_file sample_data) SPAN ⟨0, []⟩
        (fresh_handle sample_data) = some r ∧
      ∃ strm, r.strm = some strm ∧ r.totin = strm.total_in ∧ r.totout = strm.total_out :=
  ⟨_, (Option.some_get sample_build_some).symm,
    build_index_totals stored stored_within_bounds (by decide) (fun _ => true) 20
      (open_file sample_data) SPAN ⟨0, []⟩ (fresh_handle sample_data) _
      (Option.some_get sample_build_some).symm (by decide)⟩

theorem headed_header_first : header_first headed (fun s => s = false) := by
  refine ⟨by decide, rfl, ?_⟩
  intro s inp ao hs
  subst hs
  show (if inp.length = 0 then (⟨Z_BUF_ERROR, 0, [], 0, false⟩ : inflate_result Bool)
      else ⟨Z_OK, 1, [], 128, true⟩).output = [] ∧
    (if inp.length = 0 then (⟨Z_BUF_ERROR, 0, [], 0, false⟩ : inflate_result Bool)
      else ⟨Z_OK, 1, [], 128, true⟩).ret ≠ Z_STREAM_END ∧
    ((if inp.length = 0 then (⟨Z_BUF_ERROR, 0, [], 0, false⟩ : inflate_result Bool)
        else ⟨Z_OK, 1, [], 128, true⟩).ret = Z_NEED_DICT ∨
      (if inp.length = 0 then (⟨Z_BUF_ERROR, 0, [], 0, false⟩ : inflate_result Bool)
        else ⟨Z_OK, 1, [], 128, true⟩).ret = Z_MEM_ERROR ∨
      (if inp.length = 0 then (⟨Z_BUF_ERROR, 0, [], 0, false⟩ : inflate_result Bool)
        else ⟨Z_OK, 1, [], 128, true⟩).ret = Z_DATA_ERROR ∨
      ((if inp.length = 0 then (⟨Z_BUF_ERROR, 0, [], 0, false⟩ : inflate_result Bool)
          else ⟨Z_OK, 1, [], 128, true⟩).data_type &&& 128 ≠ 0 ∧
        ¬ ((if inp.length = 0 then (⟨Z_BUF_ERROR, 0, [], 0, false⟩ : inflate_result Bool)
          else ⟨Z_OK, 1, [], 128, true⟩).data_type &&& 64 ≠ 0)) ∨
      (if inp.length = 0 then (⟨Z_BUF_ERROR, 0, [], 0, false⟩ : inflate_result Bool)
        else ⟨Z_OK, 1, [], 128, true⟩).state = false)
  by_cases h0 : inp.length = 0
  · rw [if_pos h0]
    exact ⟨rfl, by decide, Or.inr (Or.inr (Or.inr (Or.inr rfl)))⟩
  · rw [if_neg h0]
    exact ⟨rfl, by decide, Or.inr (Or.inr (Or.inr (Or.inl ⟨by decide, by decide⟩)))⟩

theorem headed_build_some :
    (build_index headed (fun _ => true) 20 (open_file sample_data) SPAN ⟨0, []⟩
      (fresh_handle sample_data)).isSome = true := by decide

theorem build_index_points_witness :
    ∃ r, build_index headed (fun _ => true) 20 (open_file sample_data) SPAN ⟨0, []⟩
        (fresh_handle sample_data) = some r ∧
      r.built.list.Pairwise (fun a b => a.out ≤ b.out) ∧
      r.built.list.Chain' (spaced SPAN) ∧
      (∀ p ∈ r.built.list, 0 ≤ p.bits ∧ p.bits ≤ 7) ∧
      (∀ p, r.built.list.head? = some p → p.out = 0) ∧
      (0 ≤ r.ret → ∃ p, r.built.list.head? = some p ∧ p.out = 0) ∧
      0 ≤ r.ret :=
  ⟨_, (Option.some_get headed_build_some).symm,
    (build_index_points headed (fun s => s = false) (fun _ => true) 20 (open_file sample_data)
      ⟨0, []⟩ (fresh_handle sample_data) _ rfl (Option.some_get headed_build_some).symm).1,
    (build_index_points headed (fun s => s = false) (fun _ => true) 20 (open_file sample_data)
      ⟨0, []⟩ (fresh_handle sample_data) _ rfl (Option.some_get headed_build_some).symm).2.1,
    (build_index_points headed (fun s => s = false) (fun _ => true) 20 (open_file sample_data)
      ⟨0, []⟩ (fresh_handle sample_data) _ rfl (Option.some_get headed_build_some).symm).2.2.1,
    ((build_index_points headed (fun s => s = false) (fun _ => true) 20 (open_file sample_data)
      ⟨0, []⟩ (fresh_handle sample_data) _ rfl (Option.some_get headed_build_some).symm).2.2.2
      headed_header_first).1,
    ((build_index_points headed (fun s => s = false) (fun _ => true) 20 (open_file sample_data)
      ⟨0, []⟩ (fresh_handle sample_data) _ rfl (Option.some_get headed_build_some).symm).2.2.2
      headed_header_first).2,
    by decide⟩

theorem twice_zero_build_some :
    (build_index stored (fun _ => true) 20 (open_file [1, 1, 97, 0]) SPAN ⟨0, []⟩
      (fresh_handle [1, 1, 97, 0])).isSome = true := by decide

/-- C3 (as stated, refuted). On the stream `[1, 1, 97, 0]` of `stored`, which starts with an
empty block, `build_index` succeeds and stores two points with `out = 0`: the points are not
strictly increasing. -/
theorem build_index_points_counterexample :
    ∃ r, build_index stored (fun _ => true) 20 (open_file [1, 1, 97, 0]) SPAN ⟨0, []⟩
        (fresh_handle [1, 1, 97, 0]) = some r ∧ 0 ≤ r.ret ∧
      r.built.list.map (fun p => p.out) = [0, 0] ∧
      ¬ r.built.list.Pairwise (fun a b => a.out < b.out) :=
  ⟨_, (Option.some_get twice_zero_build_some).symm, by decide, by decide, by decide⟩

/-! ### seekgzip_index_build -/

/-- C5 (what the code does). The `switch` of `seekgzip_index_build` ends in `default` for
every value, so every failure is reported as `SEEKGZIP_ERROR`: a truncated stream, for
which `build_index` returns `Z_DATA_ERROR`, does not give `SEEKGZIP_DATAERROR`. -/
theorem seekgzip_index_build_truncated :
    (∀ len : Int, seekgzip_index_build_switch len = SEEKGZIP_ERROR) ∧
    (build_index stored (fun _ => true) 10 (open_file [1, 97, 98]) SPAN ⟨0, []⟩
        ⟨open_file [1, 97, 98], some ⟨0, []⟩, 0, 0, 0, SEEKGZIP_SUCCESS⟩).map (fun r => r.ret)
      = some Z_DATA_ERROR ∧
    (seekgzip_index_build stored (fun _ => true) 10
        ⟨open_file [1, 97, 98], some ⟨0, []⟩, 0, 0, 0, SEEKGZIP_SUCCESS⟩).map (fun r => r.1)
      = some SEEKGZIP_ERROR := by
  refine ⟨fun len => ?_, by decide, by decide⟩
  simp [seekgzip_index_build_switch]

/-! ### The index codec -/

theorem le_bytes_length (w v : Nat) : (le_bytes w v).length = w := by
  induction w generalizing v with
  | zero => rfl
  | succ w ih => simp [le_bytes, ih]

theorem le_value_le_bytes (w v : Nat) : le_value (le_bytes w v) = v % 256 ^ w := by
  induction w generalizing v with
  | zero => simp [le_bytes, le_value, Nat.mod_one]
  | succ w ih =>
    simp only [le_bytes, le_value, ih, Nat.mod_mod]
    rw [pow_succ', Nat.mod_mul]

theorem gzread_append (junk : Nat → Byte) (bs rest : List Byte) (n : Nat)
    (h : bs.length = n) : gzread junk (bs ++ rest) n = (bs, rest) := by
  unfold gzread
  have h1 : (bs ++ rest).take n = bs := by
    rw [← h]; simp
  have h2 : (bs ++ rest).drop n = rest := by
    rw [← h]; simp
  rw [h1, h2, h]
  simp

theorem pow_256_eq (w : Nat) : (256 : Nat) ^ w = 2 ^ (8 * w) := by
  rw [pow_mul]; norm_num

theorem to_off_t_roundtrip (w : Nat) (hw : 0 < w) (v : Int)
    (hlo : -(2 ^ (8 * w - 1) : Int) ≤ v) (hhi : v < 2 ^ (8 * w - 1)) :
    to_off_t w ((((v % 2 ^ (8 * w)).toNat % 256 ^ w : Nat) : Int)) = v := by
  have hM : (2 : Int) ^ (8 * w) = 2 * 2 ^ (8 * w - 1) := by
    have : 8 * w = (8 * w - 1) + 1 := by omega
    conv_lhs => rw [this, pow_succ]
    ring
  have hpos : (0 : Int) < 2 ^ (8 * w) := by positivity
  have h0 : 0 ≤ v % 2 ^ (8 * w) := Int.emod_nonneg _ (ne_of_gt hpos)
  have h1 : v % 2 ^ (8 * w) < 2 ^ (8 * w) := Int.emod_lt_of_pos _ hpos
  have hcast : (((v % 2 ^ (8 * w)).toNat % 256 ^ w : Nat) : Int) = v % 2 ^ (8 * w) := by
    rw [pow_256_eq]
    push_cast
    rw [Int.toNat_of_nonneg h0]
    exact Int.emod_eq_of_lt h0 h1
  rw [hcast]
  unfold to_off_t
  rw [Int.emod_add_emod]
  rw [Int.emod_eq_of_lt (by omega) (by omega)]
  ring

theorem read_off_t_append (junk : Nat → Byte) (w : Nat) (hw : 0 < w) (v : Int)
    (rest : List Byte) (hlo : -(2 ^ (8 * w - 1) : Int) ≤ v) (hhi : v < 2 ^ (8 * w - 1)) :
    read_off_t junk w (off_t_bytes w v ++ rest) = (v, rest) := by
  unfold read_off_t off_t_bytes
  rw [gzread_append junk _ rest w (le_bytes_length _ _)]
  simp only [le_value_le_bytes]
  rw [to_off_t_roundtrip w hw v hlo hhi]

theorem read_uint32_append (junk : Nat → Byte) (v : Nat) (rest : List Byte) :
    read_uint32 junk (write_uint32 v ++ rest) = (v % 4294967296, rest) := by
  unfold read_uint32 write_uint32
  rw [gzread_append junk _ rest 4 (le_bytes_length _ _)]
  simp only [le_value_le_bytes]
  norm_num

theorem bits_roundtrip (b : Int) (hlo : -2147483648 ≤ b) (hhi : b < 2147483648) :
    to_int ((le_value (le_bytes 4 (to_uint32 b)) : Nat) : Int) = b := by
  rw [le_value_le_bytes]
  unfold to_int to_uint32
  norm_num
  omega

theorem read_points_append (junk : Nat → Byte) (w : Nat) (hw : 0 < w) (l : List point)
    (rest : List Byte) (hl : ∀ p ∈ l, point_fits w p) :
    read_points junk w l.length ((l.map (point_bytes w)).flatten ++ rest) = (l, rest) := by
  induction l with
  | nil => simp [read_points]
  | cons p t ih =>
    obtain ⟨h1, h2, h3, h4, h5, h6, h7⟩ := hl p (by simp)
    have iht := ih (fun q hq => hl q (by simp [hq]))
    simp only [List.map_cons, List.flatten_cons, List.length_cons, read_points]
    unfold point_bytes
    simp only [List.append_assoc]
    rw [read_off_t_append junk w hw p.out _ h1 h2]
    simp only
    rw [read_off_t_append junk w hw p.in_ _ h3 h4]
    simp only
    rw [gzread_append junk _ _ 4 (le_bytes_length _ _)]
    simp only
    rw [gzread_append junk _ _ WINSIZE h7]
    simp only
    have : (List.map (fun p => off_t_bytes w p.out ++ (off_t_bytes w p.in_ ++
        (le_bytes 4 (to_uint32 p.bits) ++ p.window))) t).flatten
        = (List.map (point_bytes w) t).flatten := by
      congr 1
      apply List.map_congr_left
      intro q _
      simp [point_bytes]
    rw [this, iht, bits_roundtrip p.bits h5 h6]

theorem sizeof_point_ok (w n : Nat) (hw : 0 < w) (hw8 : w ≤ 8) (hn : n < 4294967296) :
    ¬ ((2 ^ 64 - 1) / sizeof_point w ≤ n) := by
  interval_cases w <;> simp [sizeof_point, WINSIZE] <;> omega

/-- C4. Round trip of the index codec, for an `off_t` of `w` bytes (at most 8), an index with
fewer than 2^32 points and values that fit their C types: `seekgzip_index_save` succeeds and
writes `index_bytes`; and whenever that content is read back by `seekgzip_index_load` with
equal modification times of the two files (the allocations and `gzclose` succeeding), the
result is `SEEKGZIP_SUCCESS` with the same points, in the same order, and the same totals.
After the save itself the two times are equal when `stat` and `utime` succeeded. -/
theorem seekgzip_index_roundtrip (w : Nat) (hw : 0 < w) (hw8 : w ≤ 8) (env : Env)
    (sz : seekgzip_t) (index : access) (hidx : sz.index = some index)
    (hn : index.nelements < 4294967296) (hfit : ∀ p ∈ index.list, point_fits w p)
    (htin : -(2 ^ (8 * w - 1) : Int) ≤ sz.totin ∧ sz.totin < 2 ^ (8 * w - 1))
    (htout : -(2 ^ (8 * w - 1) : Int) ≤ sz.totout ∧ sz.totout < 2 ^ (8 * w - 1))
    (hwr : env.index_writable = true) :
    ∃ env1, seekgzip_index_save w env sz = some (SEEKGZIP_SUCCESS, env1) ∧
      env1.index_file = some (index_bytes w index sz.totin sz.totout) ∧
      (∀ t, env.data_mtime = some t → env.utime_ok = true →
        env1.data_mtime = some t ∧ env1.index_mtime = some t) ∧
      (∀ (env2 : Env) (sz2 : seekgzip_t) (t : Int),
        env2.index_file = env1.index_file →
        env2.data_mtime = some t → env2.index_mtime = some t →
        env2.malloc_access = true → env2.malloc_points index.nelements = true →
        env2.gzclose_ret = 0 →
        ∃ sz3 env3, seekgzip_index_load w env2 sz2 = some (SEEKGZIP_SUCCESS, sz3, env3) ∧
          sz3.index = some ⟨index.nelements, index.list⟩ ∧
          sz3.totin = sz.totin ∧ sz3.totout = sz.totout) := by
  have hsave : seekgzip_index_save w env sz = some (SEEKGZIP_SUCCESS,
      (seekgzip_index_setutime { env with
        index_file := some (index_bytes w index sz.totin sz.totout),
        index_mtime := some env.now }).2) := by
    unfold seekgzip_index_save
    simp [hwr, hidx]
  refine ⟨_, hsave, ?_, ?_, ?_⟩
  · unfold seekgzip_index_setutime
    cases env.data_mtime with
    | none => rfl
    | some d => by_cases hu : env.utime_ok = true <;> simp [hu]
  · intro t hd hu
    unfold seekgzip_index_setutime
    simp [hd, hu]
  · intro env2 sz2 t hfile hd hi hma hmp hgz
    have hfile2 : env2.index_file = some (index_bytes w index sz.totin sz.totout) := by
      rw [hfile]
      unfold seekgzip_index_setutime
      cases env.data_mtime with
      | none => rfl
      | some d => by_cases hu : env.utime_ok = true <;> simp [hu]
    have hc : seekgzip_index_checkutime env2 = 0 := by
      simp [seekgzip_index_checkutime, hd, hi]
    have hnn : to_uint32 (index.nelements : Int) % 4294967296 = index.nelements := by
      unfold to_uint32; omega
    have hbody : seekgzip_index_load_body w env2 (seekgzip_index_alloc true sz2).2
        (index_bytes w index sz.totin sz.totout) =
        (SEEKGZIP_SUCCESS, { (seekgzip_index_alloc true sz2).2 with
          index := some ⟨index.nelements, index.list⟩, totin := sz.totin, totout := sz.totout }) := by
      unfold seekgzip_index_load_body index_bytes
      simp only [List.append_assoc, List.cons_append, List.nil_append, gzgetc]
      have hwm : w % 4294967296 = w := Nat.mod_eq_of_lt (by omega)
      simp only [read_uint32_append, hnn, hwm]
      simp only [ne_eq, not_true_eq_false, or_self, if_false, Nat.cast_ofNat]
      rw [if_neg (sizeof_point_ok w _ hw hw8 hn)]
      simp only [hmp]
      rw [read_off_t_append env2.junk w hw sz.totin _ htin.1 htin.2]
      simp only
      rw [read_off_t_append env2.junk w hw sz.totout _ htout.1 htout.2]
      simp only
      have hp := read_points_append env2.junk w hw index.list [] hfit
      rw [List.append_nil] at hp
      unfold access.nelements
      rw [hp]
      simp
    have hload : seekgzip_index_load w env2 sz2 = some (SEEKGZIP_SUCCESS,
        { (seekgzip_index_alloc true sz2).2 with
          index := some ⟨index.nelements, index.list⟩, totin := sz.totin, totout := sz.totout },
        { env2 with opened := env2.opened + 1 }) := by
      unfold seekgzip_index_load
      simp only [hma, hc, hfile2, hgz, hbody]
      simp [seekgzip_index_alloc]
    exact ⟨_, _, hload, rfl, rfl, rfl⟩

theorem seekgzip_index_roundtrip_witness :
    ∃ env1, seekgzip_index_save 8 sample_env sample_handle = some (SEEKGZIP_SUCCESS, env1) ∧
      ∃ sz3 env3, seekgzip_index_load 8 { sample_env with index_file := env1.index_file }
          (fresh_handle []) = some (SEEKGZIP_SUCCESS, sz3, env3) ∧
        sz3.index = some ⟨1, [sample_point]⟩ ∧ sz3.totin = 12 ∧ sz3.totout = 10 := by
  obtain ⟨env1, h1, -, -, h4⟩ := seekgzip_index_roundtrip 8 (by decide) (by decide) sample_env
    sample_handle sample_index rfl (by decide)
    (by
      intro p hp
      have : p = sample_point := by simpa only [sample_index, List.mem_singleton] using hp
      subst this
      exact ⟨by norm_num [sample_point], by norm_num [sample_point], by norm_num [sample_point],
        by norm_num [sample_point], by norm_num [sample_point], by norm_num [sample_point],
        List.length_replicate _ _⟩)
    (by norm_num [sample_handle]) (by norm_num [sample_handle]) rfl
  exact ⟨env1, h1, h4 { sample_env with index_file := env1.index_file } (fresh_handle []) 100
    rfl rfl rfl rfl rfl rfl⟩

/-! ### The freshness check of seekgzip_index_load -/

/-- C10. When the list header can be allocated, `seekgzip_index_load` opens the index file
exactly when `stat` succeeds on both files and the two modification times are equal (it
then returns what reading gives, unless `gzclose` fails); when both succeed and the times
differ it returns `SEEKGZIP_EXPIREDINDEX`, and when either `stat` fails it returns
`SEEKGZIP_OPENERROR`, in both cases without opening the index file. -/
theorem seekgzip_index_load_freshness (w : Nat) (env : Env) (sz : seekgzip_t)
    (hm : env.malloc_access = true) :
    (∀ t, env.data_mtime = some t → env.index_mtime = some t →
      seekgzip_index_load w env sz =
        match env.index_file with
        | none => some (SEEKGZIP_OPENERROR, (seekgzip_index_alloc true sz).2,
            { env with opened := env.opened + 1 })
        | some gz =>
          if env.gzclose_ret ≠ 0 then none
          else some ((seekgzip_index_load_body w env (seekgzip_index_alloc true sz).2 gz).1,
            (seekgzip_index_load_body w env (seekgzip_index_alloc true sz).2 gz).2,
            { env with opened := env.opened + 1 })) ∧
    (∀ d i, env.data_mtime = some d → env.index_mtime = some i → d ≠ i →
      seekgzip_index_load w env sz =
        some (SEEKGZIP_EXPIREDINDEX, (seekgzip_index_alloc true sz).2, env)) ∧
    (env.data_mtime = none ∨ env.index_mtime = none →
      seekgzip_index_load w env sz =
        some (SEEKGZIP_OPENERROR, (seekgzip_index_alloc true sz).2, env)) ∧
    (∀ r, seekgzip_index_load w env sz = some r →
      (r.2.2.opened ≠ env.opened ↔ ∃ t, env.data_mtime = some t ∧ env.index_mtime = some t)) := by
  have ha : (seekgzip_index_alloc true sz).1 = SEEKGZIP_SUCCESS := by
    simp [seekgzip_index_alloc]
  have h1 : ∀ t, env.data_mtime = some t → env.index_mtime = some t →
      seekgzip_index_load w env sz =
        match env.index_file with
        | none => some (SEEKGZIP_OPENERROR, (seekgzip_index_alloc true sz).2,
            { env with opened := env.opened + 1 })
        | some gz =>
          if env.gzclose_ret ≠ 0 then none
          else some ((seekgzip_index_load_body w env (seekgzip_index_alloc true sz).2 gz).1,
            (seekgzip_index_load_body w env (seekgzip_index_alloc true sz).2 gz).2,
            { env with opened := env.opened + 1 }) := by
    intro t hd hi
    unfold seekgzip_index_load
    simp only [hm, ha, ne_eq, not_true_eq_false, if_false]
    have hc : seekgzip_index_checkutime env = 0 := by
      simp [seekgzip_index_checkutime, hd, hi]
    simp only [hc, if_true]
  have h2 : ∀ d i, env.data_mtime = some d → env.index_mtime = some i → d ≠ i →
      seekgzip_index_load w env sz =
        some (SEEKGZIP_EXPIREDINDEX, (seekgzip_index_alloc true sz).2, env) := by
    intro d i hd hi hne
    unfold seekgzip_index_load
    simp only [hm, ha, ne_eq, not_true_eq_false, if_false]
    have hc : seekgzip_index_checkutime env = 1 := by
      simp [seekgzip_index_checkutime, hd, hi, hne]
    simp [hc]
  have h3 : env.data_mtime = none ∨ env.index_mtime = none →
      seekgzip_index_load w env sz =
        some (SEEKGZIP_OPENERROR, (seekgzip_index_alloc true sz).2, env) := by
    intro hor
    unfold seekgzip_index_load
    simp only [hm, ha, ne_eq, not_true_eq_false, if_false]
    have hc : seekgzip_index_checkutime env = -1 := by
      unfold seekgzip_index_checkutime
      rcases hor with h | h
      · simp [h]
      · cases hd : env.data_mtime <;> simp [h]
    simp [hc]
  refine ⟨h1, h2, h3, ?_⟩
  intro r hr
  cases hd : env.data_mtime with
  | none =>
    rw [h3 (Or.inl hd)] at hr
    cases hr
    simp
  | some d =>
    cases hi : env.index_mtime with
    | none =>
      rw [h3 (Or.inr hi)] at hr
      cases hr
      simp
    | some i =>
      by_cases hdi : d = i
      · subst hdi
        rw [h1 d hd hi] at hr
        cases hf : env.index_file with
        | none =>
          simp only [hf] at hr
          cases hr
          simp
        | some gz =>
          simp only [hf] at hr
          by_cases hg : env.gzclose_ret ≠ 0
          · simp [hg] at hr
          · simp only [hg, if_false] at hr
            cases hr
            simp
      · rw [h2 d i hd hi hdi] at hr
        cases hr
        simp only [ne_eq, not_true_eq_false, false_iff, not_exists, not_and]
        intro t ht ht2
        cases ht; cases ht2
        exact hdi rfl

theorem seekgzip_index_load_freshness_witness :
    seekgzip_index_load 8
        ⟨some 100, some 101, some [], true, true, 200, true, fun _ => true, 0, fun _ => 0, 0⟩
        ⟨open_file [], none, 0, 0, 0, SEEKGZIP_SUCCESS⟩ =
      some (SEEKGZIP_EXPIREDINDEX,
        (seekgzip_index_alloc true ⟨open_file [], none, 0, 0, 0, SEEKGZIP_SUCCESS⟩).2,
        ⟨some 100, some 101, some [], true, true, 200, true, fun _ => true, 0, fun _ => 0, 0⟩) :=
  (seekgzip_index_load_freshness 8
    ⟨some 100, some 101, some [], true, true, 200, true, fun _ => true, 0, fun _ => 0, 0⟩
    ⟨open_file [], none, 0, 0, 0, SEEKGZIP_SUCCESS⟩ rfl).2.1 100 101 rfl rfl (by decide)

/-! ### The range reader -/

theorem main_loop_empty {σ : Type} (z : Zlib σ) (fuel : Nat) (zs : seekgzip_t)
    (begin_ end_ : Int) (out : List Byte) (h : ¬ begin_ < end_) :
    main_loop z fuel zs begin_ end_ out = some (out, 0, zs) := by
  unfold main_loop
  simp [h]

/-- C6 (what the code does). For the argument `3-` the parser leaves `end` at `(off_t)-1`,
which is negative, so the loop `while (begin < end)` is not entered and nothing is
written, whatever the file: on the ten-byte stream `abcdefghij` a read of the same handle
at offset 3 delivers `defghij`, but `main` prints none of it. -/
theorem main_range_begin_only :
    main_parse [Char.ofNat 51, Char.ofNat 45] = (3, -1) ∧
    (∀ (σ : Type) (z : Zlib σ) (fuel : Nat) (zs : seekgzip_t),
      main_range z fuel zs [Char.ofNat 51, Char.ofNat 45] = some ([], 0)) ∧
    (seekgzip_read stored 20
        (seekgzip_seek ⟨open_file [1, 97, 98, 99, 100, 101, 102, 103, 104, 105, 106, 0],
          some ⟨1, [⟨0, 1, 0, []⟩]⟩, 0, 12, 10, SEEKGZIP_SUCCESS⟩ 3)
        [0, 0, 0, 0, 0, 0, 0, 0] 8).map (fun r => (r.1, r.2.1))
      = some (7, [100, 101, 102, 103, 104, 105, 106, 0]) := by
  have hp : main_parse [Char.ofNat 51, Char.ofNat 45] = (3, -1) := by decide
  refine ⟨hp, ?_, by decide⟩
  intro σ z fuel zs
  unfold main_range
  simp only [hp]
  rw [main_loop_empty z fuel _ 3 (-1) [] (by decide)]

/-! ### seekgzip_open -/

theorem seekgzip_index_build_success {σ : Type} (z : Zlib σ) (alloc : Nat → Bool) (fuel : Nat)
    (sz sz2 : seekgzip_t)
    (h : seekgzip_index_build z alloc fuel sz = some (SEEKGZIP_SUCCESS, sz2)) :
    sz2.index ≠ none := by
  unfold seekgzip_index_build at h
  cases hi : sz.index with
  | none => rw [hi] at h; cases h
  | some index =>
    rw [hi] at h
    simp only at h
    cases hb : build_index z alloc fuel sz.fp SPAN index sz with
    | none => rw [hb] at h; cases h
    | some r =>
      rw [hb] at h
      simp only at h
      by_cases hl : r.ret < 0
      · rw [if_pos hl] at h
        have h1 := (Prod.mk.inj (Option.some.inj h)).1
        simp [seekgzip_index_build_switch] at h1
      · rw [if_neg hl] at h
        have h2 := (Prod.mk.inj (Option.some.inj h)).2
        rw [← h2]
        simp

/-- C11. Let `seekgzip_open` have allocated the handle, opened the data file and allocated
the two paths, and let `seekgzip_index_load` return `code`. Then: a returning
`seekgzip_open` has called `seekgzip_index_build` exactly when `code` is `OPENERROR`,
`IMCOMPATIBLE` or `EXPIREDINDEX`. In that case, when the build returns `bcode`,
`seekgzip_open` returns the handle the build left with `bcode` as its error code, whether
`seekgzip_index_save` (called exactly when `bcode` is `SUCCESS`) succeeds or not. When
`code` is `SUCCESS`, or any other code, the handle is returned as the load left it, with
`code` as its error code, after the call of `seekgzip_index_load` alone. -/
theorem seekgzip_open_policy {σ : Type} (z : Zlib σ) (alloc : Nat → Bool) (fuel : Nat)
    (w : Nat) (env : Env) (mem : seekgzip_t) (fp : FILE) (code : seekgzip_code)
    (sz1 : seekgzip_t) (env1 : Env)
    (hload : seekgzip_index_load w env { mem with offset := 0, index := none, fp := fp }
      = some (code, sz1, env1)) :
    (∀ r, seekgzip_open z alloc fuel w env (some mem) (some fp) true true = some r →
      (index_call.build ∈ r.calls ↔
        (code = SEEKGZIP_OPENERROR ∨ code = SEEKGZIP_IMCOMPATIBLE ∨
          code = SEEKGZIP_EXPIREDINDEX))) ∧
    (code = SEEKGZIP_OPENERROR ∨ code = SEEKGZIP_IMCOMPATIBLE ∨ code = SEEKGZIP_EXPIREDINDEX →
      ∀ bcode sz2,
        seekgzip_index_build z alloc fuel { sz1 with errorcode := code } = some (bcode, sz2) →
        ∃ r, seekgzip_open z alloc fuel w env (some mem) (some fp) true true = some r ∧
          r.handle = .opened { sz2 with errorcode := bcode } ∧
          (bcode = SEEKGZIP_SUCCESS →
            ∃ s, seekgzip_index_save w env1 { sz2 with errorcode := bcode } = some s ∧
              r.env = s.2 ∧ r.calls = [.load, .build, .save]) ∧
          (bcode ≠ SEEKGZIP_SUCCESS → r.env = env1 ∧ r.calls = [.load, .build])) ∧
    (code = SEEKGZIP_SUCCESS →
      seekgzip_open z alloc fuel w env (some mem) (some fp) true true
        = some ⟨.opened { sz1 with errorcode := SEEKGZIP_SUCCESS }, env1, [.load]⟩) ∧
    (code ≠ SEEKGZIP_SUCCESS →
      ¬ (code = SEEKGZIP_OPENERROR ∨ code = SEEKGZIP_IMCOMPATIBLE ∨
          code = SEEKGZIP_EXPIREDINDEX) →
      seekgzip_open z alloc fuel w env (some mem) (some fp) true true
        = some ⟨.opened { sz1 with errorcode := code }, env1, [.load]⟩) := by
  have hopen : seekgzip_open z alloc fuel w env (some mem) (some fp) true true =
      if code = SEEKGZIP_SUCCESS then some ⟨.opened { sz1 with errorcode := code }, env1, [.load]⟩
      else if code = SEEKGZIP_OPENERROR ∨ code = SEEKGZIP_IMCOMPATIBLE ∨
          code = SEEKGZIP_EXPIREDINDEX then
        match seekgzip_index_build z alloc fuel { sz1 with errorcode := code } with
        | none => none
        | some b =>
          if b.1 = SEEKGZIP_SUCCESS then
            match seekgzip_index_save w env1 { b.2 with errorcode := b.1 } with
            | none => none
            | some s => some ⟨.opened { b.2 with errorcode := b.1 }, s.2, [.load, .build, .save]⟩
          else some ⟨.opened { b.2 with errorcode := b.1 }, env1, [.load, .build]⟩
      else some ⟨.opened { sz1 with errorcode := code }, env1, [.load]⟩ := by
    unfold seekgzip_open
    simp only [hload, Bool.true_eq_false, if_false]
  refine ⟨?_, ?_, ?_, ?_⟩
  · intro r hr
    rw [hopen] at hr
    by_cases h1 : code = SEEKGZIP_SUCCESS
    · rw [if_pos h1] at hr
      obtain rfl := Option.some.inj hr
      subst h1
      simp
    · rw [if_neg h1] at hr
      by_cases h2 : code = SEEKGZIP_OPENERROR ∨ code = SEEKGZIP_IMCOMPATIBLE ∨
          code = SEEKGZIP_EXPIREDINDEX
      · rw [if_pos h2] at hr
        cases hb : seekgzip_index_build z alloc fuel { sz1 with errorcode := code } with
        | none => rw [hb] at hr; cases hr
        | some b =>
          rw [hb] at hr
          simp only at hr
          by_cases h3 : b.1 = SEEKGZIP_SUCCESS
          · rw [if_pos h3] at hr
            cases hs : seekgzip_index_save w env1 { b.2 with errorcode := b.1 } with
            | none => rw [hs] at hr; cases hr
            | some s =>
              rw [hs] at hr
              obtain rfl := Option.some.inj hr
              simp [h2]
          · rw [if_neg h3] at hr
            obtain rfl := Option.some.inj hr
            simp [h2]
      · rw [if_neg h2] at hr
        obtain rfl := Option.some.inj hr
        simp [h2]
  · intro h2 bcode sz2 hb
    have h1 : code ≠ SEEKGZIP_SUCCESS := by
      rcases h2 with h | h | h <;> rw [h] <;> decide
    rw [hopen, if_neg h1, if_pos h2, hb]
    simp only
    by_cases h3 : bcode = SEEKGZIP_SUCCESS
    · rw [if_pos h3]
      subst h3
      have hidx := seekgzip_index_build_success z alloc fuel _ sz2 hb
      have hsome : ∃ s, seekgzip_index_save w env1 { sz2 with errorcode := SEEKGZIP_SUCCESS }
          = some s := by
        unfold seekgzip_index_save
        by_cases hw : env1.index_writable = false
        · rw [if_pos hw]; exact ⟨_, rfl⟩
        · rw [if_neg hw]
          cases hi : sz2.index with
          | none => exact absurd hi hidx
          | some index => exact ⟨_, rfl⟩
      obtain ⟨s, hs⟩ := hsome
      rw [hs]
      exact ⟨_, rfl, rfl, fun _ => ⟨s, rfl, rfl, rfl⟩, fun h => absurd rfl h⟩
    · rw [if_neg h3]
      exact ⟨_, rfl, rfl, fun h => absurd h h3, fun _ => ⟨rfl, rfl⟩⟩
  · intro h1
    rw [hopen, if_pos h1, h1]
  · intro h1 h2
    rw [hopen, if_neg h1, if_neg h2]

theorem seekgzip_open_policy_witness :
    seekgzip_index_load 8 { sample_env with index_writable := false }
        { sample_handle with offset := 0, index := none, fp := open_file sample_data }
      = some (SEEKGZIP_OPENERROR,
          ⟨open_file sample_data, some ⟨0, []⟩, 0, 12, 10, SEEKGZIP_SUCCESS⟩,
          { sample_env with index_writable := false, opened := 1 }) ∧
    (∀ r, seekgzip_open stored (fun _ => true) 20 8 { sample_env with index_writable := false }
        (some sample_handle) (some (open_file sample_data)) true true = some r →
      (index_call.build ∈ r.calls ↔
        (SEEKGZIP_OPENERROR = SEEKGZIP_OPENERROR ∨ SEEKGZIP_OPENERROR = SEEKGZIP_IMCOMPATIBLE ∨
          SEEKGZIP_OPENERROR = SEEKGZIP_EXPIREDINDEX))) :=
  ⟨rfl, (seekgzip_open_policy stored (fun _ => true) 20 8
    { sample_env with index_writable := false } sample_handle (open_file sample_data)
    SEEKGZIP_OPENERROR ⟨open_file sample_data, some ⟨0, []⟩, 0, 12, 10, SEEKGZIP_SUCCESS⟩
    { sample_env with index_writable := false, opened := 1 } rfl).1⟩

/-- A run of `seekgzip_open` on the small file when the index file can neither be read nor
written: the index is built, the save fails and leaves no index file, and the handle is
returned with `SEEKGZIP_SUCCESS`. -/
theorem seekgzip_open_unwritable :
    (seekgzip_open stored (fun _ => true) 20 8 { sample_env with index_writable := false }
        (some sample_handle) (some (open_file sample_data)) true true).map
      (fun r => (r.calls, r.env.index_file,
        match r.handle with
        | .opened sz => some (sz.errorcode, sz.totin, sz.totout)
        | _ => none))
    = some ([.load, .build, .save], none, some (SEEKGZIP_SUCCESS, 12, 10)) := by
  rfl

/-! ### A read of length zero -/

theorem extract_refill_pos {σ : Type} (file : FILE) (strm : z_stream σ) :
    file.pos ≤ (extract_refill file strm).2.1.pos ∧
    (strm.next_in = [] → (extract_refill file strm).1 = none →
      file.pos < (extract_refill file strm).2.1.pos) := by
  unfold extract_refill z_stream.avail_in fread ferror
  by_cases h0 : strm.next_in.length = 0
  · rw [if_pos h0]
    by_cases hf : file.faulty = true
    · simp [hf]
    · simp only [hf, Bool.false_eq_true, if_false]
      by_cases he : file.err = true
      · simp [he]
      · simp only [he, Bool.false_eq_true, if_false]
        by_cases hl : (List.take CHUNK (List.drop file.pos file.data)).length = 0
        · simp [hl]
        · simp only [hl, if_false]
          exact ⟨Nat.le_add_right _ _, fun _ _ => Nat.lt_add_of_pos_right (Nat.pos_of_ne_zero hl)⟩
  · rw [if_neg h0]
    refine ⟨le_refl _, fun h => ?_⟩
    rw [h] at h0
    exact absurd rfl h0

theorem extract_inner_pos {σ : Type} (z : Zlib σ) (len : Int) (skip : Bool) :
    ∀ (fuel : Nat) (file : FILE) (strm : z_stream σ) (buf : List Byte) (r : extract_state σ),
      extract_inner z len skip fuel file strm buf = some r →
      file.pos ≤ r.file.pos ∧ (strm.next_in = [] → r.jump = false → file.pos < r.file.pos) := by
  intro fuel
  induction fuel with
  | zero => intro file strm buf r h; simp [extract_inner] at h
  | succ f ih =>
    intro file strm buf r h
    obtain ⟨hle, hlt⟩ := extract_refill_pos file strm
    rw [extract_inner] at h
    simp only at h
    cases hrf : (extract_refill file strm).1 with
    | some e =>
      rw [hrf] at h
      simp only at h
      obtain rfl := Option.some.inj h
      exact ⟨hle, fun _ hj => Bool.noConfusion hj⟩
    | none =>
      rw [hrf] at h
      simp only at h
      generalize inflate z (extract_refill file strm).2.2 Z_NO_FLUSH = ir at h
      generalize (if skip = true then buf
        else memcpy buf (to_unsigned len - (extract_refill file strm).2.2.avail_out) ir.2.1)
        = buf2 at h
      generalize (if ir.1 = Z_NEED_DICT then Z_DATA_ERROR else ir.1) = ret at h
      split at h
      · obtain rfl := Option.some.inj h
        exact ⟨hle, fun _ hj => Bool.noConfusion hj⟩
      · split at h
        · obtain rfl := Option.some.inj h
          exact ⟨hle, fun hn _ => hlt hn hrf⟩
        · split at h
          · obtain ⟨h1, -⟩ := ih _ _ _ _ h
            exact ⟨le_trans hle h1, fun hn _ => lt_of_lt_of_le (hlt hn hrf) h1⟩
          · obtain rfl := Option.some.inj h
            exact ⟨hle, fun hn _ => hlt hn hrf⟩

theorem extract_outer_pos {σ : Type} (z : Zlib σ) (len : Int) :
    ∀ (fuel : Nat) (file : FILE) (strm : z_stream σ) (buf : List Byte) (offset : Int)
      (skip : Bool) (r : extract_state σ),
      extract_outer z len fuel file strm buf offset skip = some r →
      file.pos ≤ r.file.pos ∧ (strm.next_in = [] → r.jump = false → file.pos < r.file.pos) := by
  intro fuel
  induction fuel with
  | zero => intro file strm buf offset skip r h; simp [extract_outer] at h
  | succ f ih =>
    intro file strm buf offset skip r h
    rw [extract_outer] at h
    generalize hs1 : (if (decide (offset = 0) && skip) = true
      then { strm with avail_out := to_unsigned len } else strm) = strm1 at h
    have hn1 : strm1.next_in = strm.next_in := by rw [← hs1]; split <;> rfl
    generalize hs2 : (if offset > (WINSIZE : Int) then { strm1 with avail_out := WINSIZE }
      else if offset ≠ 0 then { strm1 with avail_out := to_unsigned offset } else strm1)
      = strm2 at h
    have hn2 : strm2.next_in = strm.next_in := by
      rw [← hs2, ← hn1]; split
      · rfl
      · split <;> rfl
    generalize (if (decide (offset = 0) && skip) = true then false else skip) = skip1 at h
    cases hin : extract_inner z len skip1 f file strm2 buf with
    | none => rw [hin] at h; cases h
    | some r1 =>
      rw [hin] at h
      simp only at h
      obtain ⟨hle, hlt⟩ := extract_inner_pos z len skip1 f file strm2 buf r1 hin
      rw [hn2] at hlt
      split at h
      · obtain rfl := Option.some.inj h
        exact ⟨hle, hlt⟩
      · rename_i hj
        have hj1 : r1.jump = false := by simpa using hj
        split at h
        · obtain rfl := Option.some.inj h
          exact ⟨hle, fun hn _ => hlt hn hj1⟩
        · obtain ⟨h1, -⟩ := ih _ _ _ _ _ _ h
          exact ⟨le_trans hle h1, fun hn _ => lt_of_lt_of_le (hlt hn hj1) h1⟩

theorem fseeko_pos (file : FILE) (off : Int) (h : (fseeko file off).1 ≠ -1) :
    0 ≤ off ∧ (fseeko file off).2.pos = off.toNat := by
  unfold fseeko at h ⊢
  by_cases hneg : off < 0
  · rw [if_pos hneg] at h; exact absurd rfl h
  · rw [if_neg hneg]; exact ⟨not_lt.mp hneg, rfl⟩

theorem getc_pos (file : FILE) (h : (getc file).1 ≠ -1) :
    (getc file).2.pos = file.pos + 1 := by
  unfold getc at h ⊢
  by_cases hfa : file.faulty = true
  · simp [hfa] at h
  · simp only [hfa, Bool.false_eq_true, if_false] at h ⊢
    cases hg : file.data[file.pos]? with
    | none => simp [hg] at h
    | some b => rfl

theorem extract_init_pos {σ : Type} (z : Zlib σ) (file : FILE) (here : point) (file1 : FILE)
    (strm1 : z_stream σ) (h : extract_init z file here = .ok (file1, strm1)) :
    file1.pos = here.in_.toNat := by
  unfold extract_init at h
  simp only at h
  by_cases h1 : (z.inflateInit2 (-15)).1 ≠ Z_OK
  · rw [if_pos h1] at h; cases h
  · rw [if_neg h1] at h
    by_cases h2 : (fseeko file (here.in_ - if here.bits ≠ 0 then 1 else 0)).1 = -1
    · rw [if_pos h2] at h; cases h
    · rw [if_neg h2] at h
      obtain ⟨hs0, hsp⟩ := fseeko_pos file _ h2
      by_cases h3 : here.bits ≠ 0
      · rw [if_pos h3] at h
        by_cases h4 : (getc (fseeko file (here.in_ - if here.bits ≠ 0 then 1 else 0)).2).1 = -1
        · rw [if_pos h4] at h; cases h
        · rw [if_neg h4] at h
          have hg := getc_pos _ h4
          simp only [Except.ok.injEq, Prod.mk.injEq] at h
          rw [← h.1, hg, hsp]
          rw [if_pos h3] at hs0 ⊢
          omega
      · rw [if_neg h3] at h
        simp only [Except.ok.injEq, Prod.mk.injEq] at h
        rw [← h.1, hsp, if_neg h3, Int.sub_zero]

/-- C12 (as stated) fails. A read of length 0 at offset 3 of the small file returns 0 but has
moved the file from position 0 to position 14: `extract` has sought to the access point and
read the file to its end. On a file cut short after the access point the same read returns
`Z_DATA_ERROR`, not 0. -/
theorem extract_zero_length_counterexample :
    (open_file sample_data).pos = 0 ∧
    (extract stored 20 (open_file sample_data) sample_index 3 [] 0).map
        (fun r => (r.ret, r.file.pos)) = some (0, 14) ∧
    (extract stored 20 (open_file [1]) sample_index 3 [] 0).map
        (fun r => (r.ret, r.file.pos)) = some (Z_DATA_ERROR, 1) := by
  refine ⟨rfl, ?_, ?_⟩ <;> decide

/-- C12 (amended). A read of length 0 returns 0 and leaves the file and the buffer as they
were when `findpoint` finds no access point at or before `offset`. When it finds `p`,
`extract` seeks to `p` and reads on from there: if the decoder, set up at `p` on a file that
can be read, resumes properly, `extract` returns 0 for every sufficient fuel and leaves the
buffer as it was, but the file then stands beyond `p.in`, where the setup had put it. -/
theorem extract_zero_length {σ : Type} (z : Zlib σ) (Inv : σ → List Byte → List Byte → Prop)
    (hz : Decodes z Inv) (file : FILE) (index : access) (offset : Int) (buf : List Byte) :
    (findpoint index offset = none →
      ∀ fuel, extract z fuel file index offset buf 0 = some ⟨0, file, buf, none⟩) ∧
    (∀ (p : point) (file1 : FILE) (strm1 : z_stream σ) (D : List Byte),
      findpoint index offset = some p →
      file.faulty = false → file.err = false →
      extract_init z file p = .ok (file1, strm1) →
      Inv strm1.state (file1.data.drop file1.pos) D →
      ∃ N, ∀ fuel, N ≤ fuel →
        ∃ r, extract z fuel file index offset buf 0 = some r ∧ r.ret = 0 ∧ r.buf = buf ∧
          file1.pos = p.in_.toNat ∧ p.in_.toNat < r.file.pos) := by
  refine ⟨?_, ?_⟩
  · intro h fuel
    unfold extract
    rw [if_neg (by decide), h]
  · intro p file1 strm1 D hp hf he hinit hres
    have hle := findpoint_some_le index offset p hp
    obtain ⟨hn1, ht1, hd1, hf1, he1⟩ := extract_init_ok z file p file1 strm1 hinit
    have hpos := extract_init_pos z file p file1 strm1 hinit
    refine ⟨(offset - p.out).toNat + 1 + ((file1.data.drop file1.pos).length + D.length) + 1,
      ?_⟩
    intro fuel hfuel
    obtain ⟨r, hrun, hj, hret, hrbuf, -, -⟩ :=
      extract_outer_spec z Inv hz 0 (le_refl _) (by decide) fuel file1
        { strm1 with next_in := [] } buf D (offset - p.out).toNat
        (by dsimp only; rw [List.length_nil]; clear * - hfuel; omega)
        (hf1.trans hf) (he1.trans he) (by dsimp only; rw [List.nil_append]; exact hres)
        (Nat.zero_le _)
    obtain ⟨-, hlt⟩ := extract_outer_pos z 0 fuel file1 { strm1 with next_in := [] } buf _ true
      r hrun
    rw [Int.toNat_of_nonneg (by clear * - hle; omega)] at hrun
    refine ⟨⟨r.ret, r.file, r.buf, some r.strm⟩,
      extract_of_outer z file index offset buf 0 p file1 strm1 fuel r hp (le_refl _) hinit hrun,
      ?_, ?_, hpos, ?_⟩
    · dsimp only
      rw [hret]
      simp
    · dsimp only
      rw [hrbuf]
      simp
    · dsimp only
      rw [← hpos]
      exact hlt rfl hj

theorem extract_zero_length_witness :
    ∃ N, ∀ fuel, N ≤ fuel →
      ∃ r, extract stored fuel (open_file sample_data) sample_index 3 [7, 7] 0 = some r ∧
        r.ret = 0 ∧ r.buf = [7, 7] ∧
        (⟨sample_data, 1, false, false⟩ : FILE).pos = sample_point.in_.toNat ∧
        sample_point.in_.toNat < r.file.pos :=
  (extract_zero_length stored stored_ahead stored_decodes (open_file sample_data) sample_index
    3 [7, 7]).2 sample_point ⟨sample_data, 1, false, false⟩ ⟨[], 0, 0, 0, 0, ()⟩
    sample_full (by rfl) rfl rfl (by rfl) ⟨by decide, [9, 9], rfl⟩

/-! ### The window of an access point -/

/-- Pure form of the sliding window of `build_index`: a buffer `W` of `N` bytes with `ao`
bytes of room left holds, before the cursor `N - ao`, the newest bytes of `J ++ H`, and from
the cursor on the bytes before those. -/
theorem window_reset (N : Nat) (J W H : List Byte) (hJ : J.length = N) (hW : W.length = N)
    (h1 : W.take (N - 0) = (J ++ H).drop (H.length + 0)) :
    W.take (N - N) = (J ++ H).drop (H.length + N) ∧
    W.drop (N - N) = ((J ++ H).drop H.length).take N := by
  rw [Nat.sub_zero, Nat.add_zero, List.take_of_length_le (le_of_eq hW)] at h1
  rw [Nat.sub_self, List.take_zero, List.drop_zero]
  constructor
  · symm
    apply List.drop_of_length_le
    rw [List.length_append, hJ]
    omega
  · rw [← h1]
    exact (List.take_of_length_le (le_of_eq hW)).symm

theorem window_write (N : Nat) (J W H o : List Byte) (ao : Nat) (hJ : J.length = N)
    (hW : W.length = N) (hao : ao ≤ N) (ho : o.length ≤ ao)
    (h1 : W.take (N - ao) = (J ++ H).drop (H.length + ao))
    (h2 : W.drop (N - ao) = ((J ++ H).drop H.length).take ao) :
    (memcpy W (N - ao) o).length = N ∧
    (memcpy W (N - ao) o).take (N - (ao - o.length))
      = (J ++ (H ++ o)).drop ((H ++ o).length + (ao - o.length)) ∧
    (memcpy W (N - ao) o).drop (N - (ao - o.length))
      = ((J ++ (H ++ o)).drop (H ++ o).length).take (ao - o.length) := by
  have hT : (J ++ H).length = N + H.length := by rw [List.length_append, hJ]
  have hA : (W.take (N - ao) ++ o).length = N - (ao - o.length) := by
    rw [List.length_append, List.length_take, hW]
    omega
  have hm : memcpy W (N - ao) o = (W.take (N - ao) ++ o) ++ (W.drop (N - ao)).drop o.length := by
    unfold memcpy
    rw [List.drop_drop]
  have e1 : (J ++ (H ++ o)).drop ((H ++ o).length + (ao - o.length))
      = (J ++ H).drop (H.length + ao) ++ o := by
    have e : (H ++ o).length + (ao - o.length) = H.length + ao := by
      rw [List.length_append]; omega
    rw [e, ← List.append_assoc]
    exact List.drop_append_of_le_length (by rw [hT]; omega)
  have e2 : ((J ++ (H ++ o)).drop (H ++ o).length).take (ao - o.length)
      = (((J ++ H).drop H.length).take ao).drop o.length := by
    rw [← List.append_assoc, List.length_append,
      List.drop_append_of_le_length (by rw [hT]; omega),
      List.take_append_of_le_length (by rw [List.length_drop, hT]; omega),
      List.drop_take, List.drop_drop]
  refine ⟨?_, ?_, ?_⟩
  · rw [hm, List.length_append, hA, List.length_drop, List.length_drop, hW]
    omega
  · rw [e1, ← h1, hm, ← hA]
    exact List.take_left' rfl
  · rw [e2, ← h2, hm, ← hA]
    exact List.drop_left' rfl

theorem window_snapshot (N : Nat) (J W H : List Byte) (ao : Nat)
    (h1 : W.take (N - ao) = (J ++ H).drop (H.length + ao))
    (h2 : W.drop (N - ao) = ((J ++ H).drop H.length).take ao) :
    W.drop (N - ao) ++ W.take (N - ao) = (J ++ H).drop H.length := by
  rw [h1, h2, ← List.drop_drop]
  exact List.take_append_drop ao _

theorem addpoint_copies (N left : Nat) (w0 window : List Byte) (hw0 : w0.length = N)
    (hw : window.length = N) (hl : left ≤ N) :
    (if left < N then
        memcpy (if left ≠ 0 then memcpy w0 0 ((window.drop (N - left)).take left) else w0) left
          (window.take (N - left))
      else (if left ≠ 0 then memcpy w0 0 ((window.drop (N - left)).take left) else w0))
    = window.drop (N - left) ++ window.take (N - left) := by
  have hA : (window.drop (N - left)).length = left := by
    rw [List.length_drop, hw]; omega
  have hB : (window.take (N - left)).length = N - left := by
    rw [List.length_take, hw]; omega
  have hw1 : (if left ≠ 0 then memcpy w0 0 ((window.drop (N - left)).take left) else w0)
      = window.drop (N - left) ++ w0.drop left := by
    by_cases h0 : left = 0
    · subst h0
      rw [if_neg (by simp), Nat.sub_zero, List.drop_of_length_le (le_of_eq hw)]
      rfl
    · rw [if_pos h0, List.take_of_length_le (le_of_eq hA)]
      unfold memcpy
      rw [List.take_zero, List.nil_append, Nat.zero_add, hA]
  rw [hw1]
  by_cases h1 : left < N
  · rw [if_pos h1]
    unfold memcpy
    have ht : (window.drop (N - left) ++ w0.drop left).take left = window.drop (N - left) :=
      List.take_left' hA
    have hd : (window.drop (N - left) ++ w0.drop left).drop
        (left + (window.take (N - left)).length) = [] :=
      List.drop_of_length_le (by
        rw [List.length_append, hA, List.length_drop, hw0, hB])
    rw [ht, hd, List.append_nil]
  · rw [if_neg h1]
    have e : left = N := by omega
    subst e
    rw [Nat.sub_self, List.take_zero, List.drop_zero, List.append_nil,
      List.drop_of_length_le (le_of_eq hw0), List.append_nil]

theorem addpoint_window (alloc : Nat → Bool) (index : access) (bits in_ out : Int) (left : Nat)
    (window : List Byte) (index2 : access) (hl : left ≤ WINSIZE)
    (hw : window.length = WINSIZE)
    (h : addpoint alloc index bits in_ out left window = some index2) :
    index2.list = index.list ++
      [⟨out, in_, bits, window.drop (WINSIZE - left) ++ window.take (WINSIZE - left)⟩] := by
  have hc := addpoint_copies WINSIZE left (List.replicate WINSIZE 0) window
    (List.length_replicate _ _) hw hl
  unfold addpoint at h
  dsimp only at h
  rw [hc] at h
  by_cases c1 : index.nelements = index.allocated
  · rw [if_pos c1] at h
    by_cases c2 : alloc ((if index.allocated ≠ 0 then index.allocated else 1) <<< 1) = true
    · rw [if_pos c2] at h
      simp only at h
      rw [← Option.some.inj h]
    · rw [if_neg c2] at h
      simp at h
  · rw [if_neg c1] at h
    simp only at h
    rw [← Option.some.inj h]

theorem build_index_body_window {σ : Type} (z : Zlib σ)
    (hz : ∀ s inp ao flush, (z.inflate s inp ao flush).output.length ≤ ao)
    (hist : σ → List Byte)
    (hstep : ∀ s inp ao flush,
      hist (z.inflate s inp ao flush).state = hist s ++ (z.inflate s inp ao flush).output)
    (alloc : Nat → Bool) (span : Int) (st : build_state σ) (hp : window_ok hist st) :
    window_ok hist (build_index_body z alloc span st).1 := by
  obtain ⟨hW, hao, htot, h1, h2, hpts⟩ := hp
  have hJ : (List.replicate WINSIZE (0 : Byte)).length = WINSIZE := List.length_replicate _ _
  -- the stream after the reset of the window
  generalize hs : (if st.strm.avail_out = 0 then { st.strm with avail_out := WINSIZE }
    else st.strm) = strm1
  have hst1 : strm1.state = st.strm.state := by rw [← hs]; split <;> rfl
  have hao1 : strm1.avail_out ≤ WINSIZE := by
    rw [← hs]; split
    · exact le_refl _
    · exact hao
  have hk : st.window.take (WINSIZE - strm1.avail_out)
        = (List.replicate WINSIZE 0 ++ hist st.strm.state).drop
            ((hist st.strm.state).length + strm1.avail_out) ∧
      st.window.drop (WINSIZE - strm1.avail_out)
        = ((List.replicate WINSIZE 0 ++ hist st.strm.state).drop
            (hist st.strm.state).length).take strm1.avail_out := by
    rw [← hs]
    by_cases h0 : st.strm.avail_out = 0
    · rw [if_pos h0]
      rw [h0] at h1
      exact window_reset WINSIZE _ st.window (hist st.strm.state) hJ hW h1
    · rw [if_neg h0]
      exact ⟨h1, h2⟩
  have hout := hz strm1.state strm1.next_in strm1.avail_out Z_BLOCK
  have hH : hist (z.inflate strm1.state strm1.next_in strm1.avail_out Z_BLOCK).state
      = hist st.strm.state
        ++ (z.inflate strm1.state strm1.next_in strm1.avail_out Z_BLOCK).output := by
    rw [← hst1]
    exact hstep strm1.state strm1.next_in strm1.avail_out Z_BLOCK
  obtain ⟨w1, w2, w3⟩ := window_write WINSIZE _ st.window (hist st.strm.state)
    (z.inflate strm1.state strm1.next_in strm1.avail_out Z_BLOCK).output strm1.avail_out hJ hW
    hao1 hout hk.1 hk.2
  rw [← hH] at w2 w3
  have hstate : (inflate z strm1 Z_BLOCK).2.2.state
      = (z.inflate strm1.state strm1.next_in strm1.avail_out Z_BLOCK).state := rfl
  have havail : (inflate z strm1 Z_BLOCK).2.2.avail_out = strm1.avail_out
      - (z.inflate strm1.state strm1.next_in strm1.avail_out Z_BLOCK).output.length := rfl
  have htot2 : st.totout + (strm1.avail_out : Int)
      - ((inflate z strm1 Z_BLOCK).2.2.avail_out : Int)
      = ((hist (inflate z strm1 Z_BLOCK).2.2.state).length : Int) := by
    rw [hstate, havail, hH, List.length_append, htot]
    omega
  have hpts2 : ∀ p ∈ st.index.list, 0 ≤ p.out ∧
      p.out ≤ ((hist (inflate z strm1 Z_BLOCK).2.2.state).length : Int) ∧
      p.window = (List.replicate WINSIZE 0 ++
        (hist (inflate z strm1 Z_BLOCK).2.2.state).take p.out.toNat).drop p.out.toNat := by
    intro p hp
    obtain ⟨p0, p1, p2⟩ := hpts p hp
    rw [hstate, hH, List.length_append, List.take_append_of_le_length (by omega)]
    exact ⟨p0, by push_cast; omega, p2⟩
  have hao2 : (inflate z strm1 Z_BLOCK).2.2.avail_out ≤ WINSIZE :=
    le_trans (Nat.sub_le _ _) hao1
  have hw1 : (memcpy st.window (WINSIZE - strm1.avail_out) (inflate z strm1 Z_BLOCK).2.1).length
      = WINSIZE := w1
  have hw2 : (memcpy st.window (WINSIZE - strm1.avail_out) (inflate z strm1 Z_BLOCK).2.1).take
        (WINSIZE - (inflate z strm1 Z_BLOCK).2.2.avail_out)
      = (List.replicate WINSIZE 0 ++ hist (inflate z strm1 Z_BLOCK).2.2.state).drop
          ((hist (inflate z strm1 Z_BLOCK).2.2.state).length
            + (inflate z strm1 Z_BLOCK).2.2.avail_out) := w2
  have hw3 : (memcpy st.window (WINSIZE - strm1.avail_out) (inflate z strm1 Z_BLOCK).2.1).drop
        (WINSIZE - (inflate z strm1 Z_BLOCK).2.2.avail_out)
      = ((List.replicate WINSIZE 0 ++ hist (inflate z strm1 Z_BLOCK).2.2.state).drop
          (hist (inflate z strm1 Z_BLOCK).2.2.state).length).take
            (inflate z strm1 Z_BLOCK).2.2.avail_out := w3
  unfold build_index_body
  simp only
  rw [hs]
  generalize inflate z strm1 Z_BLOCK = r at htot2 hpts2 hao2 hw1 hw2 hw3 ⊢
  generalize (if r.1 = Z_NEED_DICT then Z_DATA_ERROR else r.1) = ret
  have hkeep : ∀ (e : Int) (j : Bool) (f : FILE) (ti l : Int),
      window_ok hist (⟨e, j, f, r.2.2, memcpy st.window (WINSIZE - strm1.avail_out) r.2.1,
        st.index, ti, st.totout + (strm1.avail_out : Int) - (r.2.2.avail_out : Int), l⟩ :
          build_state σ) :=
    fun e j f ti l => ⟨hw1, hao2, htot2, hw2, hw3, hpts2⟩
  split
  · exact hkeep _ _ _ _ _
  · split
    · exact hkeep _ _ _ _ _
    · split
      · split
        · exact hkeep _ _ _ _ _
        · rename_i index2 hadd
          have hlist := addpoint_window _ _ _ _ _ _ _ _ hao2 hw1 hadd
          refine ⟨hw1, hao2, htot2, hw2, hw3, ?_⟩
          intro p hp
          have hp1 : p ∈ st.index.list ++ [(⟨st.totout + (strm1.avail_out : Int)
              - (r.2.2.avail_out : Int), st.totin + (strm1.avail_in : Int)
              - (r.2.2.avail_in : Int), ((r.2.2.data_type &&& 7 : Nat) : Int),
              (memcpy st.window (WINSIZE - strm1.avail_out) r.2.1).drop
                (WINSIZE - r.2.2.avail_out) ++
              (memcpy st.window (WINSIZE - strm1.avail_out) r.2.1).take
                (WINSIZE - r.2.2.avail_out)⟩ : point)] := by
            rw [← hlist]; exact hp
          rw [List.mem_append] at hp1
          rcases hp1 with hp1 | hp1
          · exact hpts2 p hp1
          · rw [List.mem_singleton] at hp1
            subst hp1
            dsimp only
            rw [htot2, Int.toNat_ofNat, List.take_length]
            exact ⟨Int.ofNat_nonneg _, le_refl _, window_snapshot WINSIZE _ _ _ _ hw2 hw3⟩
      · exact hkeep _ _ _ _ _

theorem drop_append_of_length (J X : List Byte) (n N : Nat) (hJ : J.length = N) (hN : N ≤ n) :
    (J ++ X).drop n = X.drop (n - N) := by
  obtain ⟨k, rfl⟩ := Nat.exists_eq_add_of_le hN
  subst hJ
  rw [Nat.add_sub_cancel_left]
  exact List.drop_append k

/-- C13. Let the decoder store no more than the room it is given, and let `hist` read off
its state the bytes it has produced so far (none after `inflateInit2`, and each call of
`inflate` appends its output). Then every access point `p` that `build_index` leaves in an index that
was empty has a window of exactly `WINSIZE` bytes, and once `p.out ≥ WINSIZE` that window is
the last `WINSIZE` bytes of the stream up to `p.out`, in stream order. The window `addpoint`
stores is, for every `0 ≤ left ≤ WINSIZE`, `window[WINSIZE-left .. WINSIZE)` followed by
`window[0 .. WINSIZE-left)`: the two copies write `WINSIZE` bytes. -/
theorem build_index_window {σ : Type} (z : Zlib σ)
    (hz : ∀ s inp ao flush, (z.inflate s inp ao flush).output.length ≤ ao)
    (hist : σ → List Byte) (hinit : hist (z.inflateInit2 47).2 = [])
    (hstep : ∀ s inp ao flush,
      hist (z.inflate s inp ao flush).state = hist s ++ (z.inflate s inp ao flush).output)
    (alloc : Nat → Bool) (fuel : Nat) (in_ : FILE) (span : Int) (built : access)
    (sz : seekgzip_t) (r : build_result σ) (hb : built.list = [])
    (h : build_index z alloc fuel in_ span built sz = some r) :
    (∀ p ∈ r.built.list, ∃ strm, r.strm = some strm ∧
      0 ≤ p.out ∧ p.out ≤ ((hist strm.state).length : Int) ∧
      p.window.length = WINSIZE ∧
      ((WINSIZE : Int) ≤ p.out →
        p.window = ((hist strm.state).take p.out.toNat).drop (p.out.toNat - WINSIZE))) ∧
    (∀ (index : access) (bits in1 out : Int) (left : Nat) (window : List Byte)
      (index2 : access), left ≤ WINSIZE → window.length = WINSIZE →
      addpoint alloc index bits in1 out left window = some index2 →
      index2.list = index.list ++
        [⟨out, in1, bits, window.drop (WINSIZE - left) ++ window.take (WINSIZE - left)⟩] ∧
      (window.drop (WINSIZE - left)).length + (window.take (WINSIZE - left)).length
        = WINSIZE) := by
  have hJ : (List.replicate WINSIZE (0 : Byte)).length = WINSIZE := List.length_replicate _ _
  refine ⟨?_, ?_⟩
  · have hfin : ∀ st : build_state σ, window_ok hist st → ∀ p ∈ st.index.list,
        0 ≤ p.out ∧ p.out ≤ ((hist st.strm.state).length : Int) ∧
        p.window.length = WINSIZE ∧
        ((WINSIZE : Int) ≤ p.out →
          p.window = ((hist st.strm.state).take p.out.toNat).drop (p.out.toNat - WINSIZE)) := by
      intro st hst p hp
      obtain ⟨p0, p1, p2⟩ := hst.2.2.2.2.2 p hp
      have hlen : ((hist st.strm.state).take p.out.toNat).length = p.out.toNat := by
        rw [List.length_take]; omega
      refine ⟨p0, p1, ?_, ?_⟩
      · rw [p2, List.length_drop, List.length_append, hJ, hlen]
        omega
      · intro hge
        rw [p2]
        exact drop_append_of_length _ _ _ WINSIZE hJ (by omega)
    unfold build_index at h
    simp only at h
    by_cases h1 : (z.inflateInit2 47).1 ≠ Z_OK
    · rw [if_pos h1] at h
      obtain rfl := Option.some.inj h
      intro p hp
      rw [hb] at hp
      cases hp
    · rw [if_neg h1, if_neg (by rw [fseeko_zero]; decide)] at h
      cases ho : build_index_outer z alloc span fuel
          ⟨(fseeko in_ 0).1, false, (fseeko in_ 0).2, ⟨[], 0, 0, 0, 0, (z.inflateInit2 47).2⟩,
            List.replicate WINSIZE 0, built, 0, 0, 0⟩ with
      | none => rw [ho] at h; cases h
      | some st =>
        rw [ho] at h
        simp only at h
        have hinv : window_ok hist st :=
          build_index_outer_inv z alloc span (window_ok hist)
            (fun st _ hp => build_index_body_window z hz hist hstep alloc span st hp)
            (fun st f inp hp => hp)
            (fun st e _ hp => hp)
            fuel _ st rfl ho
            (by
              refine ⟨hJ, Nat.zero_le _, ?_, ?_, ?_, ?_⟩
              · show (0 : Int) = ((hist (z.inflateInit2 47).2).length : Int)
                rw [hinit]; rfl
              · show (List.replicate WINSIZE (0 : Byte)).take (WINSIZE - 0)
                  = (List.replicate WINSIZE 0 ++ hist (z.inflateInit2 47).2).drop
                      ((hist (z.inflateInit2 47).2).length + 0)
                rw [hinit, List.append_nil, List.length_nil, Nat.sub_zero, List.drop_zero]
                exact List.take_of_length_le (le_of_eq hJ)
              · show (List.replicate WINSIZE (0 : Byte)).drop (WINSIZE - 0)
                  = ((List.replicate WINSIZE 0 ++ hist (z.inflateInit2 47).2).drop
                      (hist (z.inflateInit2 47).2).length).take 0
                rw [List.take_zero, Nat.sub_zero]
                exact List.drop_of_length_le (le_of_eq hJ)
              · intro p hp
                rw [hb] at hp
                cases hp)
        by_cases hj : st.jump = true
        · rw [if_pos hj] at h
          obtain rfl := Option.some.inj h
          intro p hp
          exact ⟨st.strm, rfl, hfin st hinv p hp⟩
        · rw [if_neg hj] at h
          obtain rfl := Option.some.inj h
          intro p hp
          exact ⟨st.strm, rfl, hfin st hinv p hp⟩
  · intro index bits in1 out left window index2 hl hw hadd
    refine ⟨addpoint_window alloc index bits in1 out left window index2 hl hw hadd, ?_⟩
    rw [List.length_drop, List.length_take, hw]
    omega

theorem recording_body {σ : Type} (z : Zlib σ) (alloc : Nat → Bool) (span : Int)
    (st : build_state (σ × List Byte)) :
    build_index_body z alloc span (forget_state st)
      = (forget_state (build_index_body (recording z) alloc span st).1,
          (build_index_body (recording z) alloc span st).2) := by
  unfold build_index_body
  by_cases h0 : st.strm.avail_out = 0
  · simp only [forget_state, forget_stream, h0, if_true, inflate, recording,
      z_stream.avail_in]
    split_ifs <;> first | rfl | (split <;> rfl)
  · simp only [forget_state, forget_stream, h0, if_false, inflate, recording,
      z_stream.avail_in]
    split_ifs <;> first | rfl | (split <;> rfl)

theorem recording_inner {σ : Type} (z : Zlib σ) (alloc : Nat → Bool) (span : Int) :
    ∀ (fuel : Nat) (st : build_state (σ × List Byte)),
      build_index_inner z alloc span fuel (forget_state st)
        = (build_index_inner (recording z) alloc span fuel st).map forget_state := by
  intro fuel
  induction fuel with
  | zero => intro st; rfl
  | succ f ih =>
    intro st
    rw [build_index_inner, build_index_inner, recording_body]
    by_cases hc : (build_index_body (recording z) alloc span st).2 = true
    · rw [if_pos hc, if_pos hc, ih]
    · rw [if_neg hc, if_neg hc]
      rfl

theorem recording_outer {σ : Type} (z : Zlib σ) (alloc : Nat → Bool) (span : Int) :
    ∀ (fuel : Nat) (st : build_state (σ × List Byte)),
      build_index_outer z alloc span fuel (forget_state st)
        = (build_index_outer (recording z) alloc span fuel st).map forget_state := by
  intro fuel
  induction fuel with
  | zero => intro st; rfl
  | succ f ih =>
    intro st
    have hin := recording_inner z alloc span f
      { st with file := (fread st.file CHUNK).2,
                strm := { st.strm with next_in := (fread st.file CHUNK).1 } }
    rw [build_index_outer, build_index_outer]
    simp only [forget_state, forget_stream, z_stream.avail_in] at hin ⊢
    by_cases h1 : ferror (fread st.file CHUNK).2 = true
    · simp only [h1, if_true, Option.map_some', forget_state, forget_stream]
    · simp only [h1, Bool.false_eq_true, if_false]
      by_cases h2 : (fread st.file CHUNK).1.length = 0
      · simp only [h2, if_true, Option.map_some', forget_state, forget_stream]
      · simp only [h2, if_false]
        rw [hin]
        cases build_index_inner (recording z) alloc span f
            { st with file := (fread st.file CHUNK).2,
                      strm := { st.strm with next_in := (fread st.file CHUNK).1 } } with
        | none => rfl
        | some st2 =>
          simp only [Option.map_some']
          have hj : (forget_state st2).jump = st2.jump := rfl
          have hr : (forget_state st2).ret = st2.ret := rfl
          rw [hj, hr]
          by_cases h3 : st2.jump = true
          · rw [if_pos h3, if_pos h3]; rfl
          · rw [if_neg h3, if_neg h3]
            by_cases h4 : st2.ret ≠ Z_STREAM_END
            · rw [if_pos h4, if_pos h4]
              exact ih st2
            · rw [if_neg h4, if_neg h4]; rfl

theorem recording_build_index {σ : Type} (z : Zlib σ) (alloc : Nat → Bool) (fuel : Nat)
    (in_ : FILE) (span : Int) (built : access) (sz : seekgzip_t) :
    build_index z alloc fuel in_ span built sz
      = (build_index (recording z) alloc fuel in_ span built sz).map forget_result := by
  unfold build_index
  simp only
  have hi : ((recording z).inflateInit2 47).1 = (z.inflateInit2 47).1 := rfl
  rw [hi]
  by_cases h1 : (z.inflateInit2 47).1 ≠ Z_OK
  · rw [if_pos h1, if_pos h1]; rfl
  · rw [if_neg h1, if_neg h1, if_neg (by rw [fseeko_zero]; decide),
      if_neg (by rw [fseeko_zero]; decide)]
    have hst : (⟨(fseeko in_ 0).1, false, (fseeko in_ 0).2,
          ⟨[], 0, 0, 0, 0, (z.inflateInit2 47).2⟩, List.replicate WINSIZE 0, built, 0, 0, 0⟩ :
          build_state σ)
        = forget_state ⟨(fseeko in_ 0).1, false, (fseeko in_ 0).2,
          ⟨[], 0, 0, 0, 0, ((recording z).inflateInit2 47).2⟩, List.replicate WINSIZE 0, built,
          0, 0, 0⟩ := rfl
    rw [hst, recording_outer]
    cases ho : build_index_outer (recording z) alloc span fuel
        ⟨(fseeko in_ 0).1, false, (fseeko in_ 0).2,
          ⟨[], 0, 0, 0, 0, ((recording z).inflateInit2 47).2⟩, List.replicate WINSIZE 0, built,
          0, 0, 0⟩ with
    | none => rfl
    | some st =>
      simp only [Option.map_some']
      have hj : (forget_state st).jump = st.jump := rfl
      rw [hj]
      by_cases h3 : st.jump = true
      · rw [if_pos h3, if_pos h3]; rfl
      · rw [if_neg h3, if_neg h3]; rfl

theorem burst_room (s : Nat) (inp : List Byte) (ao : Nat) (flush : Int) :
    (burst.inflate s inp ao flush).output.length ≤ ao := by
  show (if s < 33 then (⟨Z_OK, 0, List.replicate ao 65, 0, s + 1⟩ : inflate_result Nat)
    else if s = 33 then ⟨Z_OK, 1, [], 128, 34⟩
    else ⟨Z_STREAM_END, inp.length, [], 0, s⟩).output.length ≤ ao
  split
  · exact le_of_eq (List.length_replicate _ _)
  · split <;> exact Nat.zero_le _

/-- With the decoder `burst` and a record of its output, the only point of the index lies at
33 * 32768 = 1081344. -/
theorem recording_burst_build :
    ∃ r p, build_index (recording burst) (fun _ => true) 40 (open_file [0, 0]) SPAN ⟨0, []⟩
        (fresh_handle [0, 0]) = some r ∧ r.built.list = [p] ∧ p.out = 1081344 := by
  obtain ⟨r, h, -, p, hl, hp⟩ := burst_build (fresh_handle [0, 0])
  rw [recording_build_index] at h
  obtain ⟨r1, h1, e⟩ := Option.map_eq_some'.mp h
  refine ⟨r1, p, h1, ?_, hp⟩
  rw [← hl, ← e]
  rfl

theorem build_index_window_witness :
    ∃ r p, build_index (recording burst) (fun _ => true) 40 (open_file [0, 0]) SPAN ⟨0, []⟩
        (fresh_handle [0, 0]) = some r ∧ r.built.list = [p] ∧ p.out = 1081344 ∧
      ∃ strm, r.strm = some strm ∧ p.window.length = WINSIZE ∧
        p.window = (strm.state.2.take 1081344).drop (1081344 - WINSIZE) := by
  obtain ⟨r, p, h, hl, hp⟩ := recording_burst_build
  obtain ⟨strm, hs, -, -, hlen, hw⟩ :=
    (build_index_window (recording burst) (fun s inp ao flush => burst_room s.1 inp ao flush)
      (fun s => s.2) rfl (fun _ _ _ _ => rfl) (fun _ => true) 40 (open_file [0, 0]) SPAN
      ⟨0, []⟩ (fresh_handle [0, 0]) r rfl h).1 p (by rw [hl]; exact List.mem_singleton_self p)
  refine ⟨r, p, h, hl, hp, strm, hs, hlen, ?_⟩
  have hw2 := hw (by rw [hp]; unfold WINSIZE; decide)
  rw [hp] at hw2
  exact hw2

end Seekgzip
